import Mathlib

/-!
Verification of the typo-correction and etymology-resolution subsystem of
the cairn dictionary lookup feature (src/dict.go), against its
natural-language specification.

The Go code is shallowly embedded: Go strings are modelled as Lean
`String` (a wrapper around `List Char`) where the code works on whole
strings, and as `List Char` where the code works on rune slices; Go `len`
on a string (a byte count) is modelled by `String.utf8ByteSize`.  The
network layer is out of scope (an external collaborator per the spec):
fetched documents appear as explicit arguments.
-/

namespace Cairn

/-- The etymology merge step of `printDictEntries` (src/dict.go lines
658-666): the Wiktionary (secondary) text `s` is chosen over the
Etymonline (primary) text `p` when it is non-empty and `p` is empty or
shorter (Go `len`, i.e. bytes). -/
def mergeEtymologyText (p s : String) : String :=
  if s ≠ "" ∧ (p = "" ∨ p.utf8ByteSize < s.utf8ByteSize) then s else p

/-- Go `strings.HasSuffix` (a byte-suffix test).  Modelled as a character
suffix test on the string's characters: for the suffixes used here ("…"
and "...") a UTF-8 byte suffix begins on a character boundary, so the two
agree. -/
def hasSuffix (s suffix : String) : Bool :=
  suffix.data.isSuffixOf s.data

/-- The truncation check of `printDictEntries` (src/dict.go line 676):
the "(Full entry: ...)" pointer is emitted exactly when the chosen text
ends with a one-character ellipsis or with three periods. -/
def etymTruncated (etym : String) : Bool :=
  hasSuffix etym ("…") || hasSuffix etym ("...")

/-- The reconciled etymology record (spec §3 `ReconciledEtymology`):
chosen text, truncation flag, and the example sentence (which only the
secondary source supplies, src/dict.go lines 660 and 680-682). -/
structure ReconciledEtymology where
  text : String
  truncated : Bool
  exampleText : String
  deriving DecidableEq, Repr

/-- The merge of `printDictEntries` (src/dict.go lines 658-682) as a
record: primary text `p`, secondary text `s`, secondary example `ex`. -/
def reconcileEtymology (p s ex : String) : ReconciledEtymology :=
  { text := mergeEtymologyText p s
    truncated := etymTruncated (mergeEtymologyText p s)
    exampleText := ex }

end Cairn

/-- The reference Levenshtein distance on rune (character) lists: Mathlib's
`levenshtein` with the all-unit cost structure.  Used as the specification
against which the Go dynamic program is proved correct. -/
def levSpec (a b : List Char) : Nat :=
  levenshtein Levenshtein.defaultCost a b

namespace Cairn

/-- Inner loop of `levenshtein` (src/dict.go lines 311-317): computes the
cells `curr[1..]` of the next DP row.  `left` is `curr[j-1]`, `diag` is
`prev[j-1]`, `above` carries `prev[j], prev[j+1], ...`, and the list
argument carries the remaining runes of `b`. -/
def rowFrom (c : Char) (left : Nat) : List Char → Nat → List Nat → List Nat
  | [], _, _ => []
  | y :: ys, diag, above =>
    match above with
    | [] => []
    | a :: rest =>
      let cost : Nat := if c ≠ y then 1 else 0
      let cell := min (left + 1) (min (a + 1) (diag + cost))
      cell :: rowFrom c cell ys a rest

/-- One iteration of the outer loop of `levenshtein` (src/dict.go lines
309-318): from the previous DP row, compute the row for one more rune `c`
of `a` (`curr[0] = i = prev[0] + 1`). -/
def levNextRow (c : Char) (b : List Char) (prev : List Nat) : List Nat :=
  match prev with
  | [] => []
  | p0 :: ptail => (p0 + 1) :: rowFrom c (p0 + 1) b p0 ptail

/-- `levenshtein` (src/dict.go lines 295-321): two-row dynamic program
over the runes of `a` and `b`; `prev` is initialised to `0..nb` and the
answer read from `prev[nb]` (the last cell of the final row). -/
def levenshtein (a b : List Char) : Nat :=
  if a.isEmpty then b.length
  else if b.isEmpty then a.length
  else (a.foldl (fun prev c => levNextRow c b prev) (List.range (b.length + 1))).getLastD 0

/-- The non-empty prefixes of a list, shortest first (proof-side helper
used to state what each DP row holds). -/
def initsNE : List Char → List (List Char)
  | [] => []
  | y :: ys => [y] :: (initsNE ys).map (fun p => y :: p)

/-- Go `strings.ToLower` on a word, modelled on its runes (ASCII case
mapping; the word list served to the matcher is ASCII). -/
def lower (w : List Char) : List Char :=
  w.map Char.toLower

/-- The `update` condition of `suggestClosest` (src/dict.go line 365): a
candidate at distance `d` replaces the current best at distance
`bestDist` iff `d < bestDist`, or `d == bestDist` and the candidate has
the query's length while the current best does not. -/
def suggestUpdate (d bestDist : Nat) (sameLen bestSameLen : Bool) : Bool :=
  d < bestDist || (d == bestDist && sameLen && !bestSameLen)

/-- The scan loop of `suggestClosest` (src/dict.go lines 346-374): `word`
is the lowercased query, `first` its first rune; each entry is lowered,
an exact match returns immediately, the first-rune and length-window
pre-filters skip entries, entries beyond `maxEditDistance` are skipped,
and the best candidate is tracked via `suggestUpdate`.  After the scan
the best word is returned if one was found. -/
def suggestLoop (word : List Char) (first : Char) (maxEditDistance : Nat) :
    List (List Char) → List Char → Nat → Option (List Char)
  | [], bestWord, _ => if bestWord ≠ [] then some bestWord else none
  | w :: rest, bestWord, bestDist =>
    let w := lower w
    if w = word then some w
    else if w.head? ≠ some first then
      suggestLoop word first maxEditDistance rest bestWord bestDist
    else if (w.length : Int) - (word.length : Int) < -2 ∨
        (2 : Int) < (w.length : Int) - (word.length : Int) then
      suggestLoop word first maxEditDistance rest bestWord bestDist
    else
      let d := levenshtein word w
      if maxEditDistance < d then
        suggestLoop word first maxEditDistance rest bestWord bestDist
      else
        let sameLen : Bool := w.length == word.length
        let bestSameLen : Bool := bestWord ≠ [] && bestWord.length == word.length
        if suggestUpdate d bestDist sameLen bestSameLen then
          suggestLoop word first maxEditDistance rest w d
        else
          suggestLoop word first maxEditDistance rest bestWord bestDist

/-- `suggestClosest` (src/dict.go lines 329-375) with the word list (the
collaborator-fetched vocabulary, spec §6) passed explicitly: an empty
list or empty lowered query yields nothing; otherwise the scan runs with
`bestWord = ""` and `bestDist = maxEditDistance + 1`. -/
def suggestClosest (word : List Char) (maxEditDistance : Nat)
    (list : List (List Char)) : Option (List Char) :=
  if list.isEmpty then none
  else
    let word := lower word
    match word with
    | [] => none
    | f :: _ => suggestLoop word f maxEditDistance list [] (maxEditDistance + 1)

/-- The conjunction of the two pre-filters of `suggestClosest`
(src/dict.go lines 352-357), stated for an already-lowered candidate
`w`: first rune matches and the rune-length differs by at most 2. -/
def passesFilters (q : List Char) (f : Char) (w : List Char) : Prop :=
  ¬ (w.head? ≠ some f) ∧
  ¬ ((w.length : Int) - (q.length : Int) < -2 ∨
      (2 : Int) < (w.length : Int) - (q.length : Int))

instance (q : List Char) (f : Char) (w : List Char) : Decidable (passesFilters q f w) := by
  unfold passesFilters
  infer_instance

/-- Match a literal prefix of the input; on success return the rest. -/
def matchLit : List Char → List Char → Option (List Char)
  | [], s => some s
  | _ :: _, [] => none
  | c :: cs, d :: ds => if c = d then matchLit cs ds else none

/-- Skip `n` repetitions of a `[^|]*` field followed by its `|`
separator (the wildcard fields of the template patterns). -/
def skipFields : Nat → List Char → Option (List Char)
  | 0, s => some s
  | n + 1, s =>
    match s.dropWhile (fun c => c != '|') with
    | '|' :: rest => skipFields n rest
    | _ => none

/-- Match the capture `([^}|]+)` followed by the closing `}}` of a
template pattern; return the capture and the rest of the input. -/
def tryCapture (s : List Char) : Option (List Char × List Char) :=
  let y := s.takeWhile (fun c => c != '\x7d' && c != '|')
  if y.isEmpty then none
  else
    match s.dropWhile (fun c => c != '\x7d' && c != '|') with
    | '\x7d' :: '\x7d' :: rest => some (y, rest)
    | _ => none

/-- Matcher for the coded template rules of `cleanEtymologyWikitext`
(src/dict.go lines 571-580): the Go regexps
`\{\{<head>\|[^|]*\|<code>\|([^}|]+)\}\}`, matched at the start of the
input under Go's leftmost-first semantics (the character classes exclude
the delimiters, so matching is deterministic). -/
def tryLangTpl (head code : List Char) (s : List Char) : Option (List Char × List Char) :=
  match matchLit ('\x7b' :: '\x7b' :: (head ++ ['|'])) s with
  | none => none
  | some s1 =>
    match matchLit ('|' :: (code ++ ['|'])) (s1.dropWhile (fun c => c != '|')) with
    | none => none
    | some s3 => tryCapture s3

/-- Matcher for the generic template rules with `wilds` wildcard fields
(src/dict.go lines 576, 581, 583-585): the Go regexps
`\{\{<head>(\|[^|]*){wilds}\|([^}|]+)\}\}`. -/
def tryGenTpl (head : List Char) (wilds : Nat) (s : List Char) :
    Option (List Char × List Char) :=
  match matchLit ('\x7b' :: '\x7b' :: (head ++ ['|'])) s with
  | none => none
  | some s1 =>
    match skipFields wilds s1 with
    | none => none
    | some s2 => tryCapture s2

/-- Matcher for the mention-template rule (src/dict.go line 582):
`\{\{m\|[^|]*\|([^}|]+)(?:\|[^}]*)?\}\}` — like the generic shape but
with an optional trailing argument block. -/
def tryOptTpl (head : List Char) (s : List Char) : Option (List Char × List Char) :=
  match matchLit ('\x7b' :: '\x7b' :: (head ++ ['|'])) s with
  | none => none
  | some s1 =>
    match skipFields 1 s1 with
    | none => none
    | some s2 =>
      let y := s2.takeWhile (fun c => c != '\x7d' && c != '|')
      if y.isEmpty then none
      else
        match s2.dropWhile (fun c => c != '\x7d' && c != '|') with
        | '|' :: s5 =>
          match s5.dropWhile (fun c => c != '\x7d') with
          | '\x7d' :: '\x7d' :: rest => some (y, rest)
          | _ => none
        | '\x7d' :: '\x7d' :: rest => some (y, rest)
        | _ => none

/-- Matcher for the interwiki-link rule (src/dict.go line 586):
`\[\[w:[^\]|]*(?:\|([^\]]+))?\]\]`, replaced by the (possibly absent,
hence empty) capture. -/
def tryWLink (s : List Char) : Option (List Char × List Char) :=
  match matchLit ['[', '[', 'w', ':'] s with
  | none => none
  | some s1 =>
    match s1.dropWhile (fun c => c != ']' && c != '|') with
    | '|' :: s3 =>
      let y := s3.takeWhile (fun c => c != ']')
      if y.isEmpty then none
      else
        match s3.dropWhile (fun c => c != ']') with
        | ']' :: ']' :: rest => some (y, rest)
        | _ => none
    | ']' :: ']' :: rest => some ([], rest)
    | _ => none

/-- Matcher for the wiki-link rule (src/dict.go line 587):
`\[\[([^\]|]+)(?:\|[^\]]+)?\]\]`. -/
def tryLink (s : List Char) : Option (List Char × List Char) :=
  match matchLit ['[', '['] s with
  | none => none
  | some s1 =>
    let y := s1.takeWhile (fun c => c != ']' && c != '|')
    if y.isEmpty then none
    else
      match s1.dropWhile (fun c => c != ']' && c != '|') with
      | '|' :: s3 =>
        let z := s3.takeWhile (fun c => c != ']')
        if z.isEmpty then none
        else
          match s3.dropWhile (fun c => c != ']') with
          | ']' :: ']' :: rest => some (y, rest)
          | _ => none
      | ']' :: ']' :: rest => some (y, rest)
      | _ => none

/-- Matcher for the italics rule (src/dict.go line 588): `''([^']*)''`. -/
def tryItalic (s : List Char) : Option (List Char × List Char) :=
  match matchLit ['\'', '\''] s with
  | none => none
  | some s1 =>
    let y := s1.takeWhile (fun c => c != '\'')
    match matchLit ['\'', '\''] (s1.dropWhile (fun c => c != '\'')) with
    | none => none
    | some rest => some (y, rest)

/-- Drop the input through the first occurrence of `pat` (the lazy
`[\s\S]*?` up to the literal close tag). -/
def dropThrough (pat : List Char) : List Char → Option (List Char)
  | [] => if pat.isEmpty then some [] else none
  | c :: cs =>
    if pat.isPrefixOf (c :: cs) then some ((c :: cs).drop pat.length)
    else dropThrough pat cs

/-- Matcher for the paired-reference rule (src/dict.go line 589):
`<ref[^>]*>[\s\S]*?</ref>`, removed entirely. -/
def tryRefPair (s : List Char) : Option (List Char × List Char) :=
  match matchLit ['<', 'r', 'e', 'f'] s with
  | none => none
  | some s1 =>
    match s1.dropWhile (fun c => c != '>') with
    | '>' :: s2 =>
      match dropThrough ['<', '/', 'r', 'e', 'f', '>'] s2 with
      | none => none
      | some rest => some ([], rest)
    | _ => none

/-- Matcher for the self-closing-reference rule (src/dict.go line 590):
`<ref[^>]*/>` (the class excludes `>`, so the `/` must be the character
directly before the closing `>`). -/
def tryRefSelf (s : List Char) : Option (List Char × List Char) :=
  match matchLit ['<', 'r', 'e', 'f'] s with
  | none => none
  | some s1 =>
    match s1.dropWhile (fun c => c != '>') with
    | '>' :: rest =>
      if (s1.takeWhile (fun c => c != '>')).getLast? = some '/' then some ([], rest)
      else none
    | _ => none

/-- Matcher for the leftover-template rule (src/dict.go line 591):
`\{\{[^}]*\}\}`, removed entirely. -/
def tryAnyTpl (s : List Char) : Option (List Char × List Char) :=
  match matchLit ['\x7b', '\x7b'] s with
  | none => none
  | some s1 =>
    match s1.dropWhile (fun c => c != '\x7d') with
    | '\x7d' :: '\x7d' :: rest => some ([], rest)
    | _ => none

/-- Matcher for the blank-line collapse rule (src/dict.go line 592):
`\n{3,}`, replaced by two newlines. -/
def tryNewlines (s : List Char) : Option (List Char × List Char) :=
  let r := s.takeWhile (fun c => c == '\n')
  if 3 ≤ r.length then some ([], s.dropWhile (fun c => c == '\n')) else none

/-- Matcher for the horizontal-whitespace collapse rule (src/dict.go
line 593): `[ \t]+`, replaced by one space. -/
def trySpaces (s : List Char) : Option (List Char × List Char) :=
  let r := s.takeWhile (fun c => c == ' ' || c == '\t')
  if r.isEmpty then none
  else some ([], s.dropWhile (fun c => c == ' ' || c == '\t'))

/-- Go `Regexp.ReplaceAllString` for the matchers above: scan left to
right, replacing each leftmost non-overlapping match; `tm` yields a
match's capture and the input after the match.  The guard is never hit:
every pattern above consumes at least one character on a match (proved
where needed), exactly as the Go regexps do. -/
def replaceAll (tm : List Char → Option (List Char × List Char))
    (repl : List Char → List Char) (s : List Char) : List Char :=
  match _h : tm s with
  | some (y, rest) =>
    if _hlt : rest.length < s.length then repl y ++ replaceAll tm repl rest
    else s
  | none =>
    match s with
    | [] => []
    | c :: cs => c :: replaceAll tm repl cs
termination_by s.length
decreasing_by
  · assumption
  · simp

/-- Go `strings.TrimSpace` (leading and trailing whitespace removed; the
whitespace forms that occur here are covered by `Char.isWhitespace`). -/
def trimSpaceL (s : List Char) : List Char :=
  ((s.dropWhile Char.isWhitespace).reverse.dropWhile Char.isWhitespace).reverse

/-- Rule of src/dict.go line 571: `\{\{inh\|[^|]*\|enm\|([^}|]+)\}\}` →
`Middle English $1`. -/
def ruleInhEnm : List Char → List Char :=
  replaceAll (tryLangTpl ['i', 'n', 'h'] ['e', 'n', 'm']) (fun y => ("Middle English ").data ++ y)

/-- Rule of src/dict.go line 572: inheritance from Old English. -/
def ruleInhAng : List Char → List Char :=
  replaceAll (tryLangTpl ['i', 'n', 'h'] ['a', 'n', 'g']) (fun y => ("Old English ").data ++ y)

/-- Rule of src/dict.go line 573: inheritance from Old French. -/
def ruleInhFro : List Char → List Char :=
  replaceAll (tryLangTpl ['i', 'n', 'h'] ['f', 'r', 'o']) (fun y => ("Old French ").data ++ y)

/-- Rule of src/dict.go line 574: inheritance from Latin. -/
def ruleInhLa : List Char → List Char :=
  replaceAll (tryLangTpl ['i', 'n', 'h'] ['l', 'a']) (fun y => ("Latin ").data ++ y)

/-- Rule of src/dict.go line 575: inheritance from Ancient Greek. -/
def ruleInhGrc : List Char → List Char :=
  replaceAll (tryLangTpl ['i', 'n', 'h'] ['g', 'r', 'c']) (fun y => ("Ancient Greek ").data ++ y)

/-- Rule of src/dict.go line 576: generic inheritance template → `$1`. -/
def ruleInhGen : List Char → List Char :=
  replaceAll (tryGenTpl ['i', 'n', 'h'] 2) (fun y => y)

/-- Rule of src/dict.go line 577: derivation from Old French. -/
def ruleDerFro : List Char → List Char :=
  replaceAll (tryLangTpl ['d', 'e', 'r'] ['f', 'r', 'o']) (fun y => ("Old French ").data ++ y)

/-- Rule of src/dict.go line 578: derivation from Latin. -/
def ruleDerLa : List Char → List Char :=
  replaceAll (tryLangTpl ['d', 'e', 'r'] ['l', 'a']) (fun y => ("Latin ").data ++ y)

/-- Rule of src/dict.go line 579: derivation from Middle English. -/
def ruleDerEnm : List Char → List Char :=
  replaceAll (tryLangTpl ['d', 'e', 'r'] ['e', 'n', 'm']) (fun y => ("Middle English ").data ++ y)

/-- Rule of src/dict.go line 580: derivation from Ancient Greek. -/
def ruleDerGrc : List Char → List Char :=
  replaceAll (tryLangTpl ['d', 'e', 'r'] ['g', 'r', 'c']) (fun y => ("Ancient Greek ").data ++ y)

/-- Rule of src/dict.go line 581: generic derivation template → `$1`. -/
def ruleDerGen : List Char → List Char :=
  replaceAll (tryGenTpl ['d', 'e', 'r'] 2) (fun y => y)

/-- Rule of src/dict.go line 582: mention template → `$1`. -/
def ruleM : List Char → List Char :=
  replaceAll (tryOptTpl ['m']) (fun y => y)

/-- Rule of src/dict.go line 583: link template → `$1`. -/
def ruleL : List Char → List Char :=
  replaceAll (tryGenTpl ['l'] 1) (fun y => y)

/-- Rule of src/dict.go line 584: cognate template → `$1`. -/
def ruleCog : List Char → List Char :=
  replaceAll (tryGenTpl ['c', 'o', 'g'] 1) (fun y => y)

/-- Rule of src/dict.go line 585: non-cognate template → `$1`. -/
def ruleNcog : List Char → List Char :=
  replaceAll (tryGenTpl ['n', 'c', 'o', 'g'] 1) (fun y => y)

/-- Rule of src/dict.go line 586: interwiki link → its label. -/
def ruleWLink : List Char → List Char :=
  replaceAll tryWLink (fun y => y)

/-- Rule of src/dict.go line 587: wiki link → its target text. -/
def ruleLink : List Char → List Char :=
  replaceAll tryLink (fun y => y)

/-- Rule of src/dict.go line 588: italics markup → its inner text. -/
def ruleItalic : List Char → List Char :=
  replaceAll tryItalic (fun y => y)

/-- Rule of src/dict.go line 589: paired references removed. -/
def ruleRefPair : List Char → List Char :=
  replaceAll tryRefPair (fun _ => [])

/-- Rule of src/dict.go line 590: self-closing references removed. -/
def ruleRefSelf : List Char → List Char :=
  replaceAll tryRefSelf (fun _ => [])

/-- Rule of src/dict.go line 591: leftover templates removed. -/
def ruleAnyTpl : List Char → List Char :=
  replaceAll tryAnyTpl (fun _ => [])

/-- Rule of src/dict.go line 592: three or more newlines → two. -/
def ruleNewlines : List Char → List Char :=
  replaceAll tryNewlines (fun _ => ['\n', '\n'])

/-- Rule of src/dict.go line 593: runs of spaces and tabs → one space. -/
def ruleSpaces : List Char → List Char :=
  replaceAll trySpaces (fun _ => [' '])

/-- `cleanEtymologyWikitext` (src/dict.go lines 570-595) on the
character list: the declarative ordered list of replacement rules,
applied in the source's order, then `strings.TrimSpace`. -/
def cleanEtymologyL (s : List Char) : List Char :=
  trimSpaceL
    (ruleSpaces (ruleNewlines (ruleAnyTpl (ruleRefSelf (ruleRefPair (ruleItalic (ruleLink
      (ruleWLink (ruleNcog (ruleCog (ruleL (ruleM (ruleDerGen (ruleDerGrc (ruleDerEnm
        (ruleDerLa (ruleDerFro (ruleInhGen (ruleInhGrc (ruleInhLa (ruleInhFro
          (ruleInhAng (ruleInhEnm s)))))))))))))))))))))))

/-- `cleanEtymologyWikitext` (src/dict.go lines 570-595). -/
def cleanEtymologyWikitext (s : String) : String :=
  ⟨cleanEtymologyL s.data⟩

/-- The one-template inputs the markup-cleaning claim quantifies over:
`{{<head>|<field>|<code>|<term>}}`. -/
def langTpl (head field code term : List Char) : List Char :=
  '\x7b' :: '\x7b' :: (head ++ '|' :: (field ++ '|' :: (code ++ '|' :: (term ++ ['\x7d', '\x7d']))))

/-- Lowercase ASCII letters: the alphabet of the language codes and
terms the markup-cleaning claim ranges over. -/
def lalpha (c : Char) : Prop := 'a' ≤ c ∧ c ≤ 'z'

/-- Go `strings.TrimSuffix(path, "/")`: one trailing slash removed if
present (src/dict.go line 401). -/
def trimSuffixSlash (p : List Char) : List Char :=
  if p.getLast? = some '/' then p.dropLast else p

/-- The resolved headword of the served document: the last `/`-component
of the path with a trailing slash trimmed, lowercased (src/dict.go lines
401-404). `strings.Split` never returns an empty list, so the Go index
`parts[len(parts)-1]` is modelled by `getLastD`. -/
def resolvedHeadword (p : List Char) : List Char :=
  lower (((trimSuffixSlash p).splitOn '/').getLastD [])

/-- Matcher for Go `strings.ReplaceAll` with a literal pattern: match the
literal at the head of the input. -/
def tryLit (lit : List Char) (s : List Char) : Option (List Char × List Char) :=
  if lit.isEmpty then none
  else
    match matchLit lit s with
    | some rest => some ([], rest)
    | none => none

/-- The first capture of the Go regexp `<lit>([^"]+)"` in the input
(leftmost match, as `FindStringSubmatch` returns): scan for the first
position where the literal matches and a non-empty quote-free capture is
closed by a quote (src/dict.go lines 417-424). -/
def findCapture (lit : List Char) : List Char → Option (List Char)
  | [] => none
  | c :: cs =>
    match matchLit lit (c :: cs) with
    | some rest =>
      let y := rest.takeWhile (fun ch => ch != '"')
      if y.isEmpty then findCapture lit cs
      else if (rest.dropWhile (fun ch => ch != '"')).head? = some '"' then some y
      else findCapture lit cs
    | none => findCapture lit cs

/-- The meta-description extraction of src/dict.go lines 417-424: the
`name="description"` meta tag's content, else the `og:description`
fallback. -/
def metaDescription (body : List Char) : Option (List Char) :=
  match findCapture (("<meta name=\"description\" content=\"").data) body with
  | some y => some y
  | none => findCapture (("<meta property=\"og:description\" content=\"").data) body

/-- The index of the first occurrence of `lit` in the input, as Go
`strings.Index` (positions counted in list elements: exact byte indices
on the byte sequences of `extractWiktionaryExampleL`, rune positions in
`cutSeeOrigin`, whose pattern and inputs there are ASCII). -/
def indexOfLit (lit : List Char) : List Char → Option Nat
  | [] => if lit.isEmpty then some 0 else none
  | c :: cs =>
    if lit.isPrefixOf (c :: cs) then some 0
    else
      match indexOfLit lit cs with
      | some n => some (n + 1)
      | none => none

/-- Cut the trailing `" See origin and meaning of X."` sentence: truncate
at the first occurrence of `" See origin"` when its index is positive
(src/dict.go lines 426-428). -/
def cutSeeOrigin (s : List Char) : List Char :=
  match indexOfLit ((" See origin").data) s with
  | some n => if 0 < n then s.take n else s
  | none => s

/-- The four HTML-entity decodings of src/dict.go lines 435-438, applied
in the source's order. -/
def decodeEntities (s : List Char) : List Char :=
  replaceAll (tryLit (("&hellip;").data)) (fun _ => ("...").data)
    (replaceAll (tryLit (("&#39;").data)) (fun _ => ['\x27'])
      (replaceAll (tryLit (("&amp;").data)) (fun _ => ['&'])
        (replaceAll (tryLit (("&quot;").data)) (fun _ => ['"']) s)))

/-- Go's regexp `\s` class: `[\t\n\f\r ]`. -/
def isGoSpace (c : Char) : Bool :=
  c == ' ' || c == '\t' || c == '\n' || c == '\x0c' || c == '\x0d'

/-- The suffix after the last newline of the input; `none` when the
input has no newline. -/
def afterLastNl : List Char → Option (List Char)
  | [] => none
  | c :: cs =>
    match afterLastNl cs with
    | some r => some r
    | none => if c = '\n' then some cs else none

/-- At the position right after the `==English==` literal: match `\s*\n`
(greedy, so ending at the last newline of the whitespace run) and return
the lazy capture `([\s\S]*?)` up to the first line end — the terminator
`(?:\n==[^=\n][^\n]*|$)` under `(?m)` always matches first at the
current line's end. `none` when the whitespace run has no newline (no
match at this position). -/
def lineAfterWs (s : List Char) : Option (List Char) :=
  match afterLastNl (s.takeWhile isGoSpace) with
  | none => none
  | some r2 => some (r2 ++ (s.dropWhile isGoSpace).takeWhile (fun c => c != '\n'))

/-- Scan of the `(?m)^==English==\s*\n([\s\S]*?)(?:\n==[^=\n][^\n]*|$)`
search (src/dict.go line 532): positions left to right, the `^` anchor
holding only at line starts (the flag tracks whether the current
position is one). -/
def esGo : Bool → List Char → Option (List Char)
  | _, [] => none
  | false, c :: cs => esGo (c = '\n') cs
  | true, c :: cs =>
    match matchLit (("==English==").data) (c :: cs) with
    | some rest =>
      match lineAfterWs rest with
      | some cap => some cap
      | none => esGo (c = '\n') cs
    | none => esGo (c = '\n') cs

/-- The captured English section of the page (src/dict.go lines 532-535):
`none` models `len(englishBlock) < 2`, i.e. no match. -/
def englishSection (s : List Char) : Option (List Char) :=
  esGo true s

/-- Shared tail of the quotation-template patterns: the capture
`([^}|]+)`, an optional `(?:\|[^}]*)?` argument block, and the closing
`\}\}`. -/
def captureOptTail (s2 : List Char) : Option (List Char × List Char) :=
  let y := s2.takeWhile (fun c => c != '\x7d' && c != '|')
  if y.isEmpty then none
  else
    match s2.dropWhile (fun c => c != '\x7d' && c != '|') with
    | '|' :: s5 =>
      match s5.dropWhile (fun c => c != '\x7d') with
      | '\x7d' :: '\x7d' :: rest => some (y, rest)
      | _ => none
    | '\x7d' :: '\x7d' :: rest => some (y, rest)
    | _ => none

/-- Matcher for `\{\{ux\|en\|([^}|]+)(?:\|[^}]*)?\}\}` (src/dict.go
line 538). -/
def tryUx (s : List Char) : Option (List Char × List Char) :=
  match matchLit (("\x7b\x7bux|en|").data) s with
  | some s2 => captureOptTail s2
  | none => none

/-- Matcher for `\|passage=([^}|]+)(?:\|[^}]*)?\}\}` (src/dict.go
line 541). -/
def tryPassage (s : List Char) : Option (List Char × List Char) :=
  match matchLit (("|passage=").data) s with
  | some s2 => captureOptTail s2
  | none => none

/-- `FindStringSubmatch` for the matchers above: the capture of the
leftmost match. -/
def findFirst (tm : List Char → Option (List Char × List Char)) :
    List Char → Option (List Char)
  | [] => none
  | c :: cs =>
    match tm (c :: cs) with
    | some (y, _) => some y
    | none => findFirst tm cs

/-- At a line start: `#:\s*([^\n]+)` (src/dict.go line 548). After the
literal, greedy `\s*` runs to the first non-whitespace character and the
capture runs to the line end; when only whitespace remains, `\s*` gives
one character back and the capture is that character (if it is not a
newline). -/
def tryHashColon (s : List Char) : Option (List Char) :=
  match matchLit ['#', ':'] s with
  | none => none
  | some r =>
    let rest := r.dropWhile isGoSpace
    if rest.isEmpty then
      match (r.takeWhile isGoSpace).getLast? with
      | some c => if c = '\n' then none else some [c]
      | none => none
    else some (rest.takeWhile (fun c => c != '\n'))

/-- Scan of the `(?m)^#:\s*([^\n]+)` search: positions left to right,
`^` holding only at line starts. -/
def hashColonFind : Bool → List Char → Option (List Char)
  | _, [] => none
  | false, c :: cs => hashColonFind (c = '\n') cs
  | true, c :: cs =>
    match tryHashColon (c :: cs) with
    | some y => some y
    | none => hashColonFind (c = '\n') cs

/-- The trim-and-cut step of the `#:` branch (src/dict.go lines 549-552):
trim the capture, and when `\x7b\x7b` occurs at a positive index, cut
there and trim again. -/
def hashCut (y : List Char) : List Char :=
  let ex := trimSpaceL y
  match indexOfLit ['\x7b', '\x7b'] ex with
  | some n => if 0 < n then trimSpaceL (ex.take n) else ex
  | none => ex

/-- Matcher for the bold markup `'''([^']*)'''` of `cleanExampleText`
(src/dict.go line 565). -/
def tryBold (s : List Char) : Option (List Char × List Char) :=
  match matchLit ['\x27', '\x27', '\x27'] s with
  | none => none
  | some s1 =>
    let y := s1.takeWhile (fun c => c != '\x27')
    match matchLit ['\x27', '\x27', '\x27'] (s1.dropWhile (fun c => c != '\x27')) with
    | some rest => some (y, rest)
    | none => none

/-- `cleanExampleText` (src/dict.go lines 563-568): trim, strip bold
markup, strip wiki links, trim. -/
def cleanExampleTextL (s : List Char) : List Char :=
  trimSpaceL (replaceAll tryLink (fun y => y) (replaceAll tryBold (fun y => y) (trimSpaceL s)))

/-- The newline normalization of src/dict.go lines 531-532: `\x0d\n`
then `\x0d` replaced by `\n`. -/
def normalizeNewlines (s : List Char) : List Char :=
  replaceAll (tryLit ['\x0d']) (fun _ => ['\n'])
    (replaceAll (tryLit ['\x0d', '\n']) (fun _ => ['\n']) s)

/-- The body of `extractWiktionaryExample` on the captured English
section (src/dict.go lines 537-559): the ux template, else the passage
field capped at 300, else the first `#:` line's text when longer than
20, capped at 280. The section is the document's byte sequence (see
`extractWiktionaryExampleL`), so `List.length` is Go's byte `len` and
`List.take` is Go's byte slicing `ex[:297]`/`ex[:277]` — the caps and
the gate count bytes, not characters. -/
def exampleFromSection (sec : List Char) : List Char :=
  match findFirst tryUx sec with
  | some y => cleanExampleTextL y
  | none =>
    match findFirst tryPassage sec with
    | some y => cleanExampleTextL (if 300 < y.length then y.take 297 ++ ("...").data else y)
    | none =>
      match hashColonFind true sec with
      | some y =>
        let ex := hashCut y
        if ex ≠ [] ∧ 20 < ex.length then
          cleanExampleTextL (if 280 < ex.length then ex.take 277 ++ ("...").data else ex)
        else []
      | none => []

/-- The UTF-8 encoding of a character, each byte represented as the
`Char` of its value (0-255). -/
def utf8Bytes (c : Char) : List Char :=
  let n := c.toNat
  if n < 0x80 then [Char.ofNat n]
  else if n < 0x800 then [Char.ofNat (0xC0 + n / 0x40), Char.ofNat (0x80 + n % 0x40)]
  else if n < 0x10000 then
    [Char.ofNat (0xE0 + n / 0x1000), Char.ofNat (0x80 + (n / 0x40) % 0x40),
      Char.ofNat (0x80 + n % 0x40)]
  else
    [Char.ofNat (0xF0 + n / 0x40000), Char.ofNat (0x80 + (n / 0x1000) % 0x40),
      Char.ofNat (0x80 + (n / 0x40) % 0x40), Char.ofNat (0x80 + n % 0x40)]

/-- A Go string is a byte sequence: its UTF-8 bytes, each modeled as the
`Char` of its value, so that `List.length` is Go's `len` and `List.take`
is Go's byte slicing. -/
def strBytes (s : String) : List Char :=
  s.data.flatMap utf8Bytes

/-- `extractWiktionaryExample` (src/dict.go lines 530-561) on the
document's byte sequence (as produced by `strBytes`): every pattern
above starts with an ASCII literal and its character classes exclude
only ASCII delimiters, and UTF-8 continuation and lead bytes (≥ 0x80)
are distinct from every ASCII byte, so the byte-level scan matches
exactly the spans the Go regexp engine matches on runes — while lengths,
indices and cuts are Go's byte `len()`, `strings.Index` and slicing. -/
def extractWiktionaryExampleL (s : List Char) : List Char :=
  match englishSection (normalizeNewlines s) with
  | none => []
  | some sec => exampleFromSection sec

/-- `extractWiktionaryExample` (src/dict.go lines 530-561): the result's
byte sequence. -/
def extractWiktionaryExample (s : String) : List Char :=
  extractWiktionaryExampleL (strBytes s)

/-- `fetchEtymonlineEtymology` (src/dict.go lines 378-442) with the
network abstracted away: the served response is given by its HTTP
status, the final request path (after any redirects) and the body.
`none` models the error returns; `some []` models `("", nil)`. -/
def fetchEtymonlineEtymology (word : String) (status : Nat) (respPath : List Char)
    (body : List Char) : Option (List Char) :=
  let w := trimSpaceL (lower word.data)
  if w = [] then none
  else if status ≠ 200 then none
  else if resolvedHeadword respPath ≠ w then some []
  else
    match metaDescription body with
    | none => some []
    | some etym =>
      let etym2 := trimSpaceL (cutSeeOrigin etym)
      if etym2 = [] then some []
      else some (decodeEntities etym2)

instance (c : Char) : Decidable (lalpha c) := by
  unfold lalpha
  infer_instance

end Cairn

namespace Cairn

/-- C1: the merge step chooses the secondary text S exactly when S is
non-empty and (P is empty or S is longer than P); in every other case it
chooses P, and when both are empty the result text is empty. -/
theorem claim_C1 (p s ex : String) :
    ((s ≠ "" ∧ (p = "" ∨ p.utf8ByteSize < s.utf8ByteSize)) →
      (reconcileEtymology p s ex).text = s) ∧
    ((¬ (s ≠ "" ∧ (p = "" ∨ p.utf8ByteSize < s.utf8ByteSize))) →
      (reconcileEtymology p s ex).text = p) ∧
    (p = "" → s = "" → (reconcileEtymology p s ex).text = "") := by
  refine ⟨fun h => ?_, fun h => ?_, fun hp hs => ?_⟩
  · simp [reconcileEtymology, mergeEtymologyText, h]
  · simp [reconcileEtymology, mergeEtymologyText, h]
  · subst hp; subst hs; simp [reconcileEtymology, mergeEtymologyText]

theorem claim_C1_witness :
    (((("ab")) ≠ "" ∧ ((("a")) = "" ∨ (("a")).utf8ByteSize < (("ab")).utf8ByteSize)) ∧
      (reconcileEtymology ("a") ("ab") ("")).text = ("ab")) :=
  ⟨by decide, (claim_C1 ("a") ("ab") ("")).1 (by decide)⟩

/-- C8: the result is marked truncated iff the chosen text ends with the
one-character ellipsis or with three periods; a text ending in a single
period that is not an ellipsis is not marked truncated, and when both
sources are empty the result is not marked truncated. -/
theorem claim_C8 :
    (∀ p s ex : String,
      (reconcileEtymology p s ex).truncated =
        (hasSuffix (reconcileEtymology p s ex).text ("…") ||
          hasSuffix (reconcileEtymology p s ex).text ("..."))) ∧
    (reconcileEtymology ("") ("A word from Latin.") ("")).truncated = false ∧
    (reconcileEtymology ("") ("A cut-short text...") ("")).truncated = true ∧
    (reconcileEtymology ("") ("") ("")).truncated = false := by
  refine ⟨fun p s ex => rfl, by decide, by decide, by decide⟩

end Cairn

theorem levSpec_nil_left (b : List Char) : levSpec [] b = b.length := by
  induction b with
  | nil => simp [levSpec]
  | cons y ys ih => simp only [levSpec] at ih ⊢; simp [ih]; omega

theorem levSpec_nil_right (a : List Char) : levSpec a [] = a.length := by
  induction a with
  | nil => simp [levSpec]
  | cons x xs ih => simp only [levSpec] at ih ⊢; simp [ih]; omega

theorem levSpec_cons_cons (x y : Char) (xs ys : List Char) :
    levSpec (x :: xs) (y :: ys) =
      min (1 + levSpec xs (y :: ys))
        (min (1 + levSpec (x :: xs) ys) ((if x = y then 0 else 1) + levSpec xs ys)) := by
  simp [levSpec, levenshtein_cons_cons]

theorem levSpec_snoc_aux :
    ∀ (n : Nat) (c d : Char) (u v : List Char), u.length + v.length ≤ n →
      levSpec (u ++ [c]) (v ++ [d]) =
        min (levSpec (u ++ [c]) v + 1)
          (min (levSpec u (v ++ [d]) + 1)
            (levSpec u v + (if c = d then 0 else 1))) := by
  intro n
  induction n with
  | zero =>
    intro c d u v h
    match u, v with
    | [], [] =>
      simp only [List.nil_append, levSpec_cons_cons, levSpec_nil_left, levSpec_nil_right,
        List.length_nil, List.length_cons]
      omega
    | [], _ :: _ => simp at h
    | _ :: _, _ => simp at h
  | succ m IH =>
    intro c d u v h
    match u, v with
    | [], [] =>
      simp only [List.nil_append, levSpec_cons_cons, levSpec_nil_left, levSpec_nil_right,
        List.length_nil, List.length_cons]
      omega
    | [], y :: ys =>
      have IH1 := IH c d [] ys (by simp only [List.length_cons, List.length_nil] at h ⊢; omega)
      simp only [List.nil_append, List.cons_append] at IH1 ⊢
      simp only [levSpec_cons_cons]
      rw [IH1]
      simp only [levSpec_nil_left, List.length_cons, List.length_append, List.length_nil]
      omega
    | x :: xs, [] =>
      have IH1 := IH c d xs [] (by simp only [List.length_cons, List.length_nil] at h ⊢; omega)
      simp only [List.nil_append, List.cons_append] at IH1 ⊢
      simp only [levSpec_cons_cons]
      rw [IH1]
      simp only [levSpec_nil_right, List.length_cons, List.length_append, List.length_nil]
      omega
    | x :: xs, y :: ys =>
      have IH1 := IH c d xs (y :: ys)
        (by simp only [List.length_cons] at h ⊢; omega)
      have IH2 := IH c d (x :: xs) ys
        (by simp only [List.length_cons] at h ⊢; omega)
      have IH3 := IH c d xs ys
        (by simp only [List.length_cons] at h ⊢; omega)
      simp only [List.cons_append] at IH1 IH2 IH3 ⊢
      simp only [levSpec_cons_cons]
      rw [IH1, IH2, IH3]
      simp only [← min_add_add_left, ← min_add_add_right]
      apply le_antisymm <;> simp only [le_min_iff, min_le_iff] <;> omega

theorem levSpec_snoc (c d : Char) (u v : List Char) :
    levSpec (u ++ [c]) (v ++ [d]) =
      min (levSpec (u ++ [c]) v + 1)
        (min (levSpec u (v ++ [d]) + 1)
          (levSpec u v + (if c = d then 0 else 1))) :=
  levSpec_snoc_aux (u.length + v.length) c d u v le_rfl

theorem cost_shape (c y : Char) :
    (if c ≠ y then 1 else 0 : Nat) = (if c = y then 0 else 1) := by
  by_cases h : c = y <;> simp [h]

theorem rowFrom_spec (c : Char) (u : List Char) :
    ∀ (ys v : List Char),
      Cairn.rowFrom c (levSpec (u ++ [c]) v) ys (levSpec u v)
          ((Cairn.initsNE ys).map (fun p => levSpec u (v ++ p))) =
        (Cairn.initsNE ys).map (fun p => levSpec (u ++ [c]) (v ++ p)) := by
  intro ys
  induction ys with
  | nil => intro v; simp [Cairn.rowFrom, Cairn.initsNE]
  | cons y ys ih =>
    intro v
    simp only [Cairn.initsNE, List.map_cons, List.map_map, Cairn.rowFrom, Function.comp_def]
    have hcell :
        min (levSpec (u ++ [c]) v + 1)
            (min (levSpec u (v ++ [y]) + 1)
              (levSpec u v + (if c ≠ y then 1 else 0))) =
          levSpec (u ++ [c]) (v ++ [y]) := by
      rw [cost_shape, ← levSpec_snoc]
    rw [hcell]
    have htail := ih (v ++ [y])
    simp only [List.append_assoc, List.singleton_append] at htail
    rw [htail]

theorem levNextRow_spec (c : Char) (u b : List Char) :
    Cairn.levNextRow c b
        (levSpec u [] :: (Cairn.initsNE b).map (fun p => levSpec u p)) =
      levSpec (u ++ [c]) [] :: (Cairn.initsNE b).map (fun p => levSpec (u ++ [c]) p) := by
  simp only [Cairn.levNextRow]
  have h0 : levSpec u [] + 1 = levSpec (u ++ [c]) [] := by
    simp [levSpec_nil_right]
  rw [h0]
  have := rowFrom_spec c u b []
  simp only [List.nil_append] at this
  rw [this]

theorem foldl_levNextRow (b : List Char) :
    ∀ (rest u : List Char),
      rest.foldl (fun prev c => Cairn.levNextRow c b prev)
          (levSpec u [] :: (Cairn.initsNE b).map (fun p => levSpec u p)) =
        levSpec (u ++ rest) [] ::
          (Cairn.initsNE b).map (fun p => levSpec (u ++ rest) p) := by
  intro rest
  induction rest with
  | nil => intro u; simp
  | cons c cs ih =>
    intro u
    simp only [List.foldl_cons]
    rw [levNextRow_spec, ih (u ++ [c])]
    simp only [List.append_assoc, List.singleton_append]

theorem initial_row (b : List Char) :
    List.range (b.length + 1) =
      levSpec [] [] :: (Cairn.initsNE b).map (fun p => levSpec [] p) := by
  simp only [levSpec_nil_left, List.length_nil]
  induction b with
  | nil => simp only [Cairn.initsNE, List.map_nil]; decide
  | cons y ys ih =>
    rw [List.length_cons, List.range_succ_eq_map, ih]
    simp [Cairn.initsNE, List.map_map, Function.comp, Nat.succ_eq_add_one]

theorem getLast?_cons_of_ne {α : Type} (a : α) (l : List α) (h : l ≠ []) :
    (a :: l).getLast? = l.getLast? := by
  match l, h with
  | b :: t, _ => simp [List.getLast?_cons_cons]

theorem getLast?_map {α β : Type} (f : α → β) :
    ∀ (l : List α), (l.map f).getLast? = l.getLast?.map f := by
  intro l
  induction l with
  | nil => simp
  | cons a l ih =>
    match l, ih with
    | [], _ => simp
    | b :: t, ih =>
      simp only [List.map_cons, List.getLast?_cons_cons] at ih ⊢
      simp only [← List.map_cons] at ih
      exact ih

theorem initsNE_last :
    ∀ (y : Char) (ys : List Char), (Cairn.initsNE (y :: ys)).getLast? = some (y :: ys) := by
  intro y ys
  induction ys generalizing y with
  | nil => simp [Cairn.initsNE]
  | cons z zs ih =>
    rw [show Cairn.initsNE (y :: z :: zs) =
        [y] :: (Cairn.initsNE (z :: zs)).map (fun p => y :: p) from rfl]
    have hne : (Cairn.initsNE (z :: zs)).map (fun p => y :: p) ≠ [] := by
      rw [show Cairn.initsNE (z :: zs) =
          [z] :: (Cairn.initsNE zs).map (fun p => z :: p) from rfl]
      simp
    rw [getLast?_cons_of_ne _ _ hne, getLast?_map, ih z]
    rfl

theorem levenshtein_eq_levSpec (a b : List Char) : Cairn.levenshtein a b = levSpec a b := by
  match a, b with
  | [], b => simp [Cairn.levenshtein, levSpec_nil_left]
  | x :: xs, [] => simp [Cairn.levenshtein, levSpec_nil_right]
  | x :: xs, y :: ys =>
    have hrow := foldl_levNextRow (y :: ys) (x :: xs) []
    simp only [List.nil_append] at hrow
    simp only [Cairn.levenshtein, List.isEmpty_cons, Bool.false_eq_true, if_false]
    rw [initial_row, hrow, List.getLastD_cons, List.getLastD_eq_getLast?, getLast?_map,
      initsNE_last]
    rfl

theorem levSpec_self (a : List Char) : levSpec a a = 0 := by
  induction a with
  | nil => simp [levSpec_nil_left]
  | cons x xs ih =>
    have hx : (if x = x then 0 else 1 : Nat) = 0 := by simp
    rw [levSpec_cons_cons, ih, hx]
    omega

theorem levSpec_comm : ∀ (a b : List Char), levSpec a b = levSpec b a := by
  intro a
  induction a with
  | nil => intro b; rw [levSpec_nil_left, levSpec_nil_right]
  | cons x xs iha =>
    intro b
    induction b with
    | nil => rw [levSpec_nil_left, levSpec_nil_right]
    | cons y ys ihb =>
      rw [levSpec_cons_cons, levSpec_cons_cons, iha (y :: ys), ihb, iha ys]
      have hs : (if x = y then 0 else 1 : Nat) = (if y = x then 0 else 1) := by
        by_cases h : x = y <;> simp [h, eq_comm]
      rw [hs]
      omega

theorem levSpec_le_sum : ∀ (a b : List Char), levSpec a b ≤ a.length + b.length := by
  intro a
  induction a with
  | nil => intro b; rw [levSpec_nil_left]; simp
  | cons x xs iha =>
    intro b
    match b with
    | [] => rw [levSpec_nil_right]; simp
    | y :: ys =>
      rw [levSpec_cons_cons]
      have h1 := iha (y :: ys)
      simp only [List.length_cons] at h1 ⊢
      omega

theorem levSpec_length_le : ∀ (a b : List Char), b.length ≤ a.length + levSpec a b := by
  intro a
  induction a with
  | nil => intro b; rw [levSpec_nil_left]; simp
  | cons x xs iha =>
    intro b
    induction b with
    | nil => simp
    | cons y ys ihb =>
      rw [levSpec_cons_cons]
      have h1 := iha (y :: ys)
      have h3 := iha ys
      simp only [List.length_cons] at h1 h3 ihb ⊢
      omega

theorem levSpec_length_le₂ (a b : List Char) : a.length ≤ b.length + levSpec a b := by
  rw [levSpec_comm]; exact levSpec_length_le b a

theorem levSpec_cons_bounds :
    ∀ (n : Nat) (a b : List Char), a.length + b.length ≤ n → ∀ (x : Char),
      levSpec (x :: a) b ≤ levSpec a b + 1 ∧ levSpec a b ≤ levSpec (x :: a) b + 1 := by
  intro n
  induction n with
  | zero =>
    intro a b h x
    match a, b, h with
    | [], [], _ =>
      constructor <;> simp [levSpec_nil_left, levSpec_nil_right]
    | [], _ :: _, h => simp at h
    | _ :: _, _, h => simp at h
  | succ m IH =>
    intro a b h x
    match b with
    | [] =>
      constructor <;> simp [levSpec_nil_right, List.length_cons] <;> omega
    | y :: ys =>
      have h1 := (IH ys a (by simp only [List.length_cons] at h ⊢; omega) y).1
      have h1' : levSpec a (y :: ys) ≤ levSpec a ys + 1 := by
        rw [levSpec_comm a (y :: ys), levSpec_comm a ys]; exact h1
      have h2 := (IH a ys (by simp only [List.length_cons] at h ⊢; omega) x).2
      constructor
      · rw [levSpec_cons_cons]; omega
      · rw [levSpec_cons_cons]; omega

theorem levSpec_cons_le (x : Char) (a b : List Char) : levSpec (x :: a) b ≤ levSpec a b + 1 :=
  (levSpec_cons_bounds (a.length + b.length) a b le_rfl x).1

theorem levSpec_le_cons (x : Char) (a b : List Char) : levSpec a b ≤ levSpec (x :: a) b + 1 :=
  (levSpec_cons_bounds (a.length + b.length) a b le_rfl x).2

theorem levSpec_consr_le (y : Char) (a b : List Char) : levSpec a (y :: b) ≤ levSpec a b + 1 := by
  rw [levSpec_comm a (y :: b), levSpec_comm a b]; exact levSpec_cons_le y b a

theorem levSpec_le_consr (y : Char) (a b : List Char) : levSpec a b ≤ levSpec a (y :: b) + 1 := by
  rw [levSpec_comm a (y :: b), levSpec_comm a b]; exact levSpec_le_cons y b a

theorem levSpec_cons_same (x : Char) (xs ys : List Char) :
    levSpec (x :: xs) (x :: ys) = levSpec xs ys := by
  have hx : (if x = x then 0 else 1 : Nat) = 0 := by simp
  rw [levSpec_cons_cons, hx]
  have h1 := levSpec_le_consr x xs ys
  have h2 := levSpec_le_cons x xs ys
  omega

theorem levSpec_triangle_aux :
    ∀ (n : Nat) (a b c : List Char), a.length + b.length + c.length ≤ n →
      levSpec a c ≤ levSpec a b + levSpec b c := by
  intro n
  induction n with
  | zero =>
    intro a b c h
    have ha : a = [] := List.length_eq_zero.mp (by omega)
    have hc : c = [] := List.length_eq_zero.mp (by omega)
    subst ha; subst hc
    simp [levSpec_nil_left]
  | succ m IH =>
    intro a b c h
    match b with
    | [] =>
      have hs := levSpec_le_sum a c
      rw [levSpec_nil_right, levSpec_nil_left]
      omega
    | y :: ys =>
      match a with
      | [] =>
        rw [levSpec_nil_left, levSpec_nil_left]
        have := levSpec_length_le (y :: ys) c
        omega
      | x :: xs =>
        match c with
        | [] =>
          rw [levSpec_nil_right, levSpec_nil_right]
          have := levSpec_length_le₂ (x :: xs) (y :: ys)
          omega
        | z :: zs =>
          by_cases hxy : x = y
          · subst hxy
            rw [levSpec_cons_same x xs ys]
            by_cases hxz : x = z
            · subst hxz
              rw [levSpec_cons_same x xs zs, levSpec_cons_same x ys zs]
              exact IH xs ys zs (by simp only [List.length_cons] at h ⊢; omega)
            · have hbc := levSpec_cons_cons x z ys zs
              rw [if_neg hxz] at hbc
              have u1 : levSpec (x :: xs) (z :: zs) ≤ 1 + levSpec xs (z :: zs) := by
                rw [levSpec_cons_cons]; omega
              have u2 : levSpec (x :: xs) (z :: zs) ≤ levSpec (x :: xs) zs + 1 :=
                levSpec_consr_le z (x :: xs) zs
              have u3 : levSpec (x :: xs) (z :: zs) ≤ 1 + levSpec xs zs := by
                rw [levSpec_cons_cons, if_neg hxz]; omega
              have t1 := IH xs ys (z :: zs) (by simp only [List.length_cons] at h ⊢; omega)
              have t2 := IH (x :: xs) (x :: ys) zs (by simp only [List.length_cons] at h ⊢; omega)
              rw [levSpec_cons_same x xs ys] at t2
              have t3 := IH xs ys zs (by simp only [List.length_cons] at h ⊢; omega)
              rw [hbc]
              omega
          · have hab := levSpec_cons_cons x y xs ys
            rw [if_neg hxy] at hab
            have hA1 : levSpec (x :: xs) (z :: zs) ≤
                (1 + levSpec xs (y :: ys)) + levSpec (y :: ys) (z :: zs) := by
              have f1 := levSpec_cons_le x xs (z :: zs)
              have g1 := IH xs (y :: ys) (z :: zs)
                (by simp only [List.length_cons] at h ⊢; omega)
              omega
            have hA2 : levSpec (x :: xs) (z :: zs) ≤
                (1 + levSpec (x :: xs) ys) + levSpec (y :: ys) (z :: zs) := by
              have g2 := IH (x :: xs) ys (z :: zs)
                (by simp only [List.length_cons] at h ⊢; omega)
              have f2 := levSpec_le_cons y ys (z :: zs)
              omega
            have hA3 : levSpec (x :: xs) (z :: zs) ≤
                (1 + levSpec xs ys) + levSpec (y :: ys) (z :: zs) := by
              by_cases hxz : x = z
              · subst hxz
                rw [levSpec_cons_same x xs zs]
                have t3 := IH xs ys zs (by simp only [List.length_cons] at h ⊢; omega)
                have hyx : y ≠ x := fun hh => hxy hh.symm
                have hbc := levSpec_cons_cons y x ys zs
                rw [if_neg hyx] at hbc
                have b1 := levSpec_le_consr x ys zs
                have b2 := levSpec_le_cons y ys zs
                rw [hbc]
                omega
              · have u3 : levSpec (x :: xs) (z :: zs) ≤ 1 + levSpec xs zs := by
                  rw [levSpec_cons_cons, if_neg hxz]; omega
                have t3 := IH xs ys zs (by simp only [List.length_cons] at h ⊢; omega)
                by_cases hyz : y = z
                · subst hyz
                  rw [levSpec_cons_same y ys zs]
                  omega
                · have hbc := levSpec_cons_cons y z ys zs
                  rw [if_neg hyz] at hbc
                  have b1 := levSpec_le_consr z ys zs
                  have b2 := levSpec_le_cons y ys zs
                  rw [hbc]
                  omega
            rw [hab]
            omega

theorem levSpec_triangle (a b c : List Char) : levSpec a c ≤ levSpec a b + levSpec b c :=
  levSpec_triangle_aux (a.length + b.length + c.length) a b c le_rfl

/-- C7: the Go `levenshtein` function is symmetric, is zero on equal
inputs, and satisfies the triangle inequality. -/
theorem claim_C7 :
    (∀ a b : List Char, Cairn.levenshtein a b = Cairn.levenshtein b a) ∧
    (∀ a : List Char, Cairn.levenshtein a a = 0) ∧
    (∀ a b c : List Char,
      Cairn.levenshtein a c ≤ Cairn.levenshtein a b + Cairn.levenshtein b c) := by
  refine ⟨fun a b => ?_, fun a => ?_, fun a b c => ?_⟩ <;>
    simp only [levenshtein_eq_levSpec]
  · exact levSpec_comm a b
  · exact levSpec_self a
  · exact levSpec_triangle a b c

theorem lower_ne_nil (w : List Char) (h : w ≠ []) : Cairn.lower w ≠ [] := by
  cases w with
  | nil => exact absurd rfl h
  | cons c cs => simp [Cairn.lower]

theorem suggestLoop_exact :
    ∀ (vs : List (List Char)) (q : List Char) (f : Char) (maxD : Nat)
      (best : List Char) (bd : Nat),
      (∃ e ∈ vs, Cairn.lower e = q) →
      Cairn.suggestLoop q f maxD vs best bd = some q := by
  intro vs
  induction vs with
  | nil =>
    rintro q f maxD best bd ⟨e, he, _⟩
    simp at he
  | cons w rest ih =>
    rintro q f maxD best bd ⟨e, he, hlow⟩
    by_cases hw : Cairn.lower w = q
    · simp only [Cairn.suggestLoop]
      rw [if_pos hw, hw]
    · have he' : e ∈ rest := by
        rcases List.mem_cons.mp he with h | h
        · exact absurd (h ▸ hlow) hw
        · exact h
      simp only [Cairn.suggestLoop]
      rw [if_neg hw]
      split_ifs <;> exact ih q f maxD _ _ ⟨e, he', hlow⟩

/-- C5: a non-empty query that, after lowercasing, equals some vocabulary
entry (compared case-insensitively) makes `suggestClosest` return that
entry, whatever the distance bound. -/
theorem claim_C5 (word : List Char) (maxD : Nat) (list : List (List Char))
    (hw : word ≠ []) (h : ∃ e ∈ list, Cairn.lower e = Cairn.lower word) :
    Cairn.suggestClosest word maxD list = some (Cairn.lower word) := by
  obtain ⟨e, he, hlow⟩ := h
  have hne : list.isEmpty = false := by
    cases list with
    | nil => simp at he
    | cons a l => rfl
  have hq : Cairn.lower word ≠ [] := lower_ne_nil word hw
  match hfq : Cairn.lower word with
  | [] => exact absurd hfq hq
  | f :: qs =>
    simp only [Cairn.suggestClosest, hne, Bool.false_eq_true, if_false, hfq]
    exact suggestLoop_exact list (f :: qs) f maxD [] (maxD + 1) ⟨e, he, hlow.trans hfq⟩

theorem claim_C5_witness :
    ((['A', 'p'] : List Char) ≠ [] ∧
      ∃ e ∈ [['a', 'p']], Cairn.lower e = Cairn.lower ['A', 'p']) ∧
    Cairn.suggestClosest ['A', 'p'] 3 [['a', 'p']] = some (Cairn.lower ['A', 'p']) :=
  ⟨⟨by decide, by decide⟩, claim_C5 ['A', 'p'] 3 [['a', 'p']] (by decide) (by decide)⟩

theorem suggestLoop_none :
    ∀ (vs : List (List Char)) (q : List Char) (f : Char) (maxD bd : Nat),
      (∀ e ∈ vs, Cairn.lower e = e) →
      (∀ e ∈ vs, maxD < Cairn.levenshtein q e) →
      Cairn.suggestLoop q f maxD vs [] bd = none := by
  intro vs
  induction vs with
  | nil => intro q f maxD bd _ _; simp [Cairn.suggestLoop]
  | cons w rest ih =>
    intro q f maxD bd hlow hdist
    have hw : Cairn.lower w = w := hlow w (List.mem_cons_self w rest)
    have hd : maxD < Cairn.levenshtein q w := hdist w (List.mem_cons_self w rest)
    have hlow' : ∀ e ∈ rest, Cairn.lower e = e := fun e he => hlow e (List.mem_cons_of_mem w he)
    have hdist' : ∀ e ∈ rest, maxD < Cairn.levenshtein q e :=
      fun e he => hdist e (List.mem_cons_of_mem w he)
    have hne : ¬ (w = q) := by
      intro hh
      rw [hh] at hd
      have h0 : Cairn.levenshtein q q = 0 := by
        rw [levenshtein_eq_levSpec]; exact levSpec_self q
      omega
    simp only [Cairn.suggestLoop, hw]
    rw [if_neg hne]
    split_ifs <;>
      first
        | exact ih q f maxD bd hlow' hdist'
        | exact absurd hd (by assumption)

theorem suggestLoop_keep :
    ∀ (vs : List (List Char)) (q : List Char) (f : Char) (maxD m : Nat) (best : List Char),
      best ≠ [] → best.length = q.length → Cairn.levenshtein q best = m → m ≤ maxD →
      (∀ e ∈ vs, Cairn.lower e ≠ q) →
      (∀ e ∈ vs, Cairn.passesFilters q f (Cairn.lower e) →
        m ≤ Cairn.levenshtein q (Cairn.lower e)) →
      Cairn.suggestLoop q f maxD vs best m = some best := by
  intro vs
  induction vs with
  | nil =>
    intro q f maxD m best hbne _ _ _ _ _
    simp [Cairn.suggestLoop, hbne]
  | cons w rest ih =>
    intro q f maxD m best hbne hblen hblev hm hne hmin
    have hnw : ¬ (Cairn.lower w = q) := hne w (List.mem_cons_self w rest)
    have hne' : ∀ e ∈ rest, Cairn.lower e ≠ q :=
      fun e he => hne e (List.mem_cons_of_mem w he)
    have hmin' : ∀ e ∈ rest, Cairn.passesFilters q f (Cairn.lower e) →
        m ≤ Cairn.levenshtein q (Cairn.lower e) :=
      fun e he => hmin e (List.mem_cons_of_mem w he)
    simp only [Cairn.suggestLoop]
    rw [if_neg hnw]
    by_cases h1 : (Cairn.lower w).head? ≠ some f
    · rw [if_pos h1]; exact ih q f maxD m best hbne hblen hblev hm hne' hmin'
    · rw [if_neg h1]
      by_cases h2 : ((Cairn.lower w).length : Int) - (q.length : Int) < -2 ∨
          (2 : Int) < ((Cairn.lower w).length : Int) - (q.length : Int)
      · rw [if_pos h2]; exact ih q f maxD m best hbne hblen hblev hm hne' hmin'
      · rw [if_neg h2]
        have hge : m ≤ Cairn.levenshtein q (Cairn.lower w) :=
          hmin w (List.mem_cons_self w rest) ⟨h1, h2⟩
        by_cases h3 : maxD < Cairn.levenshtein q (Cairn.lower w)
        · rw [if_pos h3]; exact ih q f maxD m best hbne hblen hblev hm hne' hmin'
        · rw [if_neg h3]
          have hupd : ¬ (Cairn.suggestUpdate (Cairn.levenshtein q (Cairn.lower w)) m
              ((Cairn.lower w).length == q.length)
              (decide (best ≠ []) && best.length == q.length) = true) := by
            have h5 : ¬ (Cairn.levenshtein q (Cairn.lower w) < m) := by omega
            simp [Cairn.suggestUpdate, h5, hbne, hblen]
          rw [if_neg hupd]
          exact ih q f maxD m best hbne hblen hblev hm hne' hmin'

theorem suggestLoop_find :
    ∀ (vs : List (List Char)) (q : List Char) (f : Char) (maxD m : Nat)
      (best : List Char) (bd : Nat),
      (∀ e ∈ vs, Cairn.lower e ≠ q) →
      (∀ e ∈ vs, Cairn.passesFilters q f (Cairn.lower e) →
        m ≤ Cairn.levenshtein q (Cairn.lower e)) →
      (∃ w1 ∈ vs, Cairn.passesFilters q f (Cairn.lower w1) ∧
        (Cairn.lower w1).length = q.length ∧
        Cairn.levenshtein q (Cairn.lower w1) = m) →
      m ≤ maxD →
      ((best = [] ∧ bd = maxD + 1) ∨
        (best ≠ [] ∧ Cairn.levenshtein q best = bd ∧ m ≤ bd ∧ bd ≤ maxD)) →
      ∃ r, Cairn.suggestLoop q f maxD vs best bd = some r ∧
        r.length = q.length ∧ Cairn.levenshtein q r = m := by
  intro vs
  induction vs with
  | nil =>
    rintro q f maxD m best bd _ _ ⟨w1, hw1, _⟩ _ _
    simp at hw1
  | cons w rest ih =>
    rintro q f maxD m best bd hne hmin ⟨w1, hw1mem, hw1pass, hw1len, hw1lev⟩ hm hinv
    have hnw : ¬ (Cairn.lower w = q) := hne w (List.mem_cons_self w rest)
    have hne' : ∀ e ∈ rest, Cairn.lower e ≠ q :=
      fun e he => hne e (List.mem_cons_of_mem w he)
    have hmin' : ∀ e ∈ rest, Cairn.passesFilters q f (Cairn.lower e) →
        m ≤ Cairn.levenshtein q (Cairn.lower e) :=
      fun e he => hmin e (List.mem_cons_of_mem w he)
    simp only [Cairn.suggestLoop]
    rw [if_neg hnw]
    rcases List.mem_cons.mp hw1mem with hw1eq | hw1rest
    · subst hw1eq
      obtain ⟨hp1, hp2⟩ := hw1pass
      rw [if_neg hp1, if_neg hp2]
      have h3 : ¬ (maxD < Cairn.levenshtein q (Cairn.lower w1)) := by
        rw [hw1lev]; omega
      rw [if_neg h3]
      have hwne : Cairn.lower w1 ≠ [] := by
        intro hh
        rw [hh] at hp1
        exact hp1 (by simp)
      by_cases hdbd : Cairn.levenshtein q (Cairn.lower w1) < bd
      · have hupd : Cairn.suggestUpdate (Cairn.levenshtein q (Cairn.lower w1)) bd
            ((Cairn.lower w1).length == q.length)
            (decide (best ≠ []) && best.length == q.length) = true := by
          simp [Cairn.suggestUpdate, hdbd]
        rw [if_pos hupd, hw1lev]
        exact ⟨Cairn.lower w1,
          suggestLoop_keep rest q f maxD m (Cairn.lower w1) hwne hw1len hw1lev hm hne' hmin',
          hw1len, hw1lev⟩
      · rcases hinv with ⟨hbe, hbd⟩ | ⟨hbne, hblev, hmbd, hbdmax⟩
        · exfalso
          rw [hw1lev] at hdbd
          omega
        · have hbdm : bd = m := by rw [hw1lev] at hdbd; omega
          by_cases hbl : best.length = q.length
          · have hupd : ¬ (Cairn.suggestUpdate (Cairn.levenshtein q (Cairn.lower w1)) bd
                ((Cairn.lower w1).length == q.length)
                (decide (best ≠ []) && best.length == q.length) = true) := by
              simp [Cairn.suggestUpdate, hdbd, hbne, hbl]
            rw [if_neg hupd, hbdm]
            exact ⟨best,
              suggestLoop_keep rest q f maxD m best hbne hbl (hblev.trans hbdm) hm hne' hmin',
              hbl, hblev.trans hbdm⟩
          · have hupd : Cairn.suggestUpdate (Cairn.levenshtein q (Cairn.lower w1)) bd
                ((Cairn.lower w1).length == q.length)
                (decide (best ≠ []) && best.length == q.length) = true := by
              simp [Cairn.suggestUpdate, hw1lev, hbdm, hw1len, hbl]
            rw [if_pos hupd, hw1lev]
            exact ⟨Cairn.lower w1,
              suggestLoop_keep rest q f maxD m (Cairn.lower w1) hwne hw1len hw1lev hm hne' hmin',
              hw1len, hw1lev⟩
    · have hexr : ∃ e ∈ rest, Cairn.passesFilters q f (Cairn.lower e) ∧
          (Cairn.lower e).length = q.length ∧ Cairn.levenshtein q (Cairn.lower e) = m :=
        ⟨w1, hw1rest, hw1pass, hw1len, hw1lev⟩
      by_cases h1 : (Cairn.lower w).head? ≠ some f
      · rw [if_pos h1]; exact ih q f maxD m best bd hne' hmin' hexr hm hinv
      · rw [if_neg h1]
        by_cases h2 : ((Cairn.lower w).length : Int) - (q.length : Int) < -2 ∨
            (2 : Int) < ((Cairn.lower w).length : Int) - (q.length : Int)
        · rw [if_pos h2]; exact ih q f maxD m best bd hne' hmin' hexr hm hinv
        · rw [if_neg h2]
          have hge : m ≤ Cairn.levenshtein q (Cairn.lower w) :=
            hmin w (List.mem_cons_self w rest) ⟨h1, h2⟩
          by_cases h3 : maxD < Cairn.levenshtein q (Cairn.lower w)
          · rw [if_pos h3]; exact ih q f maxD m best bd hne' hmin' hexr hm hinv
          · rw [if_neg h3]
            by_cases h4 : Cairn.suggestUpdate (Cairn.levenshtein q (Cairn.lower w)) bd
                ((Cairn.lower w).length == q.length)
                (decide (best ≠ []) && best.length == q.length) = true
            · rw [if_pos h4]
              have hwne : Cairn.lower w ≠ [] := by
                intro hh
                rw [hh] at h1
                exact h1 (by simp)
              exact ih q f maxD m (Cairn.lower w) (Cairn.levenshtein q (Cairn.lower w))
                hne' hmin' hexr hm (Or.inr ⟨hwne, rfl, hge, by omega⟩)
            · rw [if_neg h4]
              exact ih q f maxD m best bd hne' hmin' hexr hm hinv

/-- C2: the tie-break rule of the approximate matcher: a candidate
replaces the current best iff its distance is strictly smaller, or the
distances are equal, the candidate has the query's length and the
current best does not; consequently a scan over a vocabulary whose
candidates (entries passing the pre-filters) all lie at distance at
least m, containing a candidate of the query's length at distance
m ≤ maxDistance, returns a word of the query's length at distance m —
in particular not a candidate of a different length at the same
distance. -/
theorem claim_C2 :
    (∀ (d bd : Nat) (sl bsl : Bool),
      Cairn.suggestUpdate d bd sl bsl = true ↔
        (d < bd ∨ (d = bd ∧ sl = true ∧ bsl = false))) ∧
    (∀ (word : List Char) (maxD m : Nat) (list : List (List Char)) (f : Char)
      (qs : List Char),
      Cairn.lower word = f :: qs →
      (∀ e ∈ list, Cairn.lower e ≠ Cairn.lower word) →
      (∀ e ∈ list, Cairn.passesFilters (Cairn.lower word) f (Cairn.lower e) →
        m ≤ Cairn.levenshtein (Cairn.lower word) (Cairn.lower e)) →
      (∃ w1 ∈ list, Cairn.passesFilters (Cairn.lower word) f (Cairn.lower w1) ∧
        (Cairn.lower w1).length = (Cairn.lower word).length ∧
        Cairn.levenshtein (Cairn.lower word) (Cairn.lower w1) = m) →
      m ≤ maxD →
      ∃ r, Cairn.suggestClosest word maxD list = some r ∧
        r.length = (Cairn.lower word).length ∧
        Cairn.levenshtein (Cairn.lower word) r = m) := by
  constructor
  · intro d bd sl bsl
    cases sl <;> cases bsl <;>
      simp [Cairn.suggestUpdate] <;> omega
  · intro word maxD m list f qs hfq hne hmin hex hm
    have hl : list.isEmpty = false := by
      rcases hex with ⟨w1, hw1, _⟩
      cases list with
      | nil => simp at hw1
      | cons a l => rfl
    simp only [Cairn.suggestClosest, hl, Bool.false_eq_true, if_false, hfq]
    have := suggestLoop_find list (Cairn.lower word) f maxD m [] (maxD + 1)
      hne hmin hex hm (Or.inl ⟨rfl, rfl⟩)
    rw [hfq] at this
    exact this

theorem claim_C2_witness :
    (Cairn.suggestUpdate 1 1 true false = true ↔
      (1 < 1 ∨ (1 = 1 ∧ true = true ∧ false = false))) ∧
    (∃ r, Cairn.suggestClosest ['a', 'b'] 3 [['a'], ['a', 'x']] = some r ∧
      r.length = (Cairn.lower ['a', 'b']).length ∧
      Cairn.levenshtein (Cairn.lower ['a', 'b']) r = 1) :=
  ⟨claim_C2.1 1 1 true false,
    claim_C2.2 ['a', 'b'] 3 1 [['a'], ['a', 'x']] 'a' ['b'] (by decide) (by decide)
      (by decide) (by decide) (by decide)⟩

theorem suggestLoop_shape :
    ∀ (vs : List (List Char)) (q : List Char) (f : Char) (maxD : Nat)
      (best : List Char) (bd : Nat) (r : List Char),
      (best = [] ∨ (best.head? = some f ∧
        q.length ≤ best.length + 2 ∧ best.length ≤ q.length + 2 ∧
        Cairn.levenshtein q best ≤ maxD)) →
      Cairn.suggestLoop q f maxD vs best bd = some r →
      (r = q ∨ (r.head? = some f ∧
        q.length ≤ r.length + 2 ∧ r.length ≤ q.length + 2 ∧
        Cairn.levenshtein q r ≤ maxD)) := by
  intro vs
  induction vs with
  | nil =>
    intro q f maxD best bd r hinv hres
    simp only [Cairn.suggestLoop] at hres
    by_cases hb : best ≠ []
    · rw [if_pos hb] at hres
      have hbr : best = r := Option.some.inj hres
      rcases hinv with hbe | hi
      · exact absurd hbe hb
      · right; exact hbr ▸ hi
    · rw [if_neg hb] at hres
      cases hres
  | cons w rest ih =>
    intro q f maxD best bd r hinv hres
    simp only [Cairn.suggestLoop] at hres
    by_cases h0 : Cairn.lower w = q
    · rw [if_pos h0] at hres
      left
      have : Cairn.lower w = r := Option.some.inj hres
      rw [← this, h0]
    · rw [if_neg h0] at hres
      by_cases h1 : (Cairn.lower w).head? ≠ some f
      · rw [if_pos h1] at hres; exact ih q f maxD best bd r hinv hres
      · rw [if_neg h1] at hres
        by_cases h2 : ((Cairn.lower w).length : Int) - (q.length : Int) < -2 ∨
            (2 : Int) < ((Cairn.lower w).length : Int) - (q.length : Int)
        · rw [if_pos h2] at hres; exact ih q f maxD best bd r hinv hres
        · rw [if_neg h2] at hres
          by_cases h3 : maxD < Cairn.levenshtein q (Cairn.lower w)
          · rw [if_pos h3] at hres; exact ih q f maxD best bd r hinv hres
          · rw [if_neg h3] at hres
            by_cases h4 : Cairn.suggestUpdate (Cairn.levenshtein q (Cairn.lower w)) bd
                ((Cairn.lower w).length == q.length)
                (decide (best ≠ []) && best.length == q.length) = true
            · rw [if_pos h4] at hres
              refine ih q f maxD (Cairn.lower w) _ r (Or.inr ⟨not_not.mp h1, ?_, ?_, ?_⟩) hres
              · omega
              · omega
              · omega
            · rw [if_neg h4] at hres; exact ih q f maxD best bd r hinv hres

/-- C10: a word returned by `suggestClosest` that is not the lowered
query itself begins with the query's first character, has a length within
2 of the query's, and lies within the edit-distance bound — so an
in-bound vocabulary word with a different first character is never
suggested. -/
theorem claim_C10 (word : List Char) (maxD : Nat) (list : List (List Char)) (r : List Char)
    (h : Cairn.suggestClosest word maxD list = some r)
    (hne : r ≠ Cairn.lower word) :
    (∃ f qs, Cairn.lower word = f :: qs ∧ r.head? = some f) ∧
    ((Cairn.lower word).length ≤ r.length + 2 ∧
      r.length ≤ (Cairn.lower word).length + 2) ∧
    Cairn.levenshtein (Cairn.lower word) r ≤ maxD := by
  by_cases hl : list.isEmpty
  · simp [Cairn.suggestClosest, hl] at h
  · have hl' : list.isEmpty = false := by
      cases hh : list.isEmpty
      · rfl
      · exact absurd hh hl
    cases hfq : Cairn.lower word with
    | nil => simp [Cairn.suggestClosest, hl', hfq] at h
    | cons f qs =>
      simp only [Cairn.suggestClosest, hl', Bool.false_eq_true, if_false, hfq] at h
      rcases suggestLoop_shape list (f :: qs) f maxD [] (maxD + 1) r (Or.inl rfl) h with
        hq | ⟨hh, h2a, h2b, h3⟩
      · exact absurd (hq.trans hfq.symm) hne
      · exact ⟨⟨f, qs, rfl, hh⟩, ⟨h2a, h2b⟩, h3⟩

theorem replaceAll_match (tm : List Char → Option (List Char × List Char))
    (repl : List Char → List Char) (s y rest : List Char)
    (h : tm s = some (y, rest)) (hlt : rest.length < s.length) :
    Cairn.replaceAll tm repl s = repl y ++ Cairn.replaceAll tm repl rest := by
  rw [Cairn.replaceAll]
  split
  · rename_i y2 rest2 h2
    rw [h] at h2
    cases h2
    rw [dif_pos hlt]
  · rename_i h2
    rw [h] at h2
    cases h2

theorem replaceAll_nil (tm : List Char → Option (List Char × List Char))
    (repl : List Char → List Char) :
    Cairn.replaceAll tm repl [] = [] := by
  rw [Cairn.replaceAll]
  split
  · rename_i y2 rest2 h2
    rw [dif_neg (by simp)]
  · rfl

theorem replaceAll_cons_none (tm : List Char → Option (List Char × List Char))
    (repl : List Char → List Char) (c : Char) (cs : List Char)
    (h : tm (c :: cs) = none) :
    Cairn.replaceAll tm repl (c :: cs) = c :: Cairn.replaceAll tm repl cs := by
  rw [Cairn.replaceAll]
  split
  · rename_i y2 rest2 h2
    rw [h] at h2
    cases h2
  · rfl

theorem replaceAll_skip (tm : List Char → Option (List Char × List Char))
    (repl : List Char → List Char) (p : Char → Prop)
    (hg : ∀ s y rest, tm s = some (y, rest) → ∃ c, s.head? = some c ∧ p c) :
    ∀ (u rest : List Char), (∀ c ∈ u, ¬ p c) →
      Cairn.replaceAll tm repl (u ++ rest) = u ++ Cairn.replaceAll tm repl rest := by
  intro u
  induction u with
  | nil => intro rest _; simp
  | cons c cs ih =>
    intro rest hu
    have hnone : tm (c :: (cs ++ rest)) = none := by
      cases hh : tm (c :: (cs ++ rest)) with
      | none => rfl
      | some pr =>
        obtain ⟨y2, rest2⟩ := pr
        obtain ⟨d, hd, hpd⟩ := hg _ _ _ hh
        simp only [List.head?_cons, Option.some.injEq] at hd
        exact absurd (hd ▸ hpd) (hu c (List.mem_cons_self c cs))
    rw [List.cons_append, replaceAll_cons_none tm repl c (cs ++ rest) hnone,
      ih rest (fun d hd => hu d (List.mem_cons_of_mem c hd)), List.cons_append]

theorem replaceAll_id (tm : List Char → Option (List Char × List Char))
    (repl : List Char → List Char) (p : Char → Prop)
    (hg : ∀ s y rest, tm s = some (y, rest) → ∃ c, s.head? = some c ∧ p c)
    (s : List Char) (hs : ∀ c ∈ s, ¬ p c) :
    Cairn.replaceAll tm repl s = s := by
  have h := replaceAll_skip tm repl p hg s [] hs
  rw [List.append_nil] at h
  rw [h, replaceAll_nil, List.append_nil]

theorem matchLit_append (p r : List Char) : Cairn.matchLit p (p ++ r) = some r := by
  induction p with
  | nil => rfl
  | cons c cs ih => simp [Cairn.matchLit, ih]

theorem matchLit_some_head (c : Char) (cs s r : List Char)
    (h : Cairn.matchLit (c :: cs) s = some r) : s.head? = some c := by
  cases s with
  | nil => simp [Cairn.matchLit] at h
  | cons d ds =>
    by_cases hcd : c = d
    · rw [hcd]; rfl
    · simp [Cairn.matchLit, hcd] at h

theorem matchLit_head_ne (c : Char) (cs s : List Char) (h : s.head? ≠ some c) :
    Cairn.matchLit (c :: cs) s = none := by
  cases s with
  | nil => rfl
  | cons d ds =>
    have hcd : ¬ (c = d) := by
      intro hh
      exact h (by rw [hh]; rfl)
    simp [Cairn.matchLit, hcd]

theorem matchLit_length :
    ∀ (p s r : List Char), Cairn.matchLit p s = some r → r.length + p.length = s.length := by
  intro p
  induction p with
  | nil =>
    intro s r h
    simp only [Cairn.matchLit, Option.some.injEq] at h
    rw [h]
    simp
  | cons c cs ih =>
    intro s r h
    cases s with
    | nil => simp [Cairn.matchLit] at h
    | cons d ds =>
      by_cases hcd : c = d
      · simp only [Cairn.matchLit, if_pos hcd] at h
        have := ih ds r h
        simp only [List.length_cons]
        omega
      · simp [Cairn.matchLit, hcd] at h

theorem spanSplit (p : Char → Bool) :
    ∀ (u : List Char) (d : Char) (v : List Char), (∀ c ∈ u, p c = true) → p d = false →
      (u ++ d :: v).takeWhile p = u ∧ (u ++ d :: v).dropWhile p = d :: v := by
  intro u
  induction u with
  | nil =>
    intro d v _ hd
    constructor <;> simp [List.takeWhile_cons, List.dropWhile_cons, hd]
  | cons c cs ih =>
    intro d v hu hd
    have hc : p c = true := hu c (List.mem_cons_self c cs)
    obtain ⟨h1, h2⟩ := ih d v (fun x hx => hu x (List.mem_cons_of_mem c hx)) hd
    constructor
    · simp [List.takeWhile_cons, hc, h1]
    · simp [List.dropWhile_cons, hc, h2]

theorem lalpha_ne (c d : Char) (hc : Cairn.lalpha c) (hd : ¬ Cairn.lalpha d) : c ≠ d :=
  fun hh => hd (hh ▸ hc)

theorem lalpha_bne (c d : Char) (hc : Cairn.lalpha c) (hd : ¬ Cairn.lalpha d) :
    (c != d) = true := by
  simpa [bne_iff_ne] using lalpha_ne c d hc hd

theorem lalpha_capture_pred (c : Char) (hc : Cairn.lalpha c) :
    (c != '\x7d' && c != '|') = true := by
  rw [lalpha_bne c '\x7d' hc (by decide), lalpha_bne c '|' hc (by decide)]
  rfl

theorem tryLangTpl_guard (head code : List Char) :
    ∀ (s y rest : List Char), Cairn.tryLangTpl head code s = some (y, rest) →
      ∃ c, s.head? = some c ∧ c = '\x7b' := by
  intro s y rest h
  unfold Cairn.tryLangTpl at h
  cases hm : Cairn.matchLit ('\x7b' :: '\x7b' :: (head ++ ['|'])) s with
  | none => rw [hm] at h; simp at h
  | some s1 => exact ⟨'\x7b', matchLit_some_head _ _ _ _ hm, rfl⟩

theorem tryGenTpl_guard (head : List Char) (wilds : Nat) :
    ∀ (s y rest : List Char), Cairn.tryGenTpl head wilds s = some (y, rest) →
      ∃ c, s.head? = some c ∧ c = '\x7b' := by
  intro s y rest h
  unfold Cairn.tryGenTpl at h
  cases hm : Cairn.matchLit ('\x7b' :: '\x7b' :: (head ++ ['|'])) s with
  | none => rw [hm] at h; simp at h
  | some s1 => exact ⟨'\x7b', matchLit_some_head _ _ _ _ hm, rfl⟩

theorem tryOptTpl_guard (head : List Char) :
    ∀ (s y rest : List Char), Cairn.tryOptTpl head s = some (y, rest) →
      ∃ c, s.head? = some c ∧ c = '\x7b' := by
  intro s y rest h
  unfold Cairn.tryOptTpl at h
  cases hm : Cairn.matchLit ('\x7b' :: '\x7b' :: (head ++ ['|'])) s with
  | none => rw [hm] at h; simp at h
  | some s1 => exact ⟨'\x7b', matchLit_some_head _ _ _ _ hm, rfl⟩

theorem tryAnyTpl_guard :
    ∀ (s y rest : List Char), Cairn.tryAnyTpl s = some (y, rest) →
      ∃ c, s.head? = some c ∧ c = '\x7b' := by
  intro s y rest h
  unfold Cairn.tryAnyTpl at h
  cases hm : Cairn.matchLit ['\x7b', '\x7b'] s with
  | none => rw [hm] at h; simp at h
  | some s1 => exact ⟨'\x7b', matchLit_some_head _ _ _ _ hm, rfl⟩

theorem tryWLink_guard :
    ∀ (s y rest : List Char), Cairn.tryWLink s = some (y, rest) →
      ∃ c, s.head? = some c ∧ c = '[' := by
  intro s y rest h
  unfold Cairn.tryWLink at h
  cases hm : Cairn.matchLit ['[', '[', 'w', ':'] s with
  | none => rw [hm] at h; simp at h
  | some s1 => exact ⟨'[', matchLit_some_head _ _ _ _ hm, rfl⟩

theorem tryLink_guard :
    ∀ (s y rest : List Char), Cairn.tryLink s = some (y, rest) →
      ∃ c, s.head? = some c ∧ c = '[' := by
  intro s y rest h
  unfold Cairn.tryLink at h
  cases hm : Cairn.matchLit ['[', '['] s with
  | none => rw [hm] at h; simp at h
  | some s1 => exact ⟨'[', matchLit_some_head _ _ _ _ hm, rfl⟩

theorem tryItalic_guard :
    ∀ (s y rest : List Char), Cairn.tryItalic s = some (y, rest) →
      ∃ c, s.head? = some c ∧ c = '\'' := by
  intro s y rest h
  unfold Cairn.tryItalic at h
  cases hm : Cairn.matchLit ['\'', '\''] s with
  | none => rw [hm] at h; simp at h
  | some s1 => exact ⟨'\'', matchLit_some_head _ _ _ _ hm, rfl⟩

theorem tryRefPair_guard :
    ∀ (s y rest : List Char), Cairn.tryRefPair s = some (y, rest) →
      ∃ c, s.head? = some c ∧ c = '<' := by
  intro s y rest h
  unfold Cairn.tryRefPair at h
  cases hm : Cairn.matchLit ['<', 'r', 'e', 'f'] s with
  | none => rw [hm] at h; simp at h
  | some s1 => exact ⟨'<', matchLit_some_head _ _ _ _ hm, rfl⟩

theorem tryRefSelf_guard :
    ∀ (s y rest : List Char), Cairn.tryRefSelf s = some (y, rest) →
      ∃ c, s.head? = some c ∧ c = '<' := by
  intro s y rest h
  unfold Cairn.tryRefSelf at h
  cases hm : Cairn.matchLit ['<', 'r', 'e', 'f'] s with
  | none => rw [hm] at h; simp at h
  | some s1 => exact ⟨'<', matchLit_some_head _ _ _ _ hm, rfl⟩

theorem tryNewlines_guard :
    ∀ (s y rest : List Char), Cairn.tryNewlines s = some (y, rest) →
      ∃ c, s.head? = some c ∧ c = '\n' := by
  intro s y rest h
  unfold Cairn.tryNewlines at h
  cases s with
  | nil => simp at h
  | cons c cs =>
    by_cases hc : (c == '\n') = true
    · exact ⟨c, rfl, by simpa using hc⟩
    · rw [List.takeWhile_cons] at h
      rw [if_neg hc] at h
      simp at h

theorem trySpaces_guard :
    ∀ (s y rest : List Char), Cairn.trySpaces s = some (y, rest) →
      ∃ c, s.head? = some c ∧ (c = ' ' ∨ c = '\t') := by
  intro s y rest h
  unfold Cairn.trySpaces at h
  cases s with
  | nil => simp at h
  | cons c cs =>
    by_cases hc : (c == ' ' || c == '\t') = true
    · refine ⟨c, rfl, ?_⟩
      rcases Bool.or_eq_true_iff.mp hc with h1 | h1
      · exact Or.inl (by simpa using h1)
      · exact Or.inr (by simpa using h1)
    · rw [List.takeWhile_cons] at h
      rw [if_neg hc] at h
      simp at h

theorem matchLit_code_ne :
    ∀ (code cd rest : List Char), (∀ c ∈ code, Cairn.lalpha c) → (∀ c ∈ cd, Cairn.lalpha c) →
      cd ≠ code → Cairn.matchLit (code ++ ['|']) (cd ++ '|' :: rest) = none := by
  intro code
  induction code with
  | nil =>
    intro cd rest _ hcd hne
    cases cd with
    | nil => exact absurd rfl hne
    | cons c cs =>
      simp only [List.nil_append, List.cons_append]
      apply matchLit_head_ne
      simp only [List.head?_cons, ne_eq, Option.some.injEq]
      exact fun hh => (lalpha_ne c '|' (hcd c (List.mem_cons_self c cs)) (by decide)) hh
  | cons k ks ih =>
    intro cd rest hcode hcd hne
    cases cd with
    | nil =>
      simp only [List.nil_append, List.cons_append]
      apply matchLit_head_ne
      simp only [List.head?_cons, ne_eq, Option.some.injEq]
      exact fun hh => (lalpha_ne k '|' (hcode k (List.mem_cons_self k ks)) (by decide)) hh.symm
    | cons c cs =>
      simp only [List.cons_append]
      by_cases hkc : k = c
      · subst hkc
        simp only [Cairn.matchLit, if_pos rfl]
        have hcs : cs ≠ ks := by
          intro hh
          rw [hh] at hne
          exact hne rfl
        exact ih cs rest (fun x hx => hcode x (List.mem_cons_of_mem k hx))
          (fun x hx => hcd x (List.mem_cons_of_mem k hx)) hcs
      · simp [Cairn.matchLit, hkc]

theorem matchLit_tpl_front (head R : List Char) :
    Cairn.matchLit ('\x7b' :: '\x7b' :: (head ++ ['|']))
      ('\x7b' :: '\x7b' :: (head ++ '|' :: R)) = some R := by
  have h : ('\x7b' :: '\x7b' :: (head ++ '|' :: R)) =
      ('\x7b' :: '\x7b' :: (head ++ ['|'])) ++ R := by
    simp
  rw [h, matchLit_append]

theorem tryLangTpl_fire (head code fld t : List Char)
    (hf : ∀ c ∈ fld, Cairn.lalpha c) (ht : ∀ c ∈ t, Cairn.lalpha c) (htne : t ≠ []) :
    Cairn.tryLangTpl head code (Cairn.langTpl head fld code t) = some (t, []) := by
  unfold Cairn.tryLangTpl Cairn.langTpl
  rw [matchLit_tpl_front]
  have hdrop := (spanSplit (fun c => c != '|') fld '|' (code ++ '|' :: (t ++ ['\x7d', '\x7d']))
    (fun c hc => lalpha_bne c '|' (hf c hc) (by decide)) (by decide)).2
  have hsplit : ('|' :: (code ++ '|' :: (t ++ ['\x7d', '\x7d']))) =
      ('|' :: (code ++ ['|'])) ++ (t ++ ['\x7d', '\x7d']) := by simp
  simp only [hdrop]
  rw [hsplit, matchLit_append]
  unfold Cairn.tryCapture
  have hcap := spanSplit (fun c => c != '\x7d' && c != '|') t '\x7d' ['\x7d']
    (fun c hc => lalpha_capture_pred c (ht c hc)) (by decide)
  simp only [hcap.1, hcap.2]
  rw [if_neg (by simpa [List.isEmpty_iff] using htne)]

theorem tryLangTpl_code_mismatch (head code fld cd t : List Char)
    (hf : ∀ c ∈ fld, Cairn.lalpha c) (hcode : ∀ c ∈ code, Cairn.lalpha c)
    (hcd : ∀ c ∈ cd, Cairn.lalpha c) (hne : cd ≠ code) :
    Cairn.tryLangTpl head code (Cairn.langTpl head fld cd t) = none := by
  unfold Cairn.tryLangTpl Cairn.langTpl
  rw [matchLit_tpl_front]
  have hdrop := (spanSplit (fun c => c != '|') fld '|' (cd ++ '|' :: (t ++ ['\x7d', '\x7d']))
    (fun c hc => lalpha_bne c '|' (hf c hc) (by decide)) (by decide)).2
  simp only [hdrop]
  have hone : Cairn.matchLit ('|' :: (code ++ ['|']))
      ('|' :: (cd ++ '|' :: (t ++ ['\x7d', '\x7d']))) =
      Cairn.matchLit (code ++ ['|']) (cd ++ '|' :: (t ++ ['\x7d', '\x7d'])) := by
    simp [Cairn.matchLit]
  rw [hone, matchLit_code_ne code cd _ hcode hcd hne]

theorem tryLangTpl_head_mismatch (rh code hd fld cd t : List Char)
    (hrh : ∀ c ∈ rh, Cairn.lalpha c) (hhd : ∀ c ∈ hd, Cairn.lalpha c) (hne : hd ≠ rh) :
    Cairn.tryLangTpl rh code (Cairn.langTpl hd fld cd t) = none := by
  unfold Cairn.tryLangTpl Cairn.langTpl
  have h2 : Cairn.matchLit ('\x7b' :: '\x7b' :: (rh ++ ['|']))
      ('\x7b' :: '\x7b' :: (hd ++ '|' :: (fld ++ '|' :: (cd ++ '|' :: (t ++ ['\x7d', '\x7d']))))) =
      Cairn.matchLit (rh ++ ['|']) (hd ++ '|' :: (fld ++ '|' :: (cd ++ '|' :: (t ++ ['\x7d', '\x7d'])))) := by
    simp [Cairn.matchLit]
  rw [h2, matchLit_code_ne rh hd _ hrh hhd hne]

theorem tryGenTpl_head_mismatch (rh : List Char) (wilds : Nat) (hd fld cd t : List Char)
    (hrh : ∀ c ∈ rh, Cairn.lalpha c) (hhd : ∀ c ∈ hd, Cairn.lalpha c) (hne : hd ≠ rh) :
    Cairn.tryGenTpl rh wilds (Cairn.langTpl hd fld cd t) = none := by
  unfold Cairn.tryGenTpl Cairn.langTpl
  have h2 : Cairn.matchLit ('\x7b' :: '\x7b' :: (rh ++ ['|']))
      ('\x7b' :: '\x7b' :: (hd ++ '|' :: (fld ++ '|' :: (cd ++ '|' :: (t ++ ['\x7d', '\x7d']))))) =
      Cairn.matchLit (rh ++ ['|']) (hd ++ '|' :: (fld ++ '|' :: (cd ++ '|' :: (t ++ ['\x7d', '\x7d'])))) := by
    simp [Cairn.matchLit]
  rw [h2, matchLit_code_ne rh hd _ hrh hhd hne]

theorem skipFields_step (n : Nat) (u v : List Char) (hu : ∀ c ∈ u, Cairn.lalpha c) :
    Cairn.skipFields (n + 1) (u ++ '|' :: v) = Cairn.skipFields n v := by
  have hdrop := (spanSplit (fun c => c != '|') u '|' v
    (fun c hc => lalpha_bne c '|' (hu c hc) (by decide)) (by decide)).2
  simp only [Cairn.skipFields, hdrop]

theorem tryGenTpl_fire (head fld cd t : List Char)
    (hf : ∀ c ∈ fld, Cairn.lalpha c) (hcd : ∀ c ∈ cd, Cairn.lalpha c)
    (ht : ∀ c ∈ t, Cairn.lalpha c) (htne : t ≠ []) :
    Cairn.tryGenTpl head 2 (Cairn.langTpl head fld cd t) = some (t, []) := by
  unfold Cairn.tryGenTpl Cairn.langTpl
  rw [matchLit_tpl_front]
  have hskip : Cairn.skipFields 2 (fld ++ '|' :: (cd ++ '|' :: (t ++ ['\x7d', '\x7d'])))
      = some (t ++ ['\x7d', '\x7d']) := by
    have e1 := skipFields_step 1 fld (cd ++ '|' :: (t ++ ['\x7d', '\x7d'])) hf
    have e2 := skipFields_step 0 cd (t ++ ['\x7d', '\x7d']) hcd
    exact e1.trans e2
  simp only [hskip]
  unfold Cairn.tryCapture
  have hcap := spanSplit (fun c => c != '\x7d' && c != '|') t '\x7d' ['\x7d']
    (fun c hc => lalpha_capture_pred c (ht c hc)) (by decide)
  simp only [hcap.1, hcap.2]
  rw [if_neg (by simpa [List.isEmpty_iff] using htne)]

theorem tryLangTpl_pos1 (head code : List Char) (b : Char) (body : List Char)
    (hb : b ≠ '\x7b') :
    Cairn.tryLangTpl head code ('\x7b' :: b :: body) = none := by
  unfold Cairn.tryLangTpl
  have h2 : Cairn.matchLit ('\x7b' :: '\x7b' :: (head ++ ['|'])) ('\x7b' :: b :: body) =
      Cairn.matchLit ('\x7b' :: (head ++ ['|'])) (b :: body) := by
    simp [Cairn.matchLit]
  rw [h2, matchLit_head_ne _ _ _ (by simp; exact fun hh => hb hh)]

theorem tryGenTpl_pos1 (head : List Char) (wilds : Nat) (b : Char) (body : List Char)
    (hb : b ≠ '\x7b') :
    Cairn.tryGenTpl head wilds ('\x7b' :: b :: body) = none := by
  unfold Cairn.tryGenTpl
  have h2 : Cairn.matchLit ('\x7b' :: '\x7b' :: (head ++ ['|'])) ('\x7b' :: b :: body) =
      Cairn.matchLit ('\x7b' :: (head ++ ['|'])) (b :: body) := by
    simp [Cairn.matchLit]
  rw [h2, matchLit_head_ne _ _ _ (by simp; exact fun hh => hb hh)]

theorem rule_id_of_guard (tm : List Char → Option (List Char × List Char))
    (repl : List Char → List Char) (g : Char)
    (hg : ∀ s y rest, tm s = some (y, rest) → ∃ c, s.head? = some c ∧ c = g)
    (s : List Char) (hs : ∀ c ∈ s, c ≠ g) :
    Cairn.replaceAll tm repl s = s :=
  replaceAll_id tm repl (fun c => c = g) hg s (fun c hc => hs c hc)

theorem ruleSpaces_id (s : List Char) (hs : ∀ c ∈ s, ¬(c = ' ' ∨ c = '\t')) :
    Cairn.ruleSpaces s = s :=
  replaceAll_id Cairn.trySpaces (fun _ => [' ']) (fun c => c = ' ' ∨ c = '\t')
    trySpaces_guard s hs

theorem lalpha_not_sp (c : Char) (hc : Cairn.lalpha c) : ¬(c = ' ' ∨ c = '\t') := by
  intro h
  rcases h with h | h <;> (subst h; exact absurd hc (by decide))

theorem lalpha_not_ws (c : Char) (hc : Cairn.lalpha c) : ¬(c.isWhitespace = true) := by
  intro h
  simp only [Char.isWhitespace, Bool.or_eq_true, beq_iff_eq, decide_eq_true_eq] at h
  rcases h with ((h | h) | h) | h <;> (subst h; exact absurd hc (by decide))

theorem headLalphaNotSp (t : List Char) (ht : ∀ c ∈ t, Cairn.lalpha c) :
    ∀ c, t.head? = some c → ¬(c = ' ' ∨ c = '\t') := by
  intro c hc
  cases t with
  | nil => simp at hc
  | cons a as =>
    simp only [List.head?_cons, Option.some.injEq] at hc
    subst hc
    exact lalpha_not_sp a (ht a (List.mem_cons_self a as))

theorem headLalphaNotWs (t : List Char) (ht : ∀ c ∈ t, Cairn.lalpha c) :
    ∀ c, t.head? = some c → ¬(c.isWhitespace = true) := by
  intro c hc
  cases t with
  | nil => simp at hc
  | cons a as =>
    simp only [List.head?_cons, Option.some.injEq] at hc
    subst hc
    exact lalpha_not_ws a (ht a (List.mem_cons_self a as))

theorem getLastLalphaNotWs (t : List Char) (ht : ∀ c ∈ t, Cairn.lalpha c) :
    ∀ c, t.getLast? = some c → ¬(c.isWhitespace = true) := by
  intro c hc
  rcases List.mem_getLast?_eq_getLast (Option.mem_def.mpr hc) with ⟨h, hx⟩
  subst hx
  exact lalpha_not_ws _ (ht _ (List.getLast_mem h))

theorem getLastNotWs (X t : List Char) (ht : ∀ c ∈ t, Cairn.lalpha c) (htne : t ≠ []) :
    ∀ c, (X ++ t).getLast? = some c → ¬(c.isWhitespace = true) := by
  intro c hc
  rw [List.getLast?_append_of_ne_nil X htne] at hc
  exact getLastLalphaNotWs t ht c hc

theorem trySpaces_single (v : List Char)
    (hv : ∀ c, v.head? = some c → ¬(c = ' ' ∨ c = '\t')) :
    Cairn.trySpaces (' ' :: v) = some ([], v) := by
  have hput : ∀ c, v.head? = some c → ¬((c == ' ' || c == '\t') = true) := by
    intro c hc hh
    rcases Bool.or_eq_true_iff.mp hh with h2 | h2
    · exact hv c hc (Or.inl (by simpa using h2))
    · exact hv c hc (Or.inr (by simpa using h2))
  have htake : List.takeWhile (fun c => c == ' ' || c == '\t') v = [] := by
    cases v with
    | nil => rfl
    | cons h hs => rw [List.takeWhile_cons, if_neg (hput h rfl)]
  have hdrop : List.dropWhile (fun c => c == ' ' || c == '\t') v = v := by
    cases v with
    | nil => rfl
    | cons h hs => rw [List.dropWhile_cons, if_neg (hput h rfl)]
  simp only [Cairn.trySpaces, List.takeWhile_cons, List.dropWhile_cons, htake, hdrop]
  rfl

theorem ruleSpaces_sep (u v : List Char) (hu : ∀ c ∈ u, ¬(c = ' ' ∨ c = '\t'))
    (hv : ∀ c, v.head? = some c → ¬(c = ' ' ∨ c = '\t')) :
    Cairn.ruleSpaces (u ++ ' ' :: v) = u ++ ' ' :: Cairn.ruleSpaces v := by
  show Cairn.replaceAll Cairn.trySpaces (fun _ => [' ']) (u ++ ' ' :: v) = _
  rw [replaceAll_skip Cairn.trySpaces (fun _ => [' ']) (fun c => c = ' ' ∨ c = '\t')
    trySpaces_guard u (' ' :: v) hu]
  rw [replaceAll_match Cairn.trySpaces (fun _ => [' ']) (' ' :: v) [] v
    (trySpaces_single v hv) (by simp)]
  rfl

theorem dropWhile_eq_self_of_head (p : Char → Bool) (s : List Char)
    (h : ∀ c, s.head? = some c → ¬(p c = true)) :
    List.dropWhile p s = s := by
  cases s with
  | nil => rfl
  | cons c cs => rw [List.dropWhile_cons, if_neg (h c rfl)]

theorem trimSpaceL_id (s : List Char)
    (h1 : ∀ c, s.head? = some c → ¬(c.isWhitespace = true))
    (h2 : ∀ c, s.getLast? = some c → ¬(c.isWhitespace = true)) :
    Cairn.trimSpaceL s = s := by
  unfold Cairn.trimSpaceL
  rw [dropWhile_eq_self_of_head Char.isWhitespace s h1]
  rw [dropWhile_eq_self_of_head Char.isWhitespace s.reverse
    (fun c hc => h2 c (by rwa [List.head?_reverse] at hc))]
  exact List.reverse_reverse s

theorem tame_append (u v : List Char) (P : Char → Prop)
    (hu : ∀ c ∈ u, P c) (hv : ∀ c ∈ v, P c) : ∀ c ∈ u ++ v, P c := by
  intro c hc
  rcases List.mem_append.mp hc with h | h
  · exact hu c h
  · exact hv c h

theorem tame_cons (a : Char) (v : List Char) (P : Char → Prop)
    (ha : P a) (hv : ∀ c ∈ v, P c) : ∀ c ∈ a :: v, P c := by
  intro c hc
  rcases List.mem_cons.mp hc with h | h
  · subst h; exact ha
  · exact hv c h

theorem tame_lalpha (t : List Char) (ht : ∀ c ∈ t, Cairn.lalpha c) :
    ∀ c ∈ t, c ≠ '\x7b' ∧ c ≠ '[' ∧ c ≠ '\x27' ∧ c ≠ '<' ∧ c ≠ '\n' := by
  intro c hc
  have h := ht c hc
  exact ⟨lalpha_ne c _ h (by decide), lalpha_ne c _ h (by decide), lalpha_ne c _ h (by decide),
    lalpha_ne c _ h (by decide), lalpha_ne c _ h (by decide)⟩

theorem langTpl_body_tame (head fld cd t : List Char)
    (hhead : ∀ c ∈ head, Cairn.lalpha c) (hf : ∀ c ∈ fld, Cairn.lalpha c)
    (hcd : ∀ c ∈ cd, Cairn.lalpha c) (ht : ∀ c ∈ t, Cairn.lalpha c) :
    ∀ c ∈ head ++ '|' :: (fld ++ '|' :: (cd ++ '|' :: (t ++ ['\x7d', '\x7d']))),
      c ≠ '\x7b' := by
  intro c hc
  have hc2 : Cairn.lalpha c ∨ c = '|' ∨ c = '\x7d' := by
    rcases List.mem_append.mp hc with h | h
    · exact Or.inl (hhead c h)
    · rcases List.mem_cons.mp h with h | h
      · exact Or.inr (Or.inl h)
      · rcases List.mem_append.mp h with h | h
        · exact Or.inl (hf c h)
        · rcases List.mem_cons.mp h with h | h
          · exact Or.inr (Or.inl h)
          · rcases List.mem_append.mp h with h | h
            · exact Or.inl (hcd c h)
            · rcases List.mem_cons.mp h with h | h
              · exact Or.inr (Or.inl h)
              · rcases List.mem_append.mp h with h | h
                · exact Or.inl (ht c h)
                · rcases List.mem_cons.mp h with h | h
                  · exact Or.inr (Or.inr h)
                  · rcases List.mem_cons.mp h with h | h
                    · exact Or.inr (Or.inr h)
                    · exact absurd h (List.not_mem_nil c)
  rcases hc2 with h | h | h
  · exact lalpha_ne c '\x7b' h (by decide)
  · subst h; decide
  · subst h; decide

theorem langRule_noop (rh rcode : List Char) (repl : List Char → List Char)
    (head fld cd t : List Char)
    (hhead : ∀ c ∈ head, Cairn.lalpha c) (hf : ∀ c ∈ fld, Cairn.lalpha c)
    (hcd : ∀ c ∈ cd, Cairn.lalpha c) (ht : ∀ c ∈ t, Cairn.lalpha c)
    (h1 : Char) (hs1 : List Char) (hhd : head = h1 :: hs1)
    (h0 : Cairn.tryLangTpl rh rcode (Cairn.langTpl head fld cd t) = none) :
    Cairn.replaceAll (Cairn.tryLangTpl rh rcode) repl (Cairn.langTpl head fld cd t)
      = Cairn.langTpl head fld cd t := by
  have hbody := langTpl_body_tame head fld cd t hhead hf hcd ht
  simp only [Cairn.langTpl] at h0 ⊢
  rw [replaceAll_cons_none _ _ _ _ h0]
  have hpos1 : Cairn.tryLangTpl rh rcode
      ('\x7b' :: (head ++ '|' :: (fld ++ '|' :: (cd ++ '|' :: (t ++ ['\x7d', '\x7d'])))))
      = none := by
    subst hhd
    simp only [List.cons_append]
    exact tryLangTpl_pos1 rh rcode h1 _
      (lalpha_ne h1 '\x7b' (hhead h1 (List.mem_cons_self h1 hs1)) (by decide))
  rw [replaceAll_cons_none _ _ _ _ hpos1]
  rw [rule_id_of_guard _ _ '\x7b' (tryLangTpl_guard rh rcode) _ hbody]

theorem genRule_noop (rh : List Char) (wilds : Nat) (repl : List Char → List Char)
    (head fld cd t : List Char)
    (hhead : ∀ c ∈ head, Cairn.lalpha c) (hf : ∀ c ∈ fld, Cairn.lalpha c)
    (hcd : ∀ c ∈ cd, Cairn.lalpha c) (ht : ∀ c ∈ t, Cairn.lalpha c)
    (h1 : Char) (hs1 : List Char) (hhd : head = h1 :: hs1)
    (h0 : Cairn.tryGenTpl rh wilds (Cairn.langTpl head fld cd t) = none) :
    Cairn.replaceAll (Cairn.tryGenTpl rh wilds) repl (Cairn.langTpl head fld cd t)
      = Cairn.langTpl head fld cd t := by
  have hbody := langTpl_body_tame head fld cd t hhead hf hcd ht
  simp only [Cairn.langTpl] at h0 ⊢
  rw [replaceAll_cons_none _ _ _ _ h0]
  have hpos1 : Cairn.tryGenTpl rh wilds
      ('\x7b' :: (head ++ '|' :: (fld ++ '|' :: (cd ++ '|' :: (t ++ ['\x7d', '\x7d'])))))
      = none := by
    subst hhd
    simp only [List.cons_append]
    exact tryGenTpl_pos1 rh wilds h1 _
      (lalpha_ne h1 '\x7b' (hhead h1 (List.mem_cons_self h1 hs1)) (by decide))
  rw [replaceAll_cons_none _ _ _ _ hpos1]
  rw [rule_id_of_guard _ _ '\x7b' (tryGenTpl_guard rh wilds) _ hbody]

theorem langRule_fire (head code fld t : List Char) (repl : List Char → List Char)
    (hf : ∀ c ∈ fld, Cairn.lalpha c) (ht : ∀ c ∈ t, Cairn.lalpha c) (htne : t ≠ []) :
    Cairn.replaceAll (Cairn.tryLangTpl head code) repl (Cairn.langTpl head fld code t)
      = repl t := by
  rw [replaceAll_match _ _ _ _ _ (tryLangTpl_fire head code fld t hf ht htne)
    (by simp [Cairn.langTpl])]
  rw [replaceAll_nil, List.append_nil]

theorem genRule_fire (head fld cd t : List Char) (repl : List Char → List Char)
    (hf : ∀ c ∈ fld, Cairn.lalpha c) (hcd : ∀ c ∈ cd, Cairn.lalpha c)
    (ht : ∀ c ∈ t, Cairn.lalpha c) (htne : t ≠ []) :
    Cairn.replaceAll (Cairn.tryGenTpl head 2) repl (Cairn.langTpl head fld cd t)
      = repl t := by
  rw [replaceAll_match _ _ _ _ _ (tryGenTpl_fire head fld cd t hf hcd ht htne)
    (by simp [Cairn.langTpl])]
  rw [replaceAll_nil, List.append_nil]

theorem tail1_id (s : List Char)
    (hch : ∀ c ∈ s, c ≠ '\x7b' ∧ c ≠ '[' ∧ c ≠ '\x27' ∧ c ≠ '<' ∧ c ≠ '\n')
    (hsp : Cairn.ruleSpaces s = s) (htr : Cairn.trimSpaceL s = s) :
    Cairn.trimSpaceL (Cairn.ruleSpaces (Cairn.ruleNewlines (Cairn.ruleAnyTpl
      (Cairn.ruleRefSelf (Cairn.ruleRefPair (Cairn.ruleItalic (Cairn.ruleLink
        (Cairn.ruleWLink (Cairn.ruleNcog (Cairn.ruleCog (Cairn.ruleL (Cairn.ruleM
          (Cairn.ruleDerGen (Cairn.ruleDerGrc (Cairn.ruleDerEnm (Cairn.ruleDerLa
            (Cairn.ruleDerFro (Cairn.ruleInhGen (Cairn.ruleInhGrc (Cairn.ruleInhLa
              (Cairn.ruleInhFro (Cairn.ruleInhAng s)))))))))))))))))))))) = s := by
  have h1 : ∀ c ∈ s, c ≠ '\x7b' := fun c hc => (hch c hc).1
  have h2 : ∀ c ∈ s, c ≠ '[' := fun c hc => (hch c hc).2.1
  have h3 : ∀ c ∈ s, c ≠ '\x27' := fun c hc => (hch c hc).2.2.1
  have h4 : ∀ c ∈ s, c ≠ '<' := fun c hc => (hch c hc).2.2.2.1
  have h5 : ∀ c ∈ s, c ≠ '\n' := fun c hc => (hch c hc).2.2.2.2
  rw [show Cairn.ruleInhAng s = s from
      rule_id_of_guard _ _ '\x7b' (tryLangTpl_guard ['i', 'n', 'h'] ['a', 'n', 'g']) s h1,
    show Cairn.ruleInhFro s = s from
      rule_id_of_guard _ _ '\x7b' (tryLangTpl_guard ['i', 'n', 'h'] ['f', 'r', 'o']) s h1,
    show Cairn.ruleInhLa s = s from
      rule_id_of_guard _ _ '\x7b' (tryLangTpl_guard ['i', 'n', 'h'] ['l', 'a']) s h1,
    show Cairn.ruleInhGrc s = s from
      rule_id_of_guard _ _ '\x7b' (tryLangTpl_guard ['i', 'n', 'h'] ['g', 'r', 'c']) s h1,
    show Cairn.ruleInhGen s = s from
      rule_id_of_guard _ _ '\x7b' (tryGenTpl_guard ['i', 'n', 'h'] 2) s h1,
    show Cairn.ruleDerFro s = s from
      rule_id_of_guard _ _ '\x7b' (tryLangTpl_guard ['d', 'e', 'r'] ['f', 'r', 'o']) s h1,
    show Cairn.ruleDerLa s = s from
      rule_id_of_guard _ _ '\x7b' (tryLangTpl_guard ['d', 'e', 'r'] ['l', 'a']) s h1,
    show Cairn.ruleDerEnm s = s from
      rule_id_of_guard _ _ '\x7b' (tryLangTpl_guard ['d', 'e', 'r'] ['e', 'n', 'm']) s h1,
    show Cairn.ruleDerGrc s = s from
      rule_id_of_guard _ _ '\x7b' (tryLangTpl_guard ['d', 'e', 'r'] ['g', 'r', 'c']) s h1,
    show Cairn.ruleDerGen s = s from
      rule_id_of_guard _ _ '\x7b' (tryGenTpl_guard ['d', 'e', 'r'] 2) s h1,
    show Cairn.ruleM s = s from
      rule_id_of_guard _ _ '\x7b' (tryOptTpl_guard ['m']) s h1,
    show Cairn.ruleL s = s from
      rule_id_of_guard _ _ '\x7b' (tryGenTpl_guard ['l'] 1) s h1,
    show Cairn.ruleCog s = s from
      rule_id_of_guard _ _ '\x7b' (tryGenTpl_guard ['c', 'o', 'g'] 1) s h1,
    show Cairn.ruleNcog s = s from
      rule_id_of_guard _ _ '\x7b' (tryGenTpl_guard ['n', 'c', 'o', 'g'] 1) s h1,
    show Cairn.ruleWLink s = s from
      rule_id_of_guard _ _ '[' tryWLink_guard s h2,
    show Cairn.ruleLink s = s from
      rule_id_of_guard _ _ '[' tryLink_guard s h2,
    show Cairn.ruleItalic s = s from
      rule_id_of_guard _ _ '\x27' tryItalic_guard s h3,
    show Cairn.ruleRefPair s = s from
      rule_id_of_guard _ _ '<' tryRefPair_guard s h4,
    show Cairn.ruleRefSelf s = s from
      rule_id_of_guard _ _ '<' tryRefSelf_guard s h4,
    show Cairn.ruleAnyTpl s = s from
      rule_id_of_guard _ _ '\x7b' tryAnyTpl_guard s h1,
    show Cairn.ruleNewlines s = s from
      rule_id_of_guard _ _ '\n' tryNewlines_guard s h5,
    hsp, htr]

theorem clean_inh_enm (fld t : List Char)
    (hf : ∀ c ∈ fld, Cairn.lalpha c) (ht : ∀ c ∈ t, Cairn.lalpha c) (htne : t ≠ []) :
    Cairn.cleanEtymologyL (Cairn.langTpl ['i', 'n', 'h'] fld ['e', 'n', 'm'] t)
      = ['M', 'i', 'd', 'd', 'l', 'e', ' ', 'E', 'n', 'g', 'l', 'i', 's', 'h', ' '] ++ t := by
  have hta : ∀ c ∈ ['M', 'i', 'd', 'd', 'l', 'e', ' ', 'E', 'n', 'g', 'l', 'i', 's', 'h', ' '] ++ t,
      c ≠ '\x7b' ∧ c ≠ '[' ∧ c ≠ '\x27' ∧ c ≠ '<' ∧ c ≠ '\n' :=
    tame_append _ t _ (by decide) (tame_lalpha t ht)
  have hd1 : ∀ c, ((['E', 'n', 'g', 'l', 'i', 's', 'h'] ++ ' ' :: t : List Char)).head? = some c →
      ¬(c = ' ' ∨ c = '\t') := by
    intro c hc
    simp only [List.cons_append, List.head?_cons, Option.some.injEq] at hc
    subst hc
    decide
  have hsp : Cairn.ruleSpaces
        (['M', 'i', 'd', 'd', 'l', 'e', ' ', 'E', 'n', 'g', 'l', 'i', 's', 'h', ' '] ++ t)
      = ['M', 'i', 'd', 'd', 'l', 'e', ' ', 'E', 'n', 'g', 'l', 'i', 's', 'h', ' '] ++ t := by
    have he : (['M', 'i', 'd', 'd', 'l', 'e', ' ', 'E', 'n', 'g', 'l', 'i', 's', 'h', ' '] ++ t
          : List Char)
        = ['M', 'i', 'd', 'd', 'l', 'e'] ++ ' ' :: (['E', 'n', 'g', 'l', 'i', 's', 'h'] ++ ' ' :: t) :=
      rfl
    rw [he,
      ruleSpaces_sep ['M', 'i', 'd', 'd', 'l', 'e'] (['E', 'n', 'g', 'l', 'i', 's', 'h'] ++ ' ' :: t)
        (by decide) hd1,
      ruleSpaces_sep ['E', 'n', 'g', 'l', 'i', 's', 'h'] t (by decide) (headLalphaNotSp t ht),
      ruleSpaces_id t (fun c hc => lalpha_not_sp c (ht c hc))]
  have htr : Cairn.trimSpaceL
        (['M', 'i', 'd', 'd', 'l', 'e', ' ', 'E', 'n', 'g', 'l', 'i', 's', 'h', ' '] ++ t)
      = ['M', 'i', 'd', 'd', 'l', 'e', ' ', 'E', 'n', 'g', 'l', 'i', 's', 'h', ' '] ++ t :=
    trimSpaceL_id _
      (by
        intro c hc
        simp only [List.cons_append, List.head?_cons, Option.some.injEq] at hc
        subst hc
        decide)
      (getLastNotWs ['M', 'i', 'd', 'd', 'l', 'e', ' ', 'E', 'n', 'g', 'l', 'i', 's', 'h', ' ']
        t ht htne)
  have htail := tail1_id
    (['M', 'i', 'd', 'd', 'l', 'e', ' ', 'E', 'n', 'g', 'l', 'i', 's', 'h', ' '] ++ t) hta hsp htr
  unfold Cairn.cleanEtymologyL
  simp only [Cairn.ruleInhEnm]
  rw [langRule_fire ['i', 'n', 'h'] ['e', 'n', 'm'] fld t _ hf ht htne]
  exact htail

theorem clean_der_la (fld t : List Char)
    (hf : ∀ c ∈ fld, Cairn.lalpha c) (ht : ∀ c ∈ t, Cairn.lalpha c) (htne : t ≠ []) :
    Cairn.cleanEtymologyL (Cairn.langTpl ['d', 'e', 'r'] fld ['l', 'a'] t)
      = ['L', 'a', 't', 'i', 'n', ' '] ++ t := by
  have hta : ∀ c ∈ ['L', 'a', 't', 'i', 'n', ' '] ++ t,
      c ≠ '\x7b' ∧ c ≠ '[' ∧ c ≠ '\x27' ∧ c ≠ '<' ∧ c ≠ '\n' :=
    tame_append _ t _ (by decide) (tame_lalpha t ht)
  have hsp : Cairn.ruleSpaces (['L', 'a', 't', 'i', 'n', ' '] ++ t)
      = ['L', 'a', 't', 'i', 'n', ' '] ++ t := by
    have he : (['L', 'a', 't', 'i', 'n', ' '] ++ t : List Char)
        = ['L', 'a', 't', 'i', 'n'] ++ ' ' :: t := rfl
    rw [he, ruleSpaces_sep ['L', 'a', 't', 'i', 'n'] t (by decide) (headLalphaNotSp t ht),
      ruleSpaces_id t (fun c hc => lalpha_not_sp c (ht c hc))]
  have htr : Cairn.trimSpaceL (['L', 'a', 't', 'i', 'n', ' '] ++ t)
      = ['L', 'a', 't', 'i', 'n', ' '] ++ t :=
    trimSpaceL_id _
      (by
        intro c hc
        simp only [List.cons_append, List.head?_cons, Option.some.injEq] at hc
        subst hc
        decide)
      (getLastNotWs ['L', 'a', 't', 'i', 'n', ' '] t ht htne)
  have htail := tail1_id (['L', 'a', 't', 'i', 'n', ' '] ++ t) hta hsp htr
  have h1out : ∀ c ∈ ['L', 'a', 't', 'i', 'n', ' '] ++ t, c ≠ '\x7b' :=
    fun c hc => (hta c hc).1
  rw [show Cairn.ruleInhAng (['L', 'a', 't', 'i', 'n', ' '] ++ t)
        = ['L', 'a', 't', 'i', 'n', ' '] ++ t from
      rule_id_of_guard _ _ '\x7b' (tryLangTpl_guard ['i', 'n', 'h'] ['a', 'n', 'g']) _ h1out,
    show Cairn.ruleInhFro (['L', 'a', 't', 'i', 'n', ' '] ++ t)
        = ['L', 'a', 't', 'i', 'n', ' '] ++ t from
      rule_id_of_guard _ _ '\x7b' (tryLangTpl_guard ['i', 'n', 'h'] ['f', 'r', 'o']) _ h1out,
    show Cairn.ruleInhLa (['L', 'a', 't', 'i', 'n', ' '] ++ t)
        = ['L', 'a', 't', 'i', 'n', ' '] ++ t from
      rule_id_of_guard _ _ '\x7b' (tryLangTpl_guard ['i', 'n', 'h'] ['l', 'a']) _ h1out,
    show Cairn.ruleInhGrc (['L', 'a', 't', 'i', 'n', ' '] ++ t)
        = ['L', 'a', 't', 'i', 'n', ' '] ++ t from
      rule_id_of_guard _ _ '\x7b' (tryLangTpl_guard ['i', 'n', 'h'] ['g', 'r', 'c']) _ h1out,
    show Cairn.ruleInhGen (['L', 'a', 't', 'i', 'n', ' '] ++ t)
        = ['L', 'a', 't', 'i', 'n', ' '] ++ t from
      rule_id_of_guard _ _ '\x7b' (tryGenTpl_guard ['i', 'n', 'h'] 2) _ h1out,
    show Cairn.ruleDerFro (['L', 'a', 't', 'i', 'n', ' '] ++ t)
        = ['L', 'a', 't', 'i', 'n', ' '] ++ t from
      rule_id_of_guard _ _ '\x7b' (tryLangTpl_guard ['d', 'e', 'r'] ['f', 'r', 'o']) _ h1out,
    show Cairn.ruleDerLa (['L', 'a', 't', 'i', 'n', ' '] ++ t)
        = ['L', 'a', 't', 'i', 'n', ' '] ++ t from
      rule_id_of_guard _ _ '\x7b' (tryLangTpl_guard ['d', 'e', 'r'] ['l', 'a']) _ h1out] at htail
  unfold Cairn.cleanEtymologyL
  simp only [Cairn.ruleInhEnm, Cairn.ruleInhAng, Cairn.ruleInhFro, Cairn.ruleInhLa,
    Cairn.ruleInhGrc, Cairn.ruleInhGen, Cairn.ruleDerFro, Cairn.ruleDerLa]
  rw [langRule_noop ['i', 'n', 'h'] ['e', 'n', 'm'] _ ['d', 'e', 'r'] fld ['l', 'a'] t
      (by decide) hf (by decide) ht 'd' ['e', 'r'] rfl
      (tryLangTpl_head_mismatch ['i', 'n', 'h'] ['e', 'n', 'm'] ['d', 'e', 'r'] fld ['l', 'a'] t
        (by decide) (by decide) (by decide)),
    langRule_noop ['i', 'n', 'h'] ['a', 'n', 'g'] _ ['d', 'e', 'r'] fld ['l', 'a'] t
      (by decide) hf (by decide) ht 'd' ['e', 'r'] rfl
      (tryLangTpl_head_mismatch ['i', 'n', 'h'] ['a', 'n', 'g'] ['d', 'e', 'r'] fld ['l', 'a'] t
        (by decide) (by decide) (by decide)),
    langRule_noop ['i', 'n', 'h'] ['f', 'r', 'o'] _ ['d', 'e', 'r'] fld ['l', 'a'] t
      (by decide) hf (by decide) ht 'd' ['e', 'r'] rfl
      (tryLangTpl_head_mismatch ['i', 'n', 'h'] ['f', 'r', 'o'] ['d', 'e', 'r'] fld ['l', 'a'] t
        (by decide) (by decide) (by decide)),
    langRule_noop ['i', 'n', 'h'] ['l', 'a'] _ ['d', 'e', 'r'] fld ['l', 'a'] t
      (by decide) hf (by decide) ht 'd' ['e', 'r'] rfl
      (tryLangTpl_head_mismatch ['i', 'n', 'h'] ['l', 'a'] ['d', 'e', 'r'] fld ['l', 'a'] t
        (by decide) (by decide) (by decide)),
    langRule_noop ['i', 'n', 'h'] ['g', 'r', 'c'] _ ['d', 'e', 'r'] fld ['l', 'a'] t
      (by decide) hf (by decide) ht 'd' ['e', 'r'] rfl
      (tryLangTpl_head_mismatch ['i', 'n', 'h'] ['g', 'r', 'c'] ['d', 'e', 'r'] fld ['l', 'a'] t
        (by decide) (by decide) (by decide)),
    genRule_noop ['i', 'n', 'h'] 2 _ ['d', 'e', 'r'] fld ['l', 'a'] t
      (by decide) hf (by decide) ht 'd' ['e', 'r'] rfl
      (tryGenTpl_head_mismatch ['i', 'n', 'h'] 2 ['d', 'e', 'r'] fld ['l', 'a'] t
        (by decide) (by decide) (by decide)),
    langRule_noop ['d', 'e', 'r'] ['f', 'r', 'o'] _ ['d', 'e', 'r'] fld ['l', 'a'] t
      (by decide) hf (by decide) ht 'd' ['e', 'r'] rfl
      (tryLangTpl_code_mismatch ['d', 'e', 'r'] ['f', 'r', 'o'] fld ['l', 'a'] t
        hf (by decide) (by decide) (by decide)),
    langRule_fire ['d', 'e', 'r'] ['l', 'a'] fld t _ hf ht htne]
  exact htail

theorem clean_inh_ang (fld t : List Char)
    (hf : ∀ c ∈ fld, Cairn.lalpha c)
    (ht : ∀ c ∈ t, Cairn.lalpha c) (htne : t ≠ [])
    : Cairn.cleanEtymologyL (Cairn.langTpl ['i', 'n', 'h'] fld ['a', 'n', 'g'] t)
      = ['O', 'l', 'd', ' ', 'E', 'n', 'g', 'l', 'i', 's', 'h', ' '] ++ t := by
  have hta : ∀ c ∈ ['O', 'l', 'd', ' ', 'E', 'n', 'g', 'l', 'i', 's', 'h', ' '] ++ t,
      c ≠ '\x7b' ∧ c ≠ '[' ∧ c ≠ '\x27' ∧ c ≠ '<' ∧ c ≠ '\n' :=
    tame_append _ t _ (by decide) (tame_lalpha t ht)
  have hd1 : ∀ c, ((['E', 'n', 'g', 'l', 'i', 's', 'h'] ++ ' ' :: t : List Char)).head? = some c →
      ¬(c = ' ' ∨ c = '\t') := by
    intro c hc
    simp only [List.cons_append, List.head?_cons, Option.some.injEq] at hc
    subst hc
    decide
  have hsp : Cairn.ruleSpaces (['O', 'l', 'd', ' ', 'E', 'n', 'g', 'l', 'i', 's', 'h', ' '] ++ t)
      = ['O', 'l', 'd', ' ', 'E', 'n', 'g', 'l', 'i', 's', 'h', ' '] ++ t := by
    have he : (['O', 'l', 'd', ' ', 'E', 'n', 'g', 'l', 'i', 's', 'h', ' '] ++ t : List Char)
        = ['O', 'l', 'd'] ++ ' ' :: (['E', 'n', 'g', 'l', 'i', 's', 'h'] ++ ' ' :: t) := rfl
    rw [he,
      ruleSpaces_sep ['O', 'l', 'd'] (['E', 'n', 'g', 'l', 'i', 's', 'h'] ++ ' ' :: t) (by decide) hd1,
      ruleSpaces_sep ['E', 'n', 'g', 'l', 'i', 's', 'h'] t (by decide) (headLalphaNotSp t ht),
      ruleSpaces_id t (fun c hc => lalpha_not_sp c (ht c hc))]
  have htr : Cairn.trimSpaceL (['O', 'l', 'd', ' ', 'E', 'n', 'g', 'l', 'i', 's', 'h', ' '] ++ t)
      = ['O', 'l', 'd', ' ', 'E', 'n', 'g', 'l', 'i', 's', 'h', ' '] ++ t :=
    trimSpaceL_id _
      (by
        intro c hc
        simp only [List.cons_append, List.head?_cons, Option.some.injEq] at hc
        subst hc
        decide)
      (getLastNotWs ['O', 'l', 'd', ' ', 'E', 'n', 'g', 'l', 'i', 's', 'h', ' '] t ht htne)
  have htail := tail1_id (['O', 'l', 'd', ' ', 'E', 'n', 'g', 'l', 'i', 's', 'h', ' '] ++ t) hta hsp htr
  have h1out : ∀ c ∈ ['O', 'l', 'd', ' ', 'E', 'n', 'g', 'l', 'i', 's', 'h', ' '] ++ t, c ≠ '\x7b' :=
    fun c hc => (hta c hc).1
  rw [show Cairn.ruleInhAng (['O', 'l', 'd', ' ', 'E', 'n', 'g', 'l', 'i', 's', 'h', ' '] ++ t) = ['O', 'l', 'd', ' ', 'E', 'n', 'g', 'l', 'i', 's', 'h', ' '] ++ t from
      rule_id_of_guard _ _ '\x7b' (tryLangTpl_guard ['i', 'n', 'h'] ['a', 'n', 'g']) _ h1out] at htail
  unfold Cairn.cleanEtymologyL
  simp only [Cairn.ruleInhEnm, Cairn.ruleInhAng]
  rw [langRule_noop ['i', 'n', 'h'] ['e', 'n', 'm'] _ ['i', 'n', 'h'] fld ['a', 'n', 'g'] t
      (by decide) hf (by decide) ht 'i' ['n', 'h'] rfl
      (tryLangTpl_code_mismatch ['i', 'n', 'h'] ['e', 'n', 'm'] fld ['a', 'n', 'g'] t
        hf (by decide) (by decide) (by decide)),
    langRule_fire ['i', 'n', 'h'] ['a', 'n', 'g'] fld t _ hf ht htne]
  exact htail

theorem clean_inh_fro (fld t : List Char)
    (hf : ∀ c ∈ fld, Cairn.lalpha c)
    (ht : ∀ c ∈ t, Cairn.lalpha c) (htne : t ≠ [])
    : Cairn.cleanEtymologyL (Cairn.langTpl ['i', 'n', 'h'] fld ['f', 'r', 'o'] t)
      = ['O', 'l', 'd', ' ', 'F', 'r', 'e', 'n', 'c', 'h', ' '] ++ t := by
  have hta : ∀ c ∈ ['O', 'l', 'd', ' ', 'F', 'r', 'e', 'n', 'c', 'h', ' '] ++ t,
      c ≠ '\x7b' ∧ c ≠ '[' ∧ c ≠ '\x27' ∧ c ≠ '<' ∧ c ≠ '\n' :=
    tame_append _ t _ (by decide) (tame_lalpha t ht)
  have hd1 : ∀ c, ((['F', 'r', 'e', 'n', 'c', 'h'] ++ ' ' :: t : List Char)).head? = some c →
      ¬(c = ' ' ∨ c = '\t') := by
    intro c hc
    simp only [List.cons_append, List.head?_cons, Option.some.injEq] at hc
    subst hc
    decide
  have hsp : Cairn.ruleSpaces (['O', 'l', 'd', ' ', 'F', 'r', 'e', 'n', 'c', 'h', ' '] ++ t)
      = ['O', 'l', 'd', ' ', 'F', 'r', 'e', 'n', 'c', 'h', ' '] ++ t := by
    have he : (['O', 'l', 'd', ' ', 'F', 'r', 'e', 'n', 'c', 'h', ' '] ++ t : List Char)
        = ['O', 'l', 'd'] ++ ' ' :: (['F', 'r', 'e', 'n', 'c', 'h'] ++ ' ' :: t) := rfl
    rw [he,
      ruleSpaces_sep ['O', 'l', 'd'] (['F', 'r', 'e', 'n', 'c', 'h'] ++ ' ' :: t) (by decide) hd1,
      ruleSpaces_sep ['F', 'r', 'e', 'n', 'c', 'h'] t (by decide) (headLalphaNotSp t ht),
      ruleSpaces_id t (fun c hc => lalpha_not_sp c (ht c hc))]
  have htr : Cairn.trimSpaceL (['O', 'l', 'd', ' ', 'F', 'r', 'e', 'n', 'c', 'h', ' '] ++ t)
      = ['O', 'l', 'd', ' ', 'F', 'r', 'e', 'n', 'c', 'h', ' '] ++ t :=
    trimSpaceL_id _
      (by
        intro c hc
        simp only [List.cons_append, List.head?_cons, Option.some.injEq] at hc
        subst hc
        decide)
      (getLastNotWs ['O', 'l', 'd', ' ', 'F', 'r', 'e', 'n', 'c', 'h', ' '] t ht htne)
  have htail := tail1_id (['O', 'l', 'd', ' ', 'F', 'r', 'e', 'n', 'c', 'h', ' '] ++ t) hta hsp htr
  have h1out : ∀ c ∈ ['O', 'l', 'd', ' ', 'F', 'r', 'e', 'n', 'c', 'h', ' '] ++ t, c ≠ '\x7b' :=
    fun c hc => (hta c hc).1
  rw [show Cairn.ruleInhAng (['O', 'l', 'd', ' ', 'F', 'r', 'e', 'n', 'c', 'h', ' '] ++ t) = ['O', 'l', 'd', ' ', 'F', 'r', 'e', 'n', 'c', 'h', ' '] ++ t from
      rule_id_of_guard _ _ '\x7b' (tryLangTpl_guard ['i', 'n', 'h'] ['a', 'n', 'g']) _ h1out,
    show Cairn.ruleInhFro (['O', 'l', 'd', ' ', 'F', 'r', 'e', 'n', 'c', 'h', ' '] ++ t) = ['O', 'l', 'd', ' ', 'F', 'r', 'e', 'n', 'c', 'h', ' '] ++ t from
      rule_id_of_guard _ _ '\x7b' (tryLangTpl_guard ['i', 'n', 'h'] ['f', 'r', 'o']) _ h1out] at htail
  unfold Cairn.cleanEtymologyL
  simp only [Cairn.ruleInhEnm, Cairn.ruleInhAng, Cairn.ruleInhFro]
  rw [langRule_noop ['i', 'n', 'h'] ['e', 'n', 'm'] _ ['i', 'n', 'h'] fld ['f', 'r', 'o'] t
      (by decide) hf (by decide) ht 'i' ['n', 'h'] rfl
      (tryLangTpl_code_mismatch ['i', 'n', 'h'] ['e', 'n', 'm'] fld ['f', 'r', 'o'] t
        hf (by decide) (by decide) (by decide)),
    langRule_noop ['i', 'n', 'h'] ['a', 'n', 'g'] _ ['i', 'n', 'h'] fld ['f', 'r', 'o'] t
      (by decide) hf (by decide) ht 'i' ['n', 'h'] rfl
      (tryLangTpl_code_mismatch ['i', 'n', 'h'] ['a', 'n', 'g'] fld ['f', 'r', 'o'] t
        hf (by decide) (by decide) (by decide)),
    langRule_fire ['i', 'n', 'h'] ['f', 'r', 'o'] fld t _ hf ht htne]
  exact htail

theorem clean_inh_la (fld t : List Char)
    (hf : ∀ c ∈ fld, Cairn.lalpha c)
    (ht : ∀ c ∈ t, Cairn.lalpha c) (htne : t ≠ [])
    : Cairn.cleanEtymologyL (Cairn.langTpl ['i', 'n', 'h'] fld ['l', 'a'] t)
      = ['L', 'a', 't', 'i', 'n', ' '] ++ t := by
  have hta : ∀ c ∈ ['L', 'a', 't', 'i', 'n', ' '] ++ t,
      c ≠ '\x7b' ∧ c ≠ '[' ∧ c ≠ '\x27' ∧ c ≠ '<' ∧ c ≠ '\n' :=
    tame_append _ t _ (by decide) (tame_lalpha t ht)
  have hsp : Cairn.ruleSpaces (['L', 'a', 't', 'i', 'n', ' '] ++ t)
      = ['L', 'a', 't', 'i', 'n', ' '] ++ t := by
    have he : (['L', 'a', 't', 'i', 'n', ' '] ++ t : List Char)
        = ['L', 'a', 't', 'i', 'n'] ++ ' ' :: t := rfl
    rw [he, ruleSpaces_sep ['L', 'a', 't', 'i', 'n'] t (by decide) (headLalphaNotSp t ht),
      ruleSpaces_id t (fun c hc => lalpha_not_sp c (ht c hc))]
  have htr : Cairn.trimSpaceL (['L', 'a', 't', 'i', 'n', ' '] ++ t)
      = ['L', 'a', 't', 'i', 'n', ' '] ++ t :=
    trimSpaceL_id _
      (by
        intro c hc
        simp only [List.cons_append, List.head?_cons, Option.some.injEq] at hc
        subst hc
        decide)
      (getLastNotWs ['L', 'a', 't', 'i', 'n', ' '] t ht htne)
  have htail := tail1_id (['L', 'a', 't', 'i', 'n', ' '] ++ t) hta hsp htr
  have h1out : ∀ c ∈ ['L', 'a', 't', 'i', 'n', ' '] ++ t, c ≠ '\x7b' :=
    fun c hc => (hta c hc).1
  rw [show Cairn.ruleInhAng (['L', 'a', 't', 'i', 'n', ' '] ++ t) = ['L', 'a', 't', 'i', 'n', ' '] ++ t from
      rule_id_of_guard _ _ '\x7b' (tryLangTpl_guard ['i', 'n', 'h'] ['a', 'n', 'g']) _ h1out,
    show Cairn.ruleInhFro (['L', 'a', 't', 'i', 'n', ' '] ++ t) = ['L', 'a', 't', 'i', 'n', ' '] ++ t from
      rule_id_of_guard _ _ '\x7b' (tryLangTpl_guard ['i', 'n', 'h'] ['f', 'r', 'o']) _ h1out,
    show Cairn.ruleInhLa (['L', 'a', 't', 'i', 'n', ' '] ++ t) = ['L', 'a', 't', 'i', 'n', ' '] ++ t from
      rule_id_of_guard _ _ '\x7b' (tryLangTpl_guard ['i', 'n', 'h'] ['l', 'a']) _ h1out] at htail
  unfold Cairn.cleanEtymologyL
  simp only [Cairn.ruleInhEnm, Cairn.ruleInhAng, Cairn.ruleInhFro, Cairn.ruleInhLa]
  rw [langRule_noop ['i', 'n', 'h'] ['e', 'n', 'm'] _ ['i', 'n', 'h'] fld ['l', 'a'] t
      (by decide) hf (by decide) ht 'i' ['n', 'h'] rfl
      (tryLangTpl_code_mismatch ['i', 'n', 'h'] ['e', 'n', 'm'] fld ['l', 'a'] t
        hf (by decide) (by decide) (by decide)),
    langRule_noop ['i', 'n', 'h'] ['a', 'n', 'g'] _ ['i', 'n', 'h'] fld ['l', 'a'] t
      (by decide) hf (by decide) ht 'i' ['n', 'h'] rfl
      (tryLangTpl_code_mismatch ['i', 'n', 'h'] ['a', 'n', 'g'] fld ['l', 'a'] t
        hf (by decide) (by decide) (by decide)),
    langRule_noop ['i', 'n', 'h'] ['f', 'r', 'o'] _ ['i', 'n', 'h'] fld ['l', 'a'] t
      (by decide) hf (by decide) ht 'i' ['n', 'h'] rfl
      (tryLangTpl_code_mismatch ['i', 'n', 'h'] ['f', 'r', 'o'] fld ['l', 'a'] t
        hf (by decide) (by decide) (by decide)),
    langRule_fire ['i', 'n', 'h'] ['l', 'a'] fld t _ hf ht htne]
  exact htail

theorem clean_inh_grc (fld t : List Char)
    (hf : ∀ c ∈ fld, Cairn.lalpha c)
    (ht : ∀ c ∈ t, Cairn.lalpha c) (htne : t ≠ [])
    : Cairn.cleanEtymologyL (Cairn.langTpl ['i', 'n', 'h'] fld ['g', 'r', 'c'] t)
      = ['A', 'n', 'c', 'i', 'e', 'n', 't', ' ', 'G', 'r', 'e', 'e', 'k', ' '] ++ t := by
  have hta : ∀ c ∈ ['A', 'n', 'c', 'i', 'e', 'n', 't', ' ', 'G', 'r', 'e', 'e', 'k', ' '] ++ t,
      c ≠ '\x7b' ∧ c ≠ '[' ∧ c ≠ '\x27' ∧ c ≠ '<' ∧ c ≠ '\n' :=
    tame_append _ t _ (by decide) (tame_lalpha t ht)
  have hd1 : ∀ c, ((['G', 'r', 'e', 'e', 'k'] ++ ' ' :: t : List Char)).head? = some c →
      ¬(c = ' ' ∨ c = '\t') := by
    intro c hc
    simp only [List.cons_append, List.head?_cons, Option.some.injEq] at hc
    subst hc
    decide
  have hsp : Cairn.ruleSpaces (['A', 'n', 'c', 'i', 'e', 'n', 't', ' ', 'G', 'r', 'e', 'e', 'k', ' '] ++ t)
      = ['A', 'n', 'c', 'i', 'e', 'n', 't', ' ', 'G', 'r', 'e', 'e', 'k', ' '] ++ t := by
    have he : (['A', 'n', 'c', 'i', 'e', 'n', 't', ' ', 'G', 'r', 'e', 'e', 'k', ' '] ++ t : List Char)
        = ['A', 'n', 'c', 'i', 'e', 'n', 't'] ++ ' ' :: (['G', 'r', 'e', 'e', 'k'] ++ ' ' :: t) := rfl
    rw [he,
      ruleSpaces_sep ['A', 'n', 'c', 'i', 'e', 'n', 't'] (['G', 'r', 'e', 'e', 'k'] ++ ' ' :: t) (by decide) hd1,
      ruleSpaces_sep ['G', 'r', 'e', 'e', 'k'] t (by decide) (headLalphaNotSp t ht),
      ruleSpaces_id t (fun c hc => lalpha_not_sp c (ht c hc))]
  have htr : Cairn.trimSpaceL (['A', 'n', 'c', 'i', 'e', 'n', 't', ' ', 'G', 'r', 'e', 'e', 'k', ' '] ++ t)
      = ['A', 'n', 'c', 'i', 'e', 'n', 't', ' ', 'G', 'r', 'e', 'e', 'k', ' '] ++ t :=
    trimSpaceL_id _
      (by
        intro c hc
        simp only [List.cons_append, List.head?_cons, Option.some.injEq] at hc
        subst hc
        decide)
      (getLastNotWs ['A', 'n', 'c', 'i', 'e', 'n', 't', ' ', 'G', 'r', 'e', 'e', 'k', ' '] t ht htne)
  have htail := tail1_id (['A', 'n', 'c', 'i', 'e', 'n', 't', ' ', 'G', 'r', 'e', 'e', 'k', ' '] ++ t) hta hsp htr
  have h1out : ∀ c ∈ ['A', 'n', 'c', 'i', 'e', 'n', 't', ' ', 'G', 'r', 'e', 'e', 'k', ' '] ++ t, c ≠ '\x7b' :=
    fun c hc => (hta c hc).1
  rw [show Cairn.ruleInhAng (['A', 'n', 'c', 'i', 'e', 'n', 't', ' ', 'G', 'r', 'e', 'e', 'k', ' '] ++ t) = ['A', 'n', 'c', 'i', 'e', 'n', 't', ' ', 'G', 'r', 'e', 'e', 'k', ' '] ++ t from
      rule_id_of_guard _ _ '\x7b' (tryLangTpl_guard ['i', 'n', 'h'] ['a', 'n', 'g']) _ h1out,
    show Cairn.ruleInhFro (['A', 'n', 'c', 'i', 'e', 'n', 't', ' ', 'G', 'r', 'e', 'e', 'k', ' '] ++ t) = ['A', 'n', 'c', 'i', 'e', 'n', 't', ' ', 'G', 'r', 'e', 'e', 'k', ' '] ++ t from
      rule_id_of_guard _ _ '\x7b' (tryLangTpl_guard ['i', 'n', 'h'] ['f', 'r', 'o']) _ h1out,
    show Cairn.ruleInhLa (['A', 'n', 'c', 'i', 'e', 'n', 't', ' ', 'G', 'r', 'e', 'e', 'k', ' '] ++ t) = ['A', 'n', 'c', 'i', 'e', 'n', 't', ' ', 'G', 'r', 'e', 'e', 'k', ' '] ++ t from
      rule_id_of_guard _ _ '\x7b' (tryLangTpl_guard ['i', 'n', 'h'] ['l', 'a']) _ h1out,
    show Cairn.ruleInhGrc (['A', 'n', 'c', 'i', 'e', 'n', 't', ' ', 'G', 'r', 'e', 'e', 'k', ' '] ++ t) = ['A', 'n', 'c', 'i', 'e', 'n', 't', ' ', 'G', 'r', 'e', 'e', 'k', ' '] ++ t from
      rule_id_of_guard _ _ '\x7b' (tryLangTpl_guard ['i', 'n', 'h'] ['g', 'r', 'c']) _ h1out] at htail
  unfold Cairn.cleanEtymologyL
  simp only [Cairn.ruleInhEnm, Cairn.ruleInhAng, Cairn.ruleInhFro, Cairn.ruleInhLa, Cairn.ruleInhGrc]
  rw [langRule_noop ['i', 'n', 'h'] ['e', 'n', 'm'] _ ['i', 'n', 'h'] fld ['g', 'r', 'c'] t
      (by decide) hf (by decide) ht 'i' ['n', 'h'] rfl
      (tryLangTpl_code_mismatch ['i', 'n', 'h'] ['e', 'n', 'm'] fld ['g', 'r', 'c'] t
        hf (by decide) (by decide) (by decide)),
    langRule_noop ['i', 'n', 'h'] ['a', 'n', 'g'] _ ['i', 'n', 'h'] fld ['g', 'r', 'c'] t
      (by decide) hf (by decide) ht 'i' ['n', 'h'] rfl
      (tryLangTpl_code_mismatch ['i', 'n', 'h'] ['a', 'n', 'g'] fld ['g', 'r', 'c'] t
        hf (by decide) (by decide) (by decide)),
    langRule_noop ['i', 'n', 'h'] ['f', 'r', 'o'] _ ['i', 'n', 'h'] fld ['g', 'r', 'c'] t
      (by decide) hf (by decide) ht 'i' ['n', 'h'] rfl
      (tryLangTpl_code_mismatch ['i', 'n', 'h'] ['f', 'r', 'o'] fld ['g', 'r', 'c'] t
        hf (by decide) (by decide) (by decide)),
    langRule_noop ['i', 'n', 'h'] ['l', 'a'] _ ['i', 'n', 'h'] fld ['g', 'r', 'c'] t
      (by decide) hf (by decide) ht 'i' ['n', 'h'] rfl
      (tryLangTpl_code_mismatch ['i', 'n', 'h'] ['l', 'a'] fld ['g', 'r', 'c'] t
        hf (by decide) (by decide) (by decide)),
    langRule_fire ['i', 'n', 'h'] ['g', 'r', 'c'] fld t _ hf ht htne]
  exact htail

theorem clean_inh_other (fld cd t : List Char)
    (hf : ∀ c ∈ fld, Cairn.lalpha c) (hcd : ∀ c ∈ cd, Cairn.lalpha c)
    (ht : ∀ c ∈ t, Cairn.lalpha c) (htne : t ≠ [])
    (hne_enm : cd ≠ ['e', 'n', 'm']) (hne_ang : cd ≠ ['a', 'n', 'g']) (hne_fro : cd ≠ ['f', 'r', 'o']) (hne_la : cd ≠ ['l', 'a']) (hne_grc : cd ≠ ['g', 'r', 'c'])
    : Cairn.cleanEtymologyL (Cairn.langTpl ['i', 'n', 'h'] fld cd t)
      = t := by
  have hta := tame_lalpha t ht
  have hsp : Cairn.ruleSpaces t = t :=
    ruleSpaces_id t (fun c hc => lalpha_not_sp c (ht c hc))
  have htr : Cairn.trimSpaceL t = t :=
    trimSpaceL_id t (headLalphaNotWs t ht) (getLastLalphaNotWs t ht)
  have htail := tail1_id t hta hsp htr
  have h1out : ∀ c ∈ t, c ≠ '\x7b' :=
    fun c hc => (hta c hc).1
  rw [show Cairn.ruleInhAng (t) = t from
      rule_id_of_guard _ _ '\x7b' (tryLangTpl_guard ['i', 'n', 'h'] ['a', 'n', 'g']) _ h1out,
    show Cairn.ruleInhFro (t) = t from
      rule_id_of_guard _ _ '\x7b' (tryLangTpl_guard ['i', 'n', 'h'] ['f', 'r', 'o']) _ h1out,
    show Cairn.ruleInhLa (t) = t from
      rule_id_of_guard _ _ '\x7b' (tryLangTpl_guard ['i', 'n', 'h'] ['l', 'a']) _ h1out,
    show Cairn.ruleInhGrc (t) = t from
      rule_id_of_guard _ _ '\x7b' (tryLangTpl_guard ['i', 'n', 'h'] ['g', 'r', 'c']) _ h1out,
    show Cairn.ruleInhGen (t) = t from
      rule_id_of_guard _ _ '\x7b' (tryGenTpl_guard ['i', 'n', 'h'] 2) _ h1out] at htail
  unfold Cairn.cleanEtymologyL
  simp only [Cairn.ruleInhEnm, Cairn.ruleInhAng, Cairn.ruleInhFro, Cairn.ruleInhLa, Cairn.ruleInhGrc, Cairn.ruleInhGen]
  rw [langRule_noop ['i', 'n', 'h'] ['e', 'n', 'm'] _ ['i', 'n', 'h'] fld cd t
      (by decide) hf hcd ht 'i' ['n', 'h'] rfl
      (tryLangTpl_code_mismatch ['i', 'n', 'h'] ['e', 'n', 'm'] fld cd t
        hf (by decide) hcd hne_enm),
    langRule_noop ['i', 'n', 'h'] ['a', 'n', 'g'] _ ['i', 'n', 'h'] fld cd t
      (by decide) hf hcd ht 'i' ['n', 'h'] rfl
      (tryLangTpl_code_mismatch ['i', 'n', 'h'] ['a', 'n', 'g'] fld cd t
        hf (by decide) hcd hne_ang),
    langRule_noop ['i', 'n', 'h'] ['f', 'r', 'o'] _ ['i', 'n', 'h'] fld cd t
      (by decide) hf hcd ht 'i' ['n', 'h'] rfl
      (tryLangTpl_code_mismatch ['i', 'n', 'h'] ['f', 'r', 'o'] fld cd t
        hf (by decide) hcd hne_fro),
    langRule_noop ['i', 'n', 'h'] ['l', 'a'] _ ['i', 'n', 'h'] fld cd t
      (by decide) hf hcd ht 'i' ['n', 'h'] rfl
      (tryLangTpl_code_mismatch ['i', 'n', 'h'] ['l', 'a'] fld cd t
        hf (by decide) hcd hne_la),
    langRule_noop ['i', 'n', 'h'] ['g', 'r', 'c'] _ ['i', 'n', 'h'] fld cd t
      (by decide) hf hcd ht 'i' ['n', 'h'] rfl
      (tryLangTpl_code_mismatch ['i', 'n', 'h'] ['g', 'r', 'c'] fld cd t
        hf (by decide) hcd hne_grc),
    genRule_fire ['i', 'n', 'h'] fld cd t _ hf hcd ht htne]
  exact htail

theorem clean_der_fro (fld t : List Char)
    (hf : ∀ c ∈ fld, Cairn.lalpha c)
    (ht : ∀ c ∈ t, Cairn.lalpha c) (htne : t ≠ [])
    : Cairn.cleanEtymologyL (Cairn.langTpl ['d', 'e', 'r'] fld ['f', 'r', 'o'] t)
      = ['O', 'l', 'd', ' ', 'F', 'r', 'e', 'n', 'c', 'h', ' '] ++ t := by
  have hta : ∀ c ∈ ['O', 'l', 'd', ' ', 'F', 'r', 'e', 'n', 'c', 'h', ' '] ++ t,
      c ≠ '\x7b' ∧ c ≠ '[' ∧ c ≠ '\x27' ∧ c ≠ '<' ∧ c ≠ '\n' :=
    tame_append _ t _ (by decide) (tame_lalpha t ht)
  have hd1 : ∀ c, ((['F', 'r', 'e', 'n', 'c', 'h'] ++ ' ' :: t : List Char)).head? = some c →
      ¬(c = ' ' ∨ c = '\t') := by
    intro c hc
    simp only [List.cons_append, List.head?_cons, Option.some.injEq] at hc
    subst hc
    decide
  have hsp : Cairn.ruleSpaces (['O', 'l', 'd', ' ', 'F', 'r', 'e', 'n', 'c', 'h', ' '] ++ t)
      = ['O', 'l', 'd', ' ', 'F', 'r', 'e', 'n', 'c', 'h', ' '] ++ t := by
    have he : (['O', 'l', 'd', ' ', 'F', 'r', 'e', 'n', 'c', 'h', ' '] ++ t : List Char)
        = ['O', 'l', 'd'] ++ ' ' :: (['F', 'r', 'e', 'n', 'c', 'h'] ++ ' ' :: t) := rfl
    rw [he,
      ruleSpaces_sep ['O', 'l', 'd'] (['F', 'r', 'e', 'n', 'c', 'h'] ++ ' ' :: t) (by decide) hd1,
      ruleSpaces_sep ['F', 'r', 'e', 'n', 'c', 'h'] t (by decide) (headLalphaNotSp t ht),
      ruleSpaces_id t (fun c hc => lalpha_not_sp c (ht c hc))]
  have htr : Cairn.trimSpaceL (['O', 'l', 'd', ' ', 'F', 'r', 'e', 'n', 'c', 'h', ' '] ++ t)
      = ['O', 'l', 'd', ' ', 'F', 'r', 'e', 'n', 'c', 'h', ' '] ++ t :=
    trimSpaceL_id _
      (by
        intro c hc
        simp only [List.cons_append, List.head?_cons, Option.some.injEq] at hc
        subst hc
        decide)
      (getLastNotWs ['O', 'l', 'd', ' ', 'F', 'r', 'e', 'n', 'c', 'h', ' '] t ht htne)
  have htail := tail1_id (['O', 'l', 'd', ' ', 'F', 'r', 'e', 'n', 'c', 'h', ' '] ++ t) hta hsp htr
  have h1out : ∀ c ∈ ['O', 'l', 'd', ' ', 'F', 'r', 'e', 'n', 'c', 'h', ' '] ++ t, c ≠ '\x7b' :=
    fun c hc => (hta c hc).1
  rw [show Cairn.ruleInhAng (['O', 'l', 'd', ' ', 'F', 'r', 'e', 'n', 'c', 'h', ' '] ++ t) = ['O', 'l', 'd', ' ', 'F', 'r', 'e', 'n', 'c', 'h', ' '] ++ t from
      rule_id_of_guard _ _ '\x7b' (tryLangTpl_guard ['i', 'n', 'h'] ['a', 'n', 'g']) _ h1out,
    show Cairn.ruleInhFro (['O', 'l', 'd', ' ', 'F', 'r', 'e', 'n', 'c', 'h', ' '] ++ t) = ['O', 'l', 'd', ' ', 'F', 'r', 'e', 'n', 'c', 'h', ' '] ++ t from
      rule_id_of_guard _ _ '\x7b' (tryLangTpl_guard ['i', 'n', 'h'] ['f', 'r', 'o']) _ h1out,
    show Cairn.ruleInhLa (['O', 'l', 'd', ' ', 'F', 'r', 'e', 'n', 'c', 'h', ' '] ++ t) = ['O', 'l', 'd', ' ', 'F', 'r', 'e', 'n', 'c', 'h', ' '] ++ t from
      rule_id_of_guard _ _ '\x7b' (tryLangTpl_guard ['i', 'n', 'h'] ['l', 'a']) _ h1out,
    show Cairn.ruleInhGrc (['O', 'l', 'd', ' ', 'F', 'r', 'e', 'n', 'c', 'h', ' '] ++ t) = ['O', 'l', 'd', ' ', 'F', 'r', 'e', 'n', 'c', 'h', ' '] ++ t from
      rule_id_of_guard _ _ '\x7b' (tryLangTpl_guard ['i', 'n', 'h'] ['g', 'r', 'c']) _ h1out,
    show Cairn.ruleInhGen (['O', 'l', 'd', ' ', 'F', 'r', 'e', 'n', 'c', 'h', ' '] ++ t) = ['O', 'l', 'd', ' ', 'F', 'r', 'e', 'n', 'c', 'h', ' '] ++ t from
      rule_id_of_guard _ _ '\x7b' (tryGenTpl_guard ['i', 'n', 'h'] 2) _ h1out,
    show Cairn.ruleDerFro (['O', 'l', 'd', ' ', 'F', 'r', 'e', 'n', 'c', 'h', ' '] ++ t) = ['O', 'l', 'd', ' ', 'F', 'r', 'e', 'n', 'c', 'h', ' '] ++ t from
      rule_id_of_guard _ _ '\x7b' (tryLangTpl_guard ['d', 'e', 'r'] ['f', 'r', 'o']) _ h1out] at htail
  unfold Cairn.cleanEtymologyL
  simp only [Cairn.ruleInhEnm, Cairn.ruleInhAng, Cairn.ruleInhFro, Cairn.ruleInhLa, Cairn.ruleInhGrc, Cairn.ruleInhGen, Cairn.ruleDerFro]
  rw [langRule_noop ['i', 'n', 'h'] ['e', 'n', 'm'] _ ['d', 'e', 'r'] fld ['f', 'r', 'o'] t
      (by decide) hf (by decide) ht 'd' ['e', 'r'] rfl
      (tryLangTpl_head_mismatch ['i', 'n', 'h'] ['e', 'n', 'm'] ['d', 'e', 'r'] fld ['f', 'r', 'o'] t
        (by decide) (by decide) (by decide)),
    langRule_noop ['i', 'n', 'h'] ['a', 'n', 'g'] _ ['d', 'e', 'r'] fld ['f', 'r', 'o'] t
      (by decide) hf (by decide) ht 'd' ['e', 'r'] rfl
      (tryLangTpl_head_mismatch ['i', 'n', 'h'] ['a', 'n', 'g'] ['d', 'e', 'r'] fld ['f', 'r', 'o'] t
        (by decide) (by decide) (by decide)),
    langRule_noop ['i', 'n', 'h'] ['f', 'r', 'o'] _ ['d', 'e', 'r'] fld ['f', 'r', 'o'] t
      (by decide) hf (by decide) ht 'd' ['e', 'r'] rfl
      (tryLangTpl_head_mismatch ['i', 'n', 'h'] ['f', 'r', 'o'] ['d', 'e', 'r'] fld ['f', 'r', 'o'] t
        (by decide) (by decide) (by decide)),
    langRule_noop ['i', 'n', 'h'] ['l', 'a'] _ ['d', 'e', 'r'] fld ['f', 'r', 'o'] t
      (by decide) hf (by decide) ht 'd' ['e', 'r'] rfl
      (tryLangTpl_head_mismatch ['i', 'n', 'h'] ['l', 'a'] ['d', 'e', 'r'] fld ['f', 'r', 'o'] t
        (by decide) (by decide) (by decide)),
    langRule_noop ['i', 'n', 'h'] ['g', 'r', 'c'] _ ['d', 'e', 'r'] fld ['f', 'r', 'o'] t
      (by decide) hf (by decide) ht 'd' ['e', 'r'] rfl
      (tryLangTpl_head_mismatch ['i', 'n', 'h'] ['g', 'r', 'c'] ['d', 'e', 'r'] fld ['f', 'r', 'o'] t
        (by decide) (by decide) (by decide)),
    genRule_noop ['i', 'n', 'h'] 2 _ ['d', 'e', 'r'] fld ['f', 'r', 'o'] t
      (by decide) hf (by decide) ht 'd' ['e', 'r'] rfl
      (tryGenTpl_head_mismatch ['i', 'n', 'h'] 2 ['d', 'e', 'r'] fld ['f', 'r', 'o'] t
        (by decide) (by decide) (by decide)),
    langRule_fire ['d', 'e', 'r'] ['f', 'r', 'o'] fld t _ hf ht htne]
  exact htail

theorem clean_der_enm (fld t : List Char)
    (hf : ∀ c ∈ fld, Cairn.lalpha c)
    (ht : ∀ c ∈ t, Cairn.lalpha c) (htne : t ≠ [])
    : Cairn.cleanEtymologyL (Cairn.langTpl ['d', 'e', 'r'] fld ['e', 'n', 'm'] t)
      = ['M', 'i', 'd', 'd', 'l', 'e', ' ', 'E', 'n', 'g', 'l', 'i', 's', 'h', ' '] ++ t := by
  have hta : ∀ c ∈ ['M', 'i', 'd', 'd', 'l', 'e', ' ', 'E', 'n', 'g', 'l', 'i', 's', 'h', ' '] ++ t,
      c ≠ '\x7b' ∧ c ≠ '[' ∧ c ≠ '\x27' ∧ c ≠ '<' ∧ c ≠ '\n' :=
    tame_append _ t _ (by decide) (tame_lalpha t ht)
  have hd1 : ∀ c, ((['E', 'n', 'g', 'l', 'i', 's', 'h'] ++ ' ' :: t : List Char)).head? = some c →
      ¬(c = ' ' ∨ c = '\t') := by
    intro c hc
    simp only [List.cons_append, List.head?_cons, Option.some.injEq] at hc
    subst hc
    decide
  have hsp : Cairn.ruleSpaces (['M', 'i', 'd', 'd', 'l', 'e', ' ', 'E', 'n', 'g', 'l', 'i', 's', 'h', ' '] ++ t)
      = ['M', 'i', 'd', 'd', 'l', 'e', ' ', 'E', 'n', 'g', 'l', 'i', 's', 'h', ' '] ++ t := by
    have he : (['M', 'i', 'd', 'd', 'l', 'e', ' ', 'E', 'n', 'g', 'l', 'i', 's', 'h', ' '] ++ t : List Char)
        = ['M', 'i', 'd', 'd', 'l', 'e'] ++ ' ' :: (['E', 'n', 'g', 'l', 'i', 's', 'h'] ++ ' ' :: t) := rfl
    rw [he,
      ruleSpaces_sep ['M', 'i', 'd', 'd', 'l', 'e'] (['E', 'n', 'g', 'l', 'i', 's', 'h'] ++ ' ' :: t) (by decide) hd1,
      ruleSpaces_sep ['E', 'n', 'g', 'l', 'i', 's', 'h'] t (by decide) (headLalphaNotSp t ht),
      ruleSpaces_id t (fun c hc => lalpha_not_sp c (ht c hc))]
  have htr : Cairn.trimSpaceL (['M', 'i', 'd', 'd', 'l', 'e', ' ', 'E', 'n', 'g', 'l', 'i', 's', 'h', ' '] ++ t)
      = ['M', 'i', 'd', 'd', 'l', 'e', ' ', 'E', 'n', 'g', 'l', 'i', 's', 'h', ' '] ++ t :=
    trimSpaceL_id _
      (by
        intro c hc
        simp only [List.cons_append, List.head?_cons, Option.some.injEq] at hc
        subst hc
        decide)
      (getLastNotWs ['M', 'i', 'd', 'd', 'l', 'e', ' ', 'E', 'n', 'g', 'l', 'i', 's', 'h', ' '] t ht htne)
  have htail := tail1_id (['M', 'i', 'd', 'd', 'l', 'e', ' ', 'E', 'n', 'g', 'l', 'i', 's', 'h', ' '] ++ t) hta hsp htr
  have h1out : ∀ c ∈ ['M', 'i', 'd', 'd', 'l', 'e', ' ', 'E', 'n', 'g', 'l', 'i', 's', 'h', ' '] ++ t, c ≠ '\x7b' :=
    fun c hc => (hta c hc).1
  rw [show Cairn.ruleInhAng (['M', 'i', 'd', 'd', 'l', 'e', ' ', 'E', 'n', 'g', 'l', 'i', 's', 'h', ' '] ++ t) = ['M', 'i', 'd', 'd', 'l', 'e', ' ', 'E', 'n', 'g', 'l', 'i', 's', 'h', ' '] ++ t from
      rule_id_of_guard _ _ '\x7b' (tryLangTpl_guard ['i', 'n', 'h'] ['a', 'n', 'g']) _ h1out,
    show Cairn.ruleInhFro (['M', 'i', 'd', 'd', 'l', 'e', ' ', 'E', 'n', 'g', 'l', 'i', 's', 'h', ' '] ++ t) = ['M', 'i', 'd', 'd', 'l', 'e', ' ', 'E', 'n', 'g', 'l', 'i', 's', 'h', ' '] ++ t from
      rule_id_of_guard _ _ '\x7b' (tryLangTpl_guard ['i', 'n', 'h'] ['f', 'r', 'o']) _ h1out,
    show Cairn.ruleInhLa (['M', 'i', 'd', 'd', 'l', 'e', ' ', 'E', 'n', 'g', 'l', 'i', 's', 'h', ' '] ++ t) = ['M', 'i', 'd', 'd', 'l', 'e', ' ', 'E', 'n', 'g', 'l', 'i', 's', 'h', ' '] ++ t from
      rule_id_of_guard _ _ '\x7b' (tryLangTpl_guard ['i', 'n', 'h'] ['l', 'a']) _ h1out,
    show Cairn.ruleInhGrc (['M', 'i', 'd', 'd', 'l', 'e', ' ', 'E', 'n', 'g', 'l', 'i', 's', 'h', ' '] ++ t) = ['M', 'i', 'd', 'd', 'l', 'e', ' ', 'E', 'n', 'g', 'l', 'i', 's', 'h', ' '] ++ t from
      rule_id_of_guard _ _ '\x7b' (tryLangTpl_guard ['i', 'n', 'h'] ['g', 'r', 'c']) _ h1out,
    show Cairn.ruleInhGen (['M', 'i', 'd', 'd', 'l', 'e', ' ', 'E', 'n', 'g', 'l', 'i', 's', 'h', ' '] ++ t) = ['M', 'i', 'd', 'd', 'l', 'e', ' ', 'E', 'n', 'g', 'l', 'i', 's', 'h', ' '] ++ t from
      rule_id_of_guard _ _ '\x7b' (tryGenTpl_guard ['i', 'n', 'h'] 2) _ h1out,
    show Cairn.ruleDerFro (['M', 'i', 'd', 'd', 'l', 'e', ' ', 'E', 'n', 'g', 'l', 'i', 's', 'h', ' '] ++ t) = ['M', 'i', 'd', 'd', 'l', 'e', ' ', 'E', 'n', 'g', 'l', 'i', 's', 'h', ' '] ++ t from
      rule_id_of_guard _ _ '\x7b' (tryLangTpl_guard ['d', 'e', 'r'] ['f', 'r', 'o']) _ h1out,
    show Cairn.ruleDerLa (['M', 'i', 'd', 'd', 'l', 'e', ' ', 'E', 'n', 'g', 'l', 'i', 's', 'h', ' '] ++ t) = ['M', 'i', 'd', 'd', 'l', 'e', ' ', 'E', 'n', 'g', 'l', 'i', 's', 'h', ' '] ++ t from
      rule_id_of_guard _ _ '\x7b' (tryLangTpl_guard ['d', 'e', 'r'] ['l', 'a']) _ h1out,
    show Cairn.ruleDerEnm (['M', 'i', 'd', 'd', 'l', 'e', ' ', 'E', 'n', 'g', 'l', 'i', 's', 'h', ' '] ++ t) = ['M', 'i', 'd', 'd', 'l', 'e', ' ', 'E', 'n', 'g', 'l', 'i', 's', 'h', ' '] ++ t from
      rule_id_of_guard _ _ '\x7b' (tryLangTpl_guard ['d', 'e', 'r'] ['e', 'n', 'm']) _ h1out] at htail
  unfold Cairn.cleanEtymologyL
  simp only [Cairn.ruleInhEnm, Cairn.ruleInhAng, Cairn.ruleInhFro, Cairn.ruleInhLa, Cairn.ruleInhGrc, Cairn.ruleInhGen, Cairn.ruleDerFro, Cairn.ruleDerLa, Cairn.ruleDerEnm]
  rw [langRule_noop ['i', 'n', 'h'] ['e', 'n', 'm'] _ ['d', 'e', 'r'] fld ['e', 'n', 'm'] t
      (by decide) hf (by decide) ht 'd' ['e', 'r'] rfl
      (tryLangTpl_head_mismatch ['i', 'n', 'h'] ['e', 'n', 'm'] ['d', 'e', 'r'] fld ['e', 'n', 'm'] t
        (by decide) (by decide) (by decide)),
    langRule_noop ['i', 'n', 'h'] ['a', 'n', 'g'] _ ['d', 'e', 'r'] fld ['e', 'n', 'm'] t
      (by decide) hf (by decide) ht 'd' ['e', 'r'] rfl
      (tryLangTpl_head_mismatch ['i', 'n', 'h'] ['a', 'n', 'g'] ['d', 'e', 'r'] fld ['e', 'n', 'm'] t
        (by decide) (by decide) (by decide)),
    langRule_noop ['i', 'n', 'h'] ['f', 'r', 'o'] _ ['d', 'e', 'r'] fld ['e', 'n', 'm'] t
      (by decide) hf (by decide) ht 'd' ['e', 'r'] rfl
      (tryLangTpl_head_mismatch ['i', 'n', 'h'] ['f', 'r', 'o'] ['d', 'e', 'r'] fld ['e', 'n', 'm'] t
        (by decide) (by decide) (by decide)),
    langRule_noop ['i', 'n', 'h'] ['l', 'a'] _ ['d', 'e', 'r'] fld ['e', 'n', 'm'] t
      (by decide) hf (by decide) ht 'd' ['e', 'r'] rfl
      (tryLangTpl_head_mismatch ['i', 'n', 'h'] ['l', 'a'] ['d', 'e', 'r'] fld ['e', 'n', 'm'] t
        (by decide) (by decide) (by decide)),
    langRule_noop ['i', 'n', 'h'] ['g', 'r', 'c'] _ ['d', 'e', 'r'] fld ['e', 'n', 'm'] t
      (by decide) hf (by decide) ht 'd' ['e', 'r'] rfl
      (tryLangTpl_head_mismatch ['i', 'n', 'h'] ['g', 'r', 'c'] ['d', 'e', 'r'] fld ['e', 'n', 'm'] t
        (by decide) (by decide) (by decide)),
    genRule_noop ['i', 'n', 'h'] 2 _ ['d', 'e', 'r'] fld ['e', 'n', 'm'] t
      (by decide) hf (by decide) ht 'd' ['e', 'r'] rfl
      (tryGenTpl_head_mismatch ['i', 'n', 'h'] 2 ['d', 'e', 'r'] fld ['e', 'n', 'm'] t
        (by decide) (by decide) (by decide)),
    langRule_noop ['d', 'e', 'r'] ['f', 'r', 'o'] _ ['d', 'e', 'r'] fld ['e', 'n', 'm'] t
      (by decide) hf (by decide) ht 'd' ['e', 'r'] rfl
      (tryLangTpl_code_mismatch ['d', 'e', 'r'] ['f', 'r', 'o'] fld ['e', 'n', 'm'] t
        hf (by decide) (by decide) (by decide)),
    langRule_noop ['d', 'e', 'r'] ['l', 'a'] _ ['d', 'e', 'r'] fld ['e', 'n', 'm'] t
      (by decide) hf (by decide) ht 'd' ['e', 'r'] rfl
      (tryLangTpl_code_mismatch ['d', 'e', 'r'] ['l', 'a'] fld ['e', 'n', 'm'] t
        hf (by decide) (by decide) (by decide)),
    langRule_fire ['d', 'e', 'r'] ['e', 'n', 'm'] fld t _ hf ht htne]
  exact htail

theorem clean_der_grc (fld t : List Char)
    (hf : ∀ c ∈ fld, Cairn.lalpha c)
    (ht : ∀ c ∈ t, Cairn.lalpha c) (htne : t ≠ [])
    : Cairn.cleanEtymologyL (Cairn.langTpl ['d', 'e', 'r'] fld ['g', 'r', 'c'] t)
      = ['A', 'n', 'c', 'i', 'e', 'n', 't', ' ', 'G', 'r', 'e', 'e', 'k', ' '] ++ t := by
  have hta : ∀ c ∈ ['A', 'n', 'c', 'i', 'e', 'n', 't', ' ', 'G', 'r', 'e', 'e', 'k', ' '] ++ t,
      c ≠ '\x7b' ∧ c ≠ '[' ∧ c ≠ '\x27' ∧ c ≠ '<' ∧ c ≠ '\n' :=
    tame_append _ t _ (by decide) (tame_lalpha t ht)
  have hd1 : ∀ c, ((['G', 'r', 'e', 'e', 'k'] ++ ' ' :: t : List Char)).head? = some c →
      ¬(c = ' ' ∨ c = '\t') := by
    intro c hc
    simp only [List.cons_append, List.head?_cons, Option.some.injEq] at hc
    subst hc
    decide
  have hsp : Cairn.ruleSpaces (['A', 'n', 'c', 'i', 'e', 'n', 't', ' ', 'G', 'r', 'e', 'e', 'k', ' '] ++ t)
      = ['A', 'n', 'c', 'i', 'e', 'n', 't', ' ', 'G', 'r', 'e', 'e', 'k', ' '] ++ t := by
    have he : (['A', 'n', 'c', 'i', 'e', 'n', 't', ' ', 'G', 'r', 'e', 'e', 'k', ' '] ++ t : List Char)
        = ['A', 'n', 'c', 'i', 'e', 'n', 't'] ++ ' ' :: (['G', 'r', 'e', 'e', 'k'] ++ ' ' :: t) := rfl
    rw [he,
      ruleSpaces_sep ['A', 'n', 'c', 'i', 'e', 'n', 't'] (['G', 'r', 'e', 'e', 'k'] ++ ' ' :: t) (by decide) hd1,
      ruleSpaces_sep ['G', 'r', 'e', 'e', 'k'] t (by decide) (headLalphaNotSp t ht),
      ruleSpaces_id t (fun c hc => lalpha_not_sp c (ht c hc))]
  have htr : Cairn.trimSpaceL (['A', 'n', 'c', 'i', 'e', 'n', 't', ' ', 'G', 'r', 'e', 'e', 'k', ' '] ++ t)
      = ['A', 'n', 'c', 'i', 'e', 'n', 't', ' ', 'G', 'r', 'e', 'e', 'k', ' '] ++ t :=
    trimSpaceL_id _
      (by
        intro c hc
        simp only [List.cons_append, List.head?_cons, Option.some.injEq] at hc
        subst hc
        decide)
      (getLastNotWs ['A', 'n', 'c', 'i', 'e', 'n', 't', ' ', 'G', 'r', 'e', 'e', 'k', ' '] t ht htne)
  have htail := tail1_id (['A', 'n', 'c', 'i', 'e', 'n', 't', ' ', 'G', 'r', 'e', 'e', 'k', ' '] ++ t) hta hsp htr
  have h1out : ∀ c ∈ ['A', 'n', 'c', 'i', 'e', 'n', 't', ' ', 'G', 'r', 'e', 'e', 'k', ' '] ++ t, c ≠ '\x7b' :=
    fun c hc => (hta c hc).1
  rw [show Cairn.ruleInhAng (['A', 'n', 'c', 'i', 'e', 'n', 't', ' ', 'G', 'r', 'e', 'e', 'k', ' '] ++ t) = ['A', 'n', 'c', 'i', 'e', 'n', 't', ' ', 'G', 'r', 'e', 'e', 'k', ' '] ++ t from
      rule_id_of_guard _ _ '\x7b' (tryLangTpl_guard ['i', 'n', 'h'] ['a', 'n', 'g']) _ h1out,
    show Cairn.ruleInhFro (['A', 'n', 'c', 'i', 'e', 'n', 't', ' ', 'G', 'r', 'e', 'e', 'k', ' '] ++ t) = ['A', 'n', 'c', 'i', 'e', 'n', 't', ' ', 'G', 'r', 'e', 'e', 'k', ' '] ++ t from
      rule_id_of_guard _ _ '\x7b' (tryLangTpl_guard ['i', 'n', 'h'] ['f', 'r', 'o']) _ h1out,
    show Cairn.ruleInhLa (['A', 'n', 'c', 'i', 'e', 'n', 't', ' ', 'G', 'r', 'e', 'e', 'k', ' '] ++ t) = ['A', 'n', 'c', 'i', 'e', 'n', 't', ' ', 'G', 'r', 'e', 'e', 'k', ' '] ++ t from
      rule_id_of_guard _ _ '\x7b' (tryLangTpl_guard ['i', 'n', 'h'] ['l', 'a']) _ h1out,
    show Cairn.ruleInhGrc (['A', 'n', 'c', 'i', 'e', 'n', 't', ' ', 'G', 'r', 'e', 'e', 'k', ' '] ++ t) = ['A', 'n', 'c', 'i', 'e', 'n', 't', ' ', 'G', 'r', 'e', 'e', 'k', ' '] ++ t from
      rule_id_of_guard _ _ '\x7b' (tryLangTpl_guard ['i', 'n', 'h'] ['g', 'r', 'c']) _ h1out,
    show Cairn.ruleInhGen (['A', 'n', 'c', 'i', 'e', 'n', 't', ' ', 'G', 'r', 'e', 'e', 'k', ' '] ++ t) = ['A', 'n', 'c', 'i', 'e', 'n', 't', ' ', 'G', 'r', 'e', 'e', 'k', ' '] ++ t from
      rule_id_of_guard _ _ '\x7b' (tryGenTpl_guard ['i', 'n', 'h'] 2) _ h1out,
    show Cairn.ruleDerFro (['A', 'n', 'c', 'i', 'e', 'n', 't', ' ', 'G', 'r', 'e', 'e', 'k', ' '] ++ t) = ['A', 'n', 'c', 'i', 'e', 'n', 't', ' ', 'G', 'r', 'e', 'e', 'k', ' '] ++ t from
      rule_id_of_guard _ _ '\x7b' (tryLangTpl_guard ['d', 'e', 'r'] ['f', 'r', 'o']) _ h1out,
    show Cairn.ruleDerLa (['A', 'n', 'c', 'i', 'e', 'n', 't', ' ', 'G', 'r', 'e', 'e', 'k', ' '] ++ t) = ['A', 'n', 'c', 'i', 'e', 'n', 't', ' ', 'G', 'r', 'e', 'e', 'k', ' '] ++ t from
      rule_id_of_guard _ _ '\x7b' (tryLangTpl_guard ['d', 'e', 'r'] ['l', 'a']) _ h1out,
    show Cairn.ruleDerEnm (['A', 'n', 'c', 'i', 'e', 'n', 't', ' ', 'G', 'r', 'e', 'e', 'k', ' '] ++ t) = ['A', 'n', 'c', 'i', 'e', 'n', 't', ' ', 'G', 'r', 'e', 'e', 'k', ' '] ++ t from
      rule_id_of_guard _ _ '\x7b' (tryLangTpl_guard ['d', 'e', 'r'] ['e', 'n', 'm']) _ h1out,
    show Cairn.ruleDerGrc (['A', 'n', 'c', 'i', 'e', 'n', 't', ' ', 'G', 'r', 'e', 'e', 'k', ' '] ++ t) = ['A', 'n', 'c', 'i', 'e', 'n', 't', ' ', 'G', 'r', 'e', 'e', 'k', ' '] ++ t from
      rule_id_of_guard _ _ '\x7b' (tryLangTpl_guard ['d', 'e', 'r'] ['g', 'r', 'c']) _ h1out] at htail
  unfold Cairn.cleanEtymologyL
  simp only [Cairn.ruleInhEnm, Cairn.ruleInhAng, Cairn.ruleInhFro, Cairn.ruleInhLa, Cairn.ruleInhGrc, Cairn.ruleInhGen, Cairn.ruleDerFro, Cairn.ruleDerLa, Cairn.ruleDerEnm, Cairn.ruleDerGrc]
  rw [langRule_noop ['i', 'n', 'h'] ['e', 'n', 'm'] _ ['d', 'e', 'r'] fld ['g', 'r', 'c'] t
      (by decide) hf (by decide) ht 'd' ['e', 'r'] rfl
      (tryLangTpl_head_mismatch ['i', 'n', 'h'] ['e', 'n', 'm'] ['d', 'e', 'r'] fld ['g', 'r', 'c'] t
        (by decide) (by decide) (by decide)),
    langRule_noop ['i', 'n', 'h'] ['a', 'n', 'g'] _ ['d', 'e', 'r'] fld ['g', 'r', 'c'] t
      (by decide) hf (by decide) ht 'd' ['e', 'r'] rfl
      (tryLangTpl_head_mismatch ['i', 'n', 'h'] ['a', 'n', 'g'] ['d', 'e', 'r'] fld ['g', 'r', 'c'] t
        (by decide) (by decide) (by decide)),
    langRule_noop ['i', 'n', 'h'] ['f', 'r', 'o'] _ ['d', 'e', 'r'] fld ['g', 'r', 'c'] t
      (by decide) hf (by decide) ht 'd' ['e', 'r'] rfl
      (tryLangTpl_head_mismatch ['i', 'n', 'h'] ['f', 'r', 'o'] ['d', 'e', 'r'] fld ['g', 'r', 'c'] t
        (by decide) (by decide) (by decide)),
    langRule_noop ['i', 'n', 'h'] ['l', 'a'] _ ['d', 'e', 'r'] fld ['g', 'r', 'c'] t
      (by decide) hf (by decide) ht 'd' ['e', 'r'] rfl
      (tryLangTpl_head_mismatch ['i', 'n', 'h'] ['l', 'a'] ['d', 'e', 'r'] fld ['g', 'r', 'c'] t
        (by decide) (by decide) (by decide)),
    langRule_noop ['i', 'n', 'h'] ['g', 'r', 'c'] _ ['d', 'e', 'r'] fld ['g', 'r', 'c'] t
      (by decide) hf (by decide) ht 'd' ['e', 'r'] rfl
      (tryLangTpl_head_mismatch ['i', 'n', 'h'] ['g', 'r', 'c'] ['d', 'e', 'r'] fld ['g', 'r', 'c'] t
        (by decide) (by decide) (by decide)),
    genRule_noop ['i', 'n', 'h'] 2 _ ['d', 'e', 'r'] fld ['g', 'r', 'c'] t
      (by decide) hf (by decide) ht 'd' ['e', 'r'] rfl
      (tryGenTpl_head_mismatch ['i', 'n', 'h'] 2 ['d', 'e', 'r'] fld ['g', 'r', 'c'] t
        (by decide) (by decide) (by decide)),
    langRule_noop ['d', 'e', 'r'] ['f', 'r', 'o'] _ ['d', 'e', 'r'] fld ['g', 'r', 'c'] t
      (by decide) hf (by decide) ht 'd' ['e', 'r'] rfl
      (tryLangTpl_code_mismatch ['d', 'e', 'r'] ['f', 'r', 'o'] fld ['g', 'r', 'c'] t
        hf (by decide) (by decide) (by decide)),
    langRule_noop ['d', 'e', 'r'] ['l', 'a'] _ ['d', 'e', 'r'] fld ['g', 'r', 'c'] t
      (by decide) hf (by decide) ht 'd' ['e', 'r'] rfl
      (tryLangTpl_code_mismatch ['d', 'e', 'r'] ['l', 'a'] fld ['g', 'r', 'c'] t
        hf (by decide) (by decide) (by decide)),
    langRule_noop ['d', 'e', 'r'] ['e', 'n', 'm'] _ ['d', 'e', 'r'] fld ['g', 'r', 'c'] t
      (by decide) hf (by decide) ht 'd' ['e', 'r'] rfl
      (tryLangTpl_code_mismatch ['d', 'e', 'r'] ['e', 'n', 'm'] fld ['g', 'r', 'c'] t
        hf (by decide) (by decide) (by decide)),
    langRule_fire ['d', 'e', 'r'] ['g', 'r', 'c'] fld t _ hf ht htne]
  exact htail

theorem clean_der_other (fld cd t : List Char)
    (hf : ∀ c ∈ fld, Cairn.lalpha c) (hcd : ∀ c ∈ cd, Cairn.lalpha c)
    (ht : ∀ c ∈ t, Cairn.lalpha c) (htne : t ≠ [])
    (hne_fro : cd ≠ ['f', 'r', 'o']) (hne_la : cd ≠ ['l', 'a']) (hne_enm : cd ≠ ['e', 'n', 'm']) (hne_grc : cd ≠ ['g', 'r', 'c'])
    : Cairn.cleanEtymologyL (Cairn.langTpl ['d', 'e', 'r'] fld cd t)
      = t := by
  have hta := tame_lalpha t ht
  have hsp : Cairn.ruleSpaces t = t :=
    ruleSpaces_id t (fun c hc => lalpha_not_sp c (ht c hc))
  have htr : Cairn.trimSpaceL t = t :=
    trimSpaceL_id t (headLalphaNotWs t ht) (getLastLalphaNotWs t ht)
  have htail := tail1_id t hta hsp htr
  have h1out : ∀ c ∈ t, c ≠ '\x7b' :=
    fun c hc => (hta c hc).1
  rw [show Cairn.ruleInhAng (t) = t from
      rule_id_of_guard _ _ '\x7b' (tryLangTpl_guard ['i', 'n', 'h'] ['a', 'n', 'g']) _ h1out,
    show Cairn.ruleInhFro (t) = t from
      rule_id_of_guard _ _ '\x7b' (tryLangTpl_guard ['i', 'n', 'h'] ['f', 'r', 'o']) _ h1out,
    show Cairn.ruleInhLa (t) = t from
      rule_id_of_guard _ _ '\x7b' (tryLangTpl_guard ['i', 'n', 'h'] ['l', 'a']) _ h1out,
    show Cairn.ruleInhGrc (t) = t from
      rule_id_of_guard _ _ '\x7b' (tryLangTpl_guard ['i', 'n', 'h'] ['g', 'r', 'c']) _ h1out,
    show Cairn.ruleInhGen (t) = t from
      rule_id_of_guard _ _ '\x7b' (tryGenTpl_guard ['i', 'n', 'h'] 2) _ h1out,
    show Cairn.ruleDerFro (t) = t from
      rule_id_of_guard _ _ '\x7b' (tryLangTpl_guard ['d', 'e', 'r'] ['f', 'r', 'o']) _ h1out,
    show Cairn.ruleDerLa (t) = t from
      rule_id_of_guard _ _ '\x7b' (tryLangTpl_guard ['d', 'e', 'r'] ['l', 'a']) _ h1out,
    show Cairn.ruleDerEnm (t) = t from
      rule_id_of_guard _ _ '\x7b' (tryLangTpl_guard ['d', 'e', 'r'] ['e', 'n', 'm']) _ h1out,
    show Cairn.ruleDerGrc (t) = t from
      rule_id_of_guard _ _ '\x7b' (tryLangTpl_guard ['d', 'e', 'r'] ['g', 'r', 'c']) _ h1out,
    show Cairn.ruleDerGen (t) = t from
      rule_id_of_guard _ _ '\x7b' (tryGenTpl_guard ['d', 'e', 'r'] 2) _ h1out] at htail
  unfold Cairn.cleanEtymologyL
  simp only [Cairn.ruleInhEnm, Cairn.ruleInhAng, Cairn.ruleInhFro, Cairn.ruleInhLa, Cairn.ruleInhGrc, Cairn.ruleInhGen, Cairn.ruleDerFro, Cairn.ruleDerLa, Cairn.ruleDerEnm, Cairn.ruleDerGrc, Cairn.ruleDerGen]
  rw [langRule_noop ['i', 'n', 'h'] ['e', 'n', 'm'] _ ['d', 'e', 'r'] fld cd t
      (by decide) hf hcd ht 'd' ['e', 'r'] rfl
      (tryLangTpl_head_mismatch ['i', 'n', 'h'] ['e', 'n', 'm'] ['d', 'e', 'r'] fld cd t
        (by decide) (by decide) (by decide)),
    langRule_noop ['i', 'n', 'h'] ['a', 'n', 'g'] _ ['d', 'e', 'r'] fld cd t
      (by decide) hf hcd ht 'd' ['e', 'r'] rfl
      (tryLangTpl_head_mismatch ['i', 'n', 'h'] ['a', 'n', 'g'] ['d', 'e', 'r'] fld cd t
        (by decide) (by decide) (by decide)),
    langRule_noop ['i', 'n', 'h'] ['f', 'r', 'o'] _ ['d', 'e', 'r'] fld cd t
      (by decide) hf hcd ht 'd' ['e', 'r'] rfl
      (tryLangTpl_head_mismatch ['i', 'n', 'h'] ['f', 'r', 'o'] ['d', 'e', 'r'] fld cd t
        (by decide) (by decide) (by decide)),
    langRule_noop ['i', 'n', 'h'] ['l', 'a'] _ ['d', 'e', 'r'] fld cd t
      (by decide) hf hcd ht 'd' ['e', 'r'] rfl
      (tryLangTpl_head_mismatch ['i', 'n', 'h'] ['l', 'a'] ['d', 'e', 'r'] fld cd t
        (by decide) (by decide) (by decide)),
    langRule_noop ['i', 'n', 'h'] ['g', 'r', 'c'] _ ['d', 'e', 'r'] fld cd t
      (by decide) hf hcd ht 'd' ['e', 'r'] rfl
      (tryLangTpl_head_mismatch ['i', 'n', 'h'] ['g', 'r', 'c'] ['d', 'e', 'r'] fld cd t
        (by decide) (by decide) (by decide)),
    genRule_noop ['i', 'n', 'h'] 2 _ ['d', 'e', 'r'] fld cd t
      (by decide) hf hcd ht 'd' ['e', 'r'] rfl
      (tryGenTpl_head_mismatch ['i', 'n', 'h'] 2 ['d', 'e', 'r'] fld cd t
        (by decide) (by decide) (by decide)),
    langRule_noop ['d', 'e', 'r'] ['f', 'r', 'o'] _ ['d', 'e', 'r'] fld cd t
      (by decide) hf hcd ht 'd' ['e', 'r'] rfl
      (tryLangTpl_code_mismatch ['d', 'e', 'r'] ['f', 'r', 'o'] fld cd t
        hf (by decide) hcd hne_fro),
    langRule_noop ['d', 'e', 'r'] ['l', 'a'] _ ['d', 'e', 'r'] fld cd t
      (by decide) hf hcd ht 'd' ['e', 'r'] rfl
      (tryLangTpl_code_mismatch ['d', 'e', 'r'] ['l', 'a'] fld cd t
        hf (by decide) hcd hne_la),
    langRule_noop ['d', 'e', 'r'] ['e', 'n', 'm'] _ ['d', 'e', 'r'] fld cd t
      (by decide) hf hcd ht 'd' ['e', 'r'] rfl
      (tryLangTpl_code_mismatch ['d', 'e', 'r'] ['e', 'n', 'm'] fld cd t
        hf (by decide) hcd hne_enm),
    langRule_noop ['d', 'e', 'r'] ['g', 'r', 'c'] _ ['d', 'e', 'r'] fld cd t
      (by decide) hf hcd ht 'd' ['e', 'r'] rfl
      (tryLangTpl_code_mismatch ['d', 'e', 'r'] ['g', 'r', 'c'] fld cd t
        hf (by decide) hcd hne_grc),
    genRule_fire ['d', 'e', 'r'] fld cd t _ hf hcd ht htne]
  exact htail

/-- C3 (corrected): the language table of `cleanEtymologyWikitext`
(src/dict.go lines 571-581) on a single template over lowercase words.
The inheritance rules resolve all five codes enm, ang, fro, la and grc to
"<Language name> <term>", but the derivation rules resolve only fro, la,
enm and grc; a derivation template with any other code — including ang,
for which the claimed "Old English" rule does not exist — and an
inheritance template with an unrecognized code are replaced by the bare
term, with no language label. -/
theorem claim_C3 (fld t : List Char)
    (hf : ∀ c ∈ fld, Cairn.lalpha c) (ht : ∀ c ∈ t, Cairn.lalpha c) (htne : t ≠ []) :
    (Cairn.cleanEtymologyL (Cairn.langTpl ['i', 'n', 'h'] fld ['e', 'n', 'm'] t)
        = ("Middle English ").data ++ t ∧
      Cairn.cleanEtymologyL (Cairn.langTpl ['i', 'n', 'h'] fld ['a', 'n', 'g'] t)
        = ("Old English ").data ++ t ∧
      Cairn.cleanEtymologyL (Cairn.langTpl ['i', 'n', 'h'] fld ['f', 'r', 'o'] t)
        = ("Old French ").data ++ t ∧
      Cairn.cleanEtymologyL (Cairn.langTpl ['i', 'n', 'h'] fld ['l', 'a'] t)
        = ("Latin ").data ++ t ∧
      Cairn.cleanEtymologyL (Cairn.langTpl ['i', 'n', 'h'] fld ['g', 'r', 'c'] t)
        = ("Ancient Greek ").data ++ t) ∧
    (Cairn.cleanEtymologyL (Cairn.langTpl ['d', 'e', 'r'] fld ['f', 'r', 'o'] t)
        = ("Old French ").data ++ t ∧
      Cairn.cleanEtymologyL (Cairn.langTpl ['d', 'e', 'r'] fld ['l', 'a'] t)
        = ("Latin ").data ++ t ∧
      Cairn.cleanEtymologyL (Cairn.langTpl ['d', 'e', 'r'] fld ['e', 'n', 'm'] t)
        = ("Middle English ").data ++ t ∧
      Cairn.cleanEtymologyL (Cairn.langTpl ['d', 'e', 'r'] fld ['g', 'r', 'c'] t)
        = ("Ancient Greek ").data ++ t) ∧
    (∀ cd, (∀ c ∈ cd, Cairn.lalpha c) → cd ≠ ['e', 'n', 'm'] → cd ≠ ['a', 'n', 'g'] →
      cd ≠ ['f', 'r', 'o'] → cd ≠ ['l', 'a'] → cd ≠ ['g', 'r', 'c'] →
      Cairn.cleanEtymologyL (Cairn.langTpl ['i', 'n', 'h'] fld cd t) = t) ∧
    (∀ cd, (∀ c ∈ cd, Cairn.lalpha c) → cd ≠ ['f', 'r', 'o'] → cd ≠ ['l', 'a'] →
      cd ≠ ['e', 'n', 'm'] → cd ≠ ['g', 'r', 'c'] →
      Cairn.cleanEtymologyL (Cairn.langTpl ['d', 'e', 'r'] fld cd t) = t) := by
  refine ⟨⟨?_, ?_, ?_, ?_, ?_⟩, ⟨?_, ?_, ?_, ?_⟩, ?_, ?_⟩
  · exact clean_inh_enm fld t hf ht htne
  · exact clean_inh_ang fld t hf ht htne
  · exact clean_inh_fro fld t hf ht htne
  · exact clean_inh_la fld t hf ht htne
  · exact clean_inh_grc fld t hf ht htne
  · exact clean_der_fro fld t hf ht htne
  · exact clean_der_la fld t hf ht htne
  · exact clean_der_enm fld t hf ht htne
  · exact clean_der_grc fld t hf ht htne
  · intro cd hcd h1 h2 h3 h4 h5
    exact clean_inh_other fld cd t hf hcd ht htne h1 h2 h3 h4 h5
  · intro cd hcd h1 h2 h3 h4
    exact clean_der_other fld cd t hf hcd ht htne h1 h2 h3 h4

/-- C3 counterexample to the claim as stated: the derivation-template
rules of `cleanEtymologyWikitext` (src/dict.go lines 577-580) cover only
fro, la, enm and grc — there is no Old English (ang) derivation rule —
so an ang derivation template is replaced by the bare term, not by
"Old English <term>". -/
theorem claim_C3_counterexample :
    Cairn.cleanEtymologyWikitext ("\x7b\x7bder|en|ang|word\x7d\x7d") = ("word") ∧
    ("word" : String) ≠ ("Old English word") := by
  constructor
  · have h := clean_der_other ['e', 'n'] ['a', 'n', 'g'] ['w', 'o', 'r', 'd']
      (by decide) (by decide) (by decide) (by decide)
      (by decide) (by decide) (by decide) (by decide)
    have hdata : ("\x7b\x7bder|en|ang|word\x7d\x7d").data
        = Cairn.langTpl ['d', 'e', 'r'] ['e', 'n'] ['a', 'n', 'g'] ['w', 'o', 'r', 'd'] := by
      decide
    show (⟨Cairn.cleanEtymologyL (("\x7b\x7bder|en|ang|word\x7d\x7d").data)⟩ : String) = ("word")
    rw [hdata, h]
  · decide

/-- Witness for C3: the derivation-from-Latin case at field "en" and
term "vertere". -/
theorem claim_C3_witness :
    Cairn.cleanEtymologyL (Cairn.langTpl ['d', 'e', 'r'] ['e', 'n'] ['l', 'a']
        ['v', 'e', 'r', 't', 'e', 'r', 'e'])
      = ("Latin ").data ++ ['v', 'e', 'r', 't', 'e', 'r', 'e'] :=
  (claim_C3 ['e', 'n'] ['v', 'e', 'r', 't', 'e', 'r', 'e'] (by decide) (by decide)
    (by decide)).2.1.2.1

theorem claim_C10_witness :
    (Cairn.suggestClosest ['a', 'b'] 3 [['a', 'x']] = some ['a', 'x'] ∧
      (['a', 'x'] : List Char) ≠ Cairn.lower ['a', 'b']) ∧
    ((∃ f qs, Cairn.lower ['a', 'b'] = f :: qs ∧ (['a', 'x'] : List Char).head? = some f) ∧
      ((Cairn.lower ['a', 'b']).length ≤ (['a', 'x'] : List Char).length + 2 ∧
        (['a', 'x'] : List Char).length ≤ (Cairn.lower ['a', 'b']).length + 2) ∧
      Cairn.levenshtein (Cairn.lower ['a', 'b']) ['a', 'x'] ≤ 3) :=
  ⟨⟨by decide, by decide⟩,
    claim_C10 ['a', 'b'] 3 [['a', 'x']] ['a', 'x'] (by decide) (by decide)⟩

/-- C6: when no vocabulary entry is within `maxDistance` of the lowered
query (the loaded vocabulary being lowercase, as `loadWordList`
guarantees), `suggestClosest` returns nothing. -/
theorem claim_C6 (word : List Char) (maxD : Nat) (list : List (List Char))
    (hpos : 0 < maxD)
    (hlow : ∀ e ∈ list, Cairn.lower e = e)
    (hdist : ∀ e ∈ list, maxD < Cairn.levenshtein (Cairn.lower word) e) :
    Cairn.suggestClosest word maxD list = none := by
  by_cases hl : list.isEmpty
  · simp [Cairn.suggestClosest, hl]
  · have hl' : list.isEmpty = false := by
      cases h : list.isEmpty
      · rfl
      · exact absurd h hl
    match hfq : Cairn.lower word with
    | [] => simp [Cairn.suggestClosest, hl', hfq]
    | f :: qs =>
      simp only [Cairn.suggestClosest, hl', Bool.false_eq_true, if_false, hfq]
      exact suggestLoop_none list (f :: qs) f maxD (maxD + 1) hlow (hfq ▸ hdist)

theorem claim_C6_witness :
    (0 < 3 ∧ (∀ e ∈ [['z', 'z', 'z', 'z', 'z']], Cairn.lower e = e) ∧
      (∀ e ∈ [['z', 'z', 'z', 'z', 'z']],
        3 < Cairn.levenshtein (Cairn.lower ['a', 'b']) e)) ∧
    Cairn.suggestClosest ['a', 'b'] 3 [['z', 'z', 'z', 'z', 'z']] = none :=
  ⟨⟨by decide, by decide, by decide⟩,
    claim_C6 ['a', 'b'] 3 [['z', 'z', 'z', 'z', 'z']] (by decide) (by decide) (by decide)⟩

/-- C4: redirect exclusion. If the served document's resolved headword
(the lowercased final path component, after trimming a trailing slash)
differs from the requested word (trimmed and lowercased), then
`fetchEtymonlineEtymology` returns the empty text without error — for
every possible document body, so no redirected content is ever
attributed to the requested word. -/
theorem claim_C4 (word : String) (status : Nat) (respPath body : List Char)
    (hw : Cairn.trimSpaceL (Cairn.lower word.data) ≠ [])
    (hst : status = 200)
    (hred : Cairn.resolvedHeadword respPath ≠ Cairn.trimSpaceL (Cairn.lower word.data)) :
    Cairn.fetchEtymonlineEtymology word status respPath body = some [] := by
  simp only [Cairn.fetchEtymonlineEtymology]
  rw [if_neg hw, if_neg (by simp [hst]), if_pos hred]

theorem claim_C4_witness :
    (Cairn.trimSpaceL (Cairn.lower ("advertise").data) ≠ [] ∧ (200 : Nat) = 200 ∧
      Cairn.resolvedHeadword (("/word/advert").data)
        ≠ Cairn.trimSpaceL (Cairn.lower ("advertise").data)) ∧
    Cairn.fetchEtymonlineEtymology ("advertise") 200 (("/word/advert").data) [] = some [] :=
  ⟨⟨by decide, rfl, by decide⟩,
    claim_C4 ("advertise") 200 (("/word/advert").data) [] (by decide) rfl (by decide)⟩

theorem afterLastNl_none_no_nl : ∀ (l : List Char), Cairn.afterLastNl l = none → '\n' ∉ l := by
  intro l
  induction l with
  | nil => intro _ h; simp at h
  | cons c cs ih =>
    intro h hm
    unfold Cairn.afterLastNl at h
    cases hcs : Cairn.afterLastNl cs with
    | some r => rw [hcs] at h; simp at h
    | none =>
      rw [hcs] at h
      by_cases hc : c = '\n'
      · rw [if_pos hc] at h; simp at h
      · rcases List.mem_cons.mp hm with h2 | h2
        · exact hc h2.symm
        · exact ih hcs h2

theorem afterLastNl_no_nl : ∀ (l r : List Char), Cairn.afterLastNl l = some r → '\n' ∉ r := by
  intro l
  induction l with
  | nil => intro r h; simp [Cairn.afterLastNl] at h
  | cons c cs ih =>
    intro r h
    unfold Cairn.afterLastNl at h
    cases hcs : Cairn.afterLastNl cs with
    | some r2 =>
      rw [hcs] at h
      simp only [Option.some.injEq] at h
      subst h
      exact ih r2 hcs
    | none =>
      rw [hcs] at h
      by_cases hc : c = '\n'
      · rw [if_pos hc] at h
        simp only [Option.some.injEq] at h
        subst h
        exact afterLastNl_none_no_nl cs hcs
      · rw [if_neg hc] at h; simp at h

theorem lineAfterWs_no_nl (s cap : List Char) (h : Cairn.lineAfterWs s = some cap) :
    '\n' ∉ cap := by
  unfold Cairn.lineAfterWs at h
  cases hr : Cairn.afterLastNl (s.takeWhile Cairn.isGoSpace) with
  | none => rw [hr] at h; simp at h
  | some r2 =>
    rw [hr] at h
    simp only [Option.some.injEq] at h
    subst h
    intro hm
    rcases List.mem_append.mp hm with h2 | h2
    · exact afterLastNl_no_nl _ r2 hr h2
    · have h3 := List.mem_takeWhile_imp h2
      simp at h3

theorem esGo_no_nl : ∀ (s : List Char) (b : Bool) (cap : List Char),
    Cairn.esGo b s = some cap → '\n' ∉ cap := by
  intro s
  induction s with
  | nil => intro b cap h; simp [Cairn.esGo] at h
  | cons c cs ih =>
    intro b cap h
    cases b with
    | false =>
      simp only [Cairn.esGo] at h
      exact ih _ cap h
    | true =>
      simp only [Cairn.esGo] at h
      split at h
      · rename_i rest hm
        split at h
        · rename_i cap2 hl
          cases h
          exact lineAfterWs_no_nl rest _ hl
        · rename_i hl
          exact ih _ cap h
      · rename_i hm
        exact ih _ cap h

theorem tryLit_guard (d : Char) (lit : List Char) :
    ∀ s y rest, Cairn.tryLit (d :: lit) s = some (y, rest) →
      ∃ c, s.head? = some c ∧ c = d := by
  intro s y rest h
  unfold Cairn.tryLit at h
  rw [if_neg (by simp)] at h
  cases hm : Cairn.matchLit (d :: lit) s with
  | none => rw [hm] at h; simp at h
  | some r => exact ⟨d, matchLit_some_head _ _ _ _ hm, rfl⟩

/-- C9 (corrected): example extraction priority and caps, over the
document's byte sequence. With the English section captured as the
code's regex does, `extractWiktionaryExample` prefers the `ux` quotation
template; else the `passage=` field, capped to 300 BYTES total (byte
slice to 297 plus "..." when longer); else the first `#:` line's text
(trimmed and cut at an inner template), used only when longer than 20
bytes and capped to 280 bytes total (byte slice to 277 plus "..."); each
result passes through the bold/link stripping of `cleanExampleText`;
when nothing matches the example is empty. The caps and the gate count
bytes (Go `len` and slicing), not characters as the claim said — the
two diverge on non-ASCII text (see the counterexample). The captured
section never contains a newline, so the `#:` line scanned is the only
one. -/
theorem claim_C9 (w sec : List Char)
    (hsec : Cairn.englishSection (Cairn.normalizeNewlines w) = some sec) :
    ('\n' ∉ sec) ∧
    (∀ y, Cairn.findFirst Cairn.tryUx sec = some y →
      Cairn.extractWiktionaryExampleL w = Cairn.cleanExampleTextL y) ∧
    (Cairn.findFirst Cairn.tryUx sec = none →
      ∀ y, Cairn.findFirst Cairn.tryPassage sec = some y →
        Cairn.extractWiktionaryExampleL w
          = Cairn.cleanExampleTextL (if 300 < y.length then y.take 297 ++ ("...").data else y)) ∧
    (Cairn.findFirst Cairn.tryUx sec = none →
      Cairn.findFirst Cairn.tryPassage sec = none →
      ∀ y, Cairn.hashColonFind true sec = some y →
        ((20 < (Cairn.hashCut y).length →
            Cairn.extractWiktionaryExampleL w
              = Cairn.cleanExampleTextL (if 280 < (Cairn.hashCut y).length
                  then (Cairn.hashCut y).take 277 ++ ("...").data else Cairn.hashCut y)) ∧
          ((Cairn.hashCut y).length ≤ 20 → Cairn.extractWiktionaryExampleL w = []))) ∧
    (Cairn.findFirst Cairn.tryUx sec = none →
      Cairn.findFirst Cairn.tryPassage sec = none →
      Cairn.hashColonFind true sec = none →
      Cairn.extractWiktionaryExampleL w = []) := by
  have hbase : Cairn.extractWiktionaryExampleL w = Cairn.exampleFromSection sec := by
    unfold Cairn.extractWiktionaryExampleL
    simp only [hsec]
  refine ⟨esGo_no_nl _ true sec hsec, ?_, ?_, ?_, ?_⟩
  · intro y hy
    rw [hbase]
    unfold Cairn.exampleFromSection
    simp only [hy]
  · intro hux y hy
    rw [hbase]
    unfold Cairn.exampleFromSection
    simp only [hux, hy]
  · intro hux hpass y hy
    constructor
    · intro h20
      rw [hbase]
      unfold Cairn.exampleFromSection
      simp only [hux, hpass, hy]
      rw [if_pos ⟨List.ne_nil_of_length_pos (by omega), h20⟩]
    · intro h20
      rw [hbase]
      unfold Cairn.exampleFromSection
      simp only [hux, hpass, hy]
      rw [if_neg (fun hand => absurd hand.2 (by omega))]
  · intro hux hpass hhash
    rw [hbase]
    unfold Cairn.exampleFromSection
    simp only [hux, hpass, hhash]

theorem claim_C9_witness :
    (Cairn.englishSection
        (Cairn.normalizeNewlines (("==English==\n\x7b\x7bux|en|an old word\x7d\x7d").data))
      = some (("\x7b\x7bux|en|an old word\x7d\x7d").data)) ∧
    Cairn.findFirst Cairn.tryUx (("\x7b\x7bux|en|an old word\x7d\x7d").data)
      = some (("an old word").data) ∧
    Cairn.extractWiktionaryExampleL (("==English==\n\x7b\x7bux|en|an old word\x7d\x7d").data)
      = Cairn.cleanExampleTextL (("an old word").data) := by
  have hnorm : Cairn.normalizeNewlines (("==English==\n\x7b\x7bux|en|an old word\x7d\x7d").data)
      = ("==English==\n\x7b\x7bux|en|an old word\x7d\x7d").data := by
    unfold Cairn.normalizeNewlines
    rw [rule_id_of_guard (Cairn.tryLit ['\x0d', '\n']) (fun _ => ['\n']) '\x0d'
        (tryLit_guard '\x0d' ['\n'])
        (("==English==\n\x7b\x7bux|en|an old word\x7d\x7d").data) (by decide),
      rule_id_of_guard (Cairn.tryLit ['\x0d']) (fun _ => ['\n']) '\x0d'
        (tryLit_guard '\x0d' [])
        (("==English==\n\x7b\x7bux|en|an old word\x7d\x7d").data) (by decide)]
  have hsec : Cairn.englishSection
      (Cairn.normalizeNewlines (("==English==\n\x7b\x7bux|en|an old word\x7d\x7d").data))
      = some (("\x7b\x7bux|en|an old word\x7d\x7d").data) := by
    rw [hnorm]
    decide
  have hux : Cairn.findFirst Cairn.tryUx (("\x7b\x7bux|en|an old word\x7d\x7d").data)
      = some (("an old word").data) := by decide
  exact ⟨hsec, hux,
    (claim_C9 (("==English==\n\x7b\x7bux|en|an old word\x7d\x7d").data)
      (("\x7b\x7bux|en|an old word\x7d\x7d").data) hsec).2.1 (("an old word").data) hux⟩

theorem tryBold_guard :
    ∀ s y rest, Cairn.tryBold s = some (y, rest) → ∃ c, s.head? = some c ∧ c = '\x27' := by
  intro s y rest h
  unfold Cairn.tryBold at h
  cases hm : Cairn.matchLit ['\x27', '\x27', '\x27'] s with
  | none => rw [hm] at h; simp at h
  | some s1 => exact ⟨'\x27', matchLit_some_head _ _ _ _ hm, rfl⟩

theorem head_all {P : Char → Prop} (s : List Char) (hs : ∀ c ∈ s, P c) :
    ∀ c, s.head? = some c → P c := by
  intro c hc
  cases s with
  | nil => simp at hc
  | cons a as =>
    simp only [List.head?_cons, Option.some.injEq] at hc
    subst hc
    exact hs a (List.mem_cons_self a as)

theorem getLast_all {P : Char → Prop} (s : List Char) (hs : ∀ c ∈ s, P c) :
    ∀ c, s.getLast? = some c → P c := by
  intro c hc
  rcases List.mem_getLast?_eq_getLast (Option.mem_def.mpr hc) with ⟨h, hx⟩
  subst hx
  exact hs _ (List.getLast_mem h)

theorem cleanExampleTextL_id (s : List Char)
    (h27 : ∀ c ∈ s, c ≠ '\x27') (hbr : ∀ c ∈ s, c ≠ '[')
    (hws : ∀ c ∈ s, ¬(c.isWhitespace = true)) :
    Cairn.cleanExampleTextL s = s := by
  have htr := trimSpaceL_id s (head_all s hws) (getLast_all s hws)
  unfold Cairn.cleanExampleTextL
  rw [htr, rule_id_of_guard _ _ '\x27' tryBold_guard s h27,
    rule_id_of_guard _ _ '[' tryLink_guard s hbr, htr]

/-- C9 counterexample to the claim as stated: the caps and the
more-than-20 gate of dict.go lines 543-555 count Go bytes, not
characters. On a document whose only example form is a `#:` line of
fifteen `é` characters — 15 characters, but 30 UTF-8 bytes — the claim
("the first `#:` definition-line example whose text exceeds 20
characters", else an empty example) predicts the empty example, yet the
program's byte gate sees 30 > 20 and returns the text. -/
theorem claim_C9_counterexample :
    ("ééééééééééééééé").data.length ≤ 20 ∧
    (Cairn.strBytes ("ééééééééééééééé")).length = 30 ∧
    Cairn.extractWiktionaryExample ("==English==\n#: ééééééééééééééé")
      = Cairn.strBytes ("ééééééééééééééé") ∧
    Cairn.strBytes ("ééééééééééééééé") ≠ [] := by
  refine ⟨by decide, by decide, ?_, by decide⟩
  have hnorm : Cairn.normalizeNewlines (Cairn.strBytes ("==English==\n#: ééééééééééééééé"))
      = Cairn.strBytes ("==English==\n#: ééééééééééééééé") := by
    unfold Cairn.normalizeNewlines
    rw [rule_id_of_guard (Cairn.tryLit ['\x0d', '\n']) (fun _ => ['\n']) '\x0d'
        (tryLit_guard '\x0d' ['\n'])
        (Cairn.strBytes ("==English==\n#: ééééééééééééééé")) (by decide),
      rule_id_of_guard (Cairn.tryLit ['\x0d']) (fun _ => ['\n']) '\x0d'
        (tryLit_guard '\x0d' [])
        (Cairn.strBytes ("==English==\n#: ééééééééééééééé")) (by decide)]
  show Cairn.extractWiktionaryExampleL (Cairn.strBytes ("==English==\n#: ééééééééééééééé"))
      = Cairn.strBytes ("ééééééééééééééé")
  unfold Cairn.extractWiktionaryExampleL
  rw [hnorm]
  have hsec : Cairn.englishSection (Cairn.strBytes ("==English==\n#: ééééééééééééééé"))
      = some (Cairn.strBytes ("#: ééééééééééééééé")) := by decide
  simp only [hsec]
  unfold Cairn.exampleFromSection
  have hux : Cairn.findFirst Cairn.tryUx (Cairn.strBytes ("#: ééééééééééééééé")) = none := by
    decide
  have hpass : Cairn.findFirst Cairn.tryPassage (Cairn.strBytes ("#: ééééééééééééééé"))
      = none := by decide
  have hhash : Cairn.hashColonFind true (Cairn.strBytes ("#: ééééééééééééééé"))
      = some (Cairn.strBytes ("ééééééééééééééé")) := by decide
  simp only [hux, hpass, hhash]
  have hcut : Cairn.hashCut (Cairn.strBytes ("ééééééééééééééé"))
      = Cairn.strBytes ("ééééééééééééééé") := by decide
  rw [hcut]
  rw [if_pos ⟨by decide, by decide⟩]
  rw [if_neg (by decide)]
  exact cleanExampleTextL_id (Cairn.strBytes ("ééééééééééééééé"))
    (by decide) (by decide) (by decide)
